import Mathlib

/-!
Verification of csv-json-project: the CSV tokenizer, the record mapper, the import loop and the
batch insert.

A shallow embedding of `src/csvParser.js` and of `insertUsersBatch` in `src/db.js`.

Modelling conventions.

* A JavaScript string is a list of characters (`Str`).  The source only ever compares
  characters with the double quote, the comma, the dot and white space, all of which are single
  UTF-16 code units, so scanning by character and scanning by code unit visit the same
  positions.
* An index `i` into `line` is represented by the suffix `line.slice(i)` that is still to be read.
* A `while` loop whose trip count is bounded by the line length is a function that is
  structurally recursive on that suffix; the outer loop of `parseCsvLine`, which advances by a
  whole field per iteration, carries the number of iterations it may still need.
* An object is the list of its own properties in insertion order together with its prototype,
  which is `Object.prototype` or `null`.  `Object.prototype` is shared by all objects and
  outlives a call, so the properties written to it are passed from call to call; reads and
  writes follow the prototype chain, including the accessor `__proto__`.  The rule that moves
  keys which look like array indices to the front of the enumeration order is not part of the
  model.
* A function that can throw returns, next to its result, whether it has thrown.
* `null` and `undefined` results are `none` where the source treats them alike.
-/

namespace CsvJson

/-- A JavaScript string. -/
abbrev Str := List Char

/-! ## Runtime operations on strings -/

/-- White space as recognised by `String.prototype.trim` and by the regular expression `\s`:
the ECMAScript `WhiteSpace` and `LineTerminator` code points. -/
def isJsSpace (c : Char) : Bool :=
  let n := c.toNat
  n == 0x09 || n == 0x0A || n == 0x0B || n == 0x0C || n == 0x0D || n == 0x20 ||
  n == 0xA0 || n == 0x1680 || (0x2000 ≤ n && n ≤ 0x200A) ||
  n == 0x2028 || n == 0x2029 || n == 0x202F || n == 0x205F || n == 0x3000 || n == 0xFEFF

/-- The method `String.prototype.trimEnd`. -/
def trimEnd (s : Str) : Str := (s.reverse.dropWhile isJsSpace).reverse

/-- The method `String.prototype.trim`. -/
def trim (s : Str) : Str := trimEnd (s.dropWhile isJsSpace)

/-! ## `parseCsvLine` -/

/-- The inner loop of a quoted field (source lines 23-39).  `rest` is `line.slice(i)` and
`field` the text gathered so far; the result is the field and the suffix at the index where the
loop stops. -/
def scanQuoted : List Char → Str → Str × List Char
  | [], field => (field, [])
  | c :: rest, field =>
    if c = '"' then
      match rest with
      | d :: rest2 =>
        if d = '"' then scanQuoted rest2 (field ++ ['"'])   -- escaped quote, `i += 2`
        else (field, d :: rest2)                              -- closing quote, `i++; break`
      | [] => (field, [])                                     -- closing quote at end of line
    else scanQuoted rest (field ++ [c])

/-- The loop `while (i < N && line[i] !== ',') i++` (source lines 41-44 and line 50): both
branches of the `if` at line 42 advance by one. -/
def skipToComma (rest : List Char) : List Char := rest.dropWhile (fun c => c != ',')

/-- The statement `if (i < N && line[i] === ',') i++` (source lines 46 and 53). -/
def skipComma : List Char → List Char
  | c :: rest => if c = ',' then rest else c :: rest
  | [] => []

/-- The outer loop of `parseCsvLine` (source lines 17-55).  `rest` is `line.slice(i)`, `fields`
the array built so far, and the first argument bounds the number of iterations still allowed;
every iteration consumes at least one character, so `rest.length` iterations always suffice
(`parseLoop_fuel`). -/
def parseLoop : Nat → List Char → List Str → List Str
  | 0, _, fields => fields
  | _ + 1, [], fields => fields
  | fuel + 1, ch :: rest, fields =>
    if ch = '"' then
      let r := scanQuoted rest []
      parseLoop fuel (skipComma (skipToComma r.2)) (fields ++ [r.1])
    else
      let field := trim ((ch :: rest).takeWhile (fun c => c != ','))
      parseLoop fuel (skipComma (skipToComma (ch :: rest))) (fields ++ [field])

/-- The function `parseCsvLine(line)`. -/
def parseCsvLine (line : Str) : List Str := parseLoop line.length line []

/-- The text `s` with every double quote doubled. -/
def escapeQuotes (s : Str) : Str := s.flatMap (fun c => if c = '"' then ['"', '"'] else [c])

/-- The text `s` written as a quoted CSV field. -/
def quoteField (s : Str) : Str := '"' :: (escapeQuotes s ++ ['"'])

/-! ## Numbers

A JavaScript Number is an IEEE double.  The Numbers that the source obtains from `parseInt` are
integer valued, infinite or NaN and are represented exactly (`JsNum`); negative zero, which no
operation of the source tells apart from zero, is identified with zero.  The Numbers obtained
from `parseFloat` are kept as the literal they were read from (`JsVal.float`), and the two
operations the source applies to them are supplied by a `FloatRuntime`. -/

/-- A Number produced by `parseInt`. -/
inductive JsNum
  | fin (n : Int)
  | inf (neg : Bool)
  | nan
  deriving DecidableEq

/-- Number of binary digits of `n`, for `n` below `2 ^ fuel`. -/
def bitLen : Nat → Nat → Nat
  | 0, _ => 0
  | fuel + 1, n => if n = 0 then 0 else bitLen fuel (n / 2) + 1

/-- The double nearest to the natural number `n` (ties to even), or `none` when `n` rounds to
infinity.  Doubles carry 53 significant bits and are below `2 ^ 1024`. -/
def roundDouble (n : Nat) : Option Nat :=
  if n < 2 ^ 53 then some n
  else
    let e := bitLen 1100 n - 53
    let q := n / 2 ^ e
    let r := n % 2 ^ e
    let half := 2 ^ (e - 1)
    let m := if half < r ∨ (r = half ∧ q % 2 = 1) then q + 1 else q
    let v := m * 2 ^ e
    if bitLen 1100 v ≤ 1024 then some v else none

/-- The Number for the integer of magnitude `n` and sign `neg`. -/
def toDouble (neg : Bool) (n : Nat) : JsNum :=
  match roundDouble n with
  | some v => .fin (if neg then -(v : Int) else (v : Int))
  | none => .inf neg

/-- Value of a run of decimal digits. -/
def digitsVal (ds : Str) : Nat := ds.foldl (fun acc c => 10 * acc + (c.toNat - 48)) 0

/-- The call `parseInt(s, 10)` on a string: leading white space is skipped, a sign is read, and
the longest run of decimal digits that follows is the value; NaN when there is no digit. -/
def parseIntText (s : Str) : JsNum :=
  let t := s.dropWhile isJsSpace
  let neg := t.head? == some '-'
  let body := match t with
    | '-' :: r => r
    | '+' :: r => r
    | _ => t
  let ds := body.takeWhile Char.isDigit
  if ds = [] then .nan else toDouble neg (digitsVal ds)

/-- Search for the shortest decimal that reads back as the double `x`: for `k = 1, 2, ...`
significant digits, the two `k`-digit neighbours of `x` are tried, the closer one first. -/
def shortestFrom (x nd : Nat) : Nat → Nat → Nat
  | 0, _ => x
  | fuel + 1, k =>
    let p := 10 ^ (nd - k)
    let lo := x / p * p
    let hi := lo + p
    let okLo := roundDouble lo == some x
    let okHi := roundDouble hi == some x
    if okLo && okHi then
      (if x - lo < hi - x then lo else if hi - x < x - lo then hi
       else if (x / p) % 2 = 0 then lo else hi)
    else if okLo then lo
    else if okHi then hi
    else shortestFrom x nd fuel (k + 1)

/-- The decimal that `Number.prototype.toString` prints for the integer-valued double `x`: `x`
itself below `2 ^ 53`, and otherwise the shortest decimal that reads back as `x`. -/
def shortestDec (x : Nat) : Nat :=
  if x < 2 ^ 53 then x else shortestFrom x (Nat.toDigits 10 x).length 17 1

/-- Exponent form `d.ddde+n` of the decimal `v`, used from `1e21` on. -/
def expText (v : Nat) : Str :=
  let ds := Nat.toDigits 10 v
  let sig := (ds.reverse.dropWhile (fun c => c == '0')).reverse
  match sig with
  | [] => ds
  | d :: more =>
    (d :: (if more = [] then [] else '.' :: more)) ++ 'e' :: '+' :: Nat.toDigits 10 (ds.length - 1)

/-- The string `String(x)` for a non-negative integer-valued double. -/
def natText (x : Nat) : Str :=
  let v := shortestDec x
  if v < 10 ^ 21 then Nat.toDigits 10 v else expText v

/-- The string `String(x)` of a Number produced by `parseInt`. -/
def numToText : JsNum → Str
  | .fin n => if n < 0 then '-' :: natText n.natAbs else natText n.natAbs
  | .inf false => "Infinity".toList
  | .inf true => "-Infinity".toList
  | .nan => "NaN".toList

/-- The two operations applied to a Number `parseFloat(lit)`, where `lit` matches the decimal
pattern of `coerceValue`. -/
structure FloatRuntime where
  /-- Whether `parseFloat(lit)` is truthy, that is, not zero. -/
  truthy : Str → Bool
  /-- The string `String(parseFloat(lit))`. -/
  toText : Str → Str

/-- A sample runtime: it prints a literal as written, which is what JavaScript does for
literals such as `1.5` that are already in shortest form. -/
def sampleFloats : FloatRuntime where
  truthy := fun lit => lit.any (fun c => c.isDigit && c != '0')
  toText := fun lit => lit

/-! ## Values and objects

The mapper creates every object with `{}`, so the prototype of an object is `Object.prototype`
until the assignment `obj.__proto__ = null` replaces it by `null`.  `Object.prototype` is one
object shared by all of them and by all calls: the model passes it along explicitly, as the
properties the program has written to it.  Of its built-in members only the accessor
`__proto__` matters, because all the others are functions, which the test of source line 66
treats like a missing property and which an assignment overwrites or shadows like one. -/

/-- A value of a cell after coercion: `null` or a scalar.  These are the values `val` takes
(source line 91). -/
inductive JsVal
  | null
  | num (x : JsNum)
  | float (lit : Str)
  | bool (b : Bool)
  | str (s : Str)
  deriving DecidableEq

mutual
/-- What a property holds: a cell value or an object. -/
inductive Entry
  | val (v : JsVal)
  | obj (props : Props)
  deriving DecidableEq
/-- An object: its own properties in insertion order, ended by its prototype, which is
`Object.prototype` (`nil`) or `null` (`bare`). -/
inductive Props
  | nil
  | bare
  | cons (key : Str) (val : Entry) (rest : Props)
  deriving DecidableEq
end

/-- The own property `key` of an object; `none` when there is none. -/
def objGet : Props → Str → Option Entry
  | .cons k v rest, key => if k = key then some v else objGet rest key
  | _, _ => none

/-- The object with the own property `key` set to `value`: an existing property keeps its
place, a new one comes last. -/
def objSet : Props → Str → Entry → Props
  | .cons k v rest, key, value =>
    if k = key then .cons k value rest else .cons k v (objSet rest key value)
  | .nil, key, value => .cons key value .nil
  | .bare, key, value => .cons key value .bare

/-- Whether the prototype of an object is `null`. -/
def isBare : Props → Bool
  | .nil => false
  | .bare => true
  | .cons _ _ rest => isBare rest

/-- The object with its prototype replaced by `null`. -/
def makeBare : Props → Props
  | .cons k v rest => .cons k v (makeBare rest)
  | _ => .bare

/-- The key of the accessor `Object.prototype.__proto__`. -/
def protoKey : Str := "__proto__".toList

/-- Truthiness of a value, as in `val ? ... : ...`. -/
def truthy (R : FloatRuntime) : JsVal → Bool
  | .null => false
  | .num (.fin n) => n != 0
  | .num (.inf _) => true
  | .num .nan => false
  | .float lit => R.truthy lit
  | .bool b => b
  | .str s => s != []

/-- The conversion `String(val)`. -/
def jsString (R : FloatRuntime) : JsVal → Str
  | .null => "null".toList
  | .num x => numToText x
  | .float lit => R.toText lit
  | .bool true => "true".toList
  | .bool false => "false".toList
  | .str s => s

/-- The call `parseInt(val, 10)`: the argument is converted to a string first. -/
def jsParseInt (R : FloatRuntime) (val : JsVal) : JsNum := parseIntText (jsString R val)

/-! ## `coerceValue` -/

/-- Whether `s` is a non-empty run of decimal digits (`\d+` anchored at both ends). -/
def allDigits (s : Str) : Bool := s != [] && s.all Char.isDigit

/-- The text `s` without one leading minus sign (`-?`). -/
def dropMinus : Str → Str
  | '-' :: r => r
  | s => s

/-- The test `/^-?\d+$/.test(s)`. -/
def isIntPattern (s : Str) : Bool := allDigits (dropMinus s)

/-- The test `/^-?\d+\.\d+$/.test(s)`. -/
def isDecPattern (s : Str) : Bool :=
  let body := dropMinus s
  match body.dropWhile Char.isDigit with
  | '.' :: frac => allDigits (body.takeWhile Char.isDigit) && allDigits frac
  | _ => false

/-- The method `toLowerCase`, on the letters `A`-`Z`.  The source compares the result only with
`true` and `false`, and no character outside `A`-`Z` lower-cases to a letter of these words. -/
def toLowerCase (s : Str) : Str := s.map Char.toLower

/-- The function `coerceValue(s)`; the argument `none` is `null`. -/
def coerceValue : Option Str → JsVal
  | none => .null
  | some s =>
    if s = [] then .null
    else if isIntPattern s then .num (parseIntText s)
    else if isDecPattern s then .float s
    else
      let low := toLowerCase s
      if low = "true".toList then .bool true
      else if low = "false".toList then .bool false
      else .str s

/-! ## `setNested` and `mapRow` -/

/-- The assignment `cur[key] = value` of a cell value to a property of an object `cur` other
than `Object.prototype` (source lines 64 and 112).  An own property is overwritten.  Otherwise
the prototype chain decides.  A key other than `__proto__` is missing from the chain or is a
writable data property of `Object.prototype`, so an own property is created.  The key
`__proto__` is the accessor of `Object.prototype`, unless the prototype of `cur` is `null`, in
which case an own property is created as well; the setter makes `null` the prototype of `cur`
and ignores every other cell value. -/
def assignKey (cur : Props) (key : Str) (value : JsVal) : Props :=
  if (objGet cur key).isSome then objSet cur key (.val value)
  else if key ≠ protoKey then objSet cur key (.val value)
  else if isBare cur then objSet cur key (.val value)
  else if value = .null then makeBare cur
  else cur

/-- The object reached from `top` along the own keys `path`. -/
def nodeAt : Props → List Str → Option Props
  | top, [] => some top
  | top, key :: rest =>
    match objGet top key with
    | some (.obj child) => nodeAt child rest
    | _ => none

/-- The object `top` after `f` has been applied to the object reached along `path`. -/
def modifyAt (f : Props → Props) : Props → List Str → Props
  | top, [] => f top
  | top, key :: rest =>
    match objGet top key with
    | some (.obj child) => objSet top key (.obj (modifyAt f child rest))
    | _ => top

/-- Source lines 66-69 when `cur` is `Object.prototype` (`cur = []`) or the object reached from
it along the own keys `cur`: the test of `cur[key]`, the assignment `cur[key] = {}` when the
test holds, and `cur = cur[key]`.  The result is `Object.prototype` afterwards and the new
`cur`; `none` is a TypeError.

On `Object.prototype` the read of `__proto__` gives `null`, the test holds, and the setter
throws a TypeError for the value `{}`, because the prototype of `Object.prototype` cannot be
changed.  On an object below it, with `Object.prototype` as its prototype, the read of
`__proto__` gives `Object.prototype`, and the read of another key that is not an own property
gives the property of `Object.prototype`.  (`cur` always names an object, a read or write
through `undefined` would be a TypeError too.) -/
def protoDescend (proto : Props) (cur : List Str) (key : Str) : Option (Props × List Str) :=
  let fresh := some (modifyAt (fun node => objSet node key (.obj .nil)) proto cur, cur ++ [key])
  match nodeAt proto cur with
  | none => none
  | some node =>
    if cur = [] then
      if key = protoKey then none
      else
        match objGet node key with
        | some (.obj _) => some (proto, [key])
        | _ => fresh
    else
      match objGet node key with
      | some (.obj _) => some (proto, cur ++ [key])
      | some (.val _) => fresh
      | none =>
        if isBare node then fresh
        else if key = protoKey then some (proto, [])
        else
          match objGet proto key with
          | some (.obj _) => some (proto, [key])
          | _ => fresh

/-- Source line 64 when `cur` is `Object.prototype` (`cur = []`) or an object below it.  On
`Object.prototype` the setter of `__proto__` does nothing for a cell value: `null` is its
prototype already and a scalar is ignored. -/
def protoAssign (proto : Props) (cur : List Str) (key : Str) (value : JsVal) : Option Props :=
  match nodeAt proto cur with
  | none => none
  | some _ =>
    if cur = [] then
      if key = protoKey then some proto else some (objSet proto key (.val value))
    else some (modifyAt (fun node => assignKey node key value) proto cur)

/-- The rest of the loop of `setNested` once `cur` has left the tree of `obj`: it is
`Object.prototype` or an object below it, and stays there.  The result is `Object.prototype`
afterwards and whether a TypeError has been thrown. -/
def setInProto : Props → List Str → List Str → JsVal → Props × Bool
  | proto, _, [], _ => (proto, false)
  | proto, cur, [key], value =>
    match protoAssign proto cur key value with
    | some proto1 => (proto1, false)
    | none => (proto, true)
  | proto, cur, key :: next :: more, value =>
    match protoDescend proto cur key with
    | some (proto1, cur1) => setInProto proto1 cur1 (next :: more) value
    | none => (proto, true)

/-- What a call of `setNested` leaves behind: the object `obj`, `Object.prototype`, and whether
the call has ended with a TypeError. -/
structure SetResult where
  obj : Props
  proto : Props
  threw : Bool
  deriving DecidableEq

/-- The function `setNested(obj, pathArr, value)`, with `Object.prototype` as `proto`.  The
loop over `pathArr` is a recursion on the object `cur` points to, which is `obj` at first.  At
the last key `value` is assigned (line 64).  At every other key (lines 66-69) an own property
that is an object is entered; an own property that is a cell value is replaced by a fresh `{}`,
which is entered; and when there is no own property, the prototype of `cur` decides: with
`null` nothing is inherited and a fresh `{}` is stored and entered; otherwise the key
`__proto__` reads `Object.prototype`, another key reads the property of `Object.prototype`,
and `cur` moves there when this is an object, while a missing property, a cell value or a
built-in function is shadowed by a fresh `{}` of `cur`. -/
def setNested (proto : Props) : Props → List Str → JsVal → SetResult
  | obj, [], _ => { obj := obj, proto := proto, threw := false }
  | obj, [key], value => { obj := assignKey obj key value, proto := proto, threw := false }
  | obj, key :: next :: more, value =>
    match objGet obj key with
    | some (.obj child) =>
      let r := setNested proto child (next :: more) value
      { r with obj := objSet obj key (.obj r.obj) }
    | some (.val _) =>
      let r := setNested proto .nil (next :: more) value
      { r with obj := objSet obj key (.obj r.obj) }
    | none =>
      if isBare obj then
        let r := setNested proto .nil (next :: more) value
        { r with obj := objSet obj key (.obj r.obj) }
      else if key = protoKey then
        let r := setInProto proto [] (next :: more) value
        { obj := obj, proto := r.1, threw := r.2 }
      else
        match objGet proto key with
        | some (.obj _) =>
          let r := setInProto proto [key] (next :: more) value
          { obj := obj, proto := r.1, threw := r.2 }
        | _ =>
          let r := setNested proto .nil (next :: more) value
          { r with obj := objSet obj key (.obj r.obj) }

/-- The method `split(sep)` with a one-character separator. -/
def splitOnChar (sep : Char) : Str → List Str
  | [] => [[]]
  | c :: rest =>
    if c = sep then [] :: splitOnChar sep rest
    else match splitOnChar sep rest with
      | seg :: segs => (c :: seg) :: segs
      | [] => [[c]]

/-- The array `rowVals` (source line 79): one cell per header, `''` beyond the end of
`values`. -/
def rowVals (headers values : List Str) : List Str :=
  (List.range headers.length).map (fun idx => if idx < values.length then values.getD idx [] else [])

/-- The variables of the loop of `mapRow` (`none` is `null`), `Object.prototype`, and whether
a TypeError has left the loop. -/
structure MapState where
  address : Props
  additional_info : Props
  firstName : Option Str
  lastName : Option Str
  age : Option JsNum
  proto : Props
  threw : Bool
  deriving DecidableEq

/-- The state before the loop (source lines 81-85). -/
def MapState.init (proto : Props) : MapState :=
  { address := .nil, additional_info := .nil, firstName := none, lastName := none, age := none,
    proto := proto, threw := false }

/-- The coerced cell `val` (source lines 90-91): the cell is trimmed, and is `null` when
nothing is left. -/
def cellValue (cell : Str) : JsVal :=
  let valRaw := trim cell
  if valRaw = [] then JsVal.null else coerceValue (some valRaw)

/-- The expression `val ? String(val) : ''` (source lines 94 and 96). -/
def nameComponent (R : FloatRuntime) (val : JsVal) : Str :=
  if truthy R val then jsString R val else []

/-- The value given to `age` (source lines 98-103). -/
def ageOfVal (R : FloatRuntime) (val : JsVal) : Option JsNum :=
  if val = JsVal.null then none
  else
    let parsed := jsParseInt R val
    if parsed = JsNum.nan then none else some parsed

/-- One iteration of the loop of `mapRow` (source lines 88-114) for the header `col.1` and the
cell `col.2` of `rowVals` at the same index.  After a TypeError the loop is left, so a state
that has thrown no longer changes. -/
def mapStep (R : FloatRuntime) (st : MapState) (col : Str × Str) : MapState :=
  if st.threw then st
  else
    let rawHeader := trim col.1
    if rawHeader = [] then st
    else
      let val := cellValue col.2
      if rawHeader = "name.firstName".toList then
        { st with firstName := some (nameComponent R val) }
      else if rawHeader = "name.lastName".toList then
        { st with lastName := some (nameComponent R val) }
      else if rawHeader = "age".toList then
        { st with age := ageOfVal R val }
      else if "address.".toList.isPrefixOf rawHeader then
        let r := setNested st.proto st.address ((splitOnChar '.' rawHeader).drop 1) val
        { st with address := r.obj, proto := r.proto, threw := r.threw }
      else if rawHeader.contains '.' then
        let r := setNested st.proto st.additional_info (splitOnChar '.' rawHeader) val
        { st with additional_info := r.obj, proto := r.proto, threw := r.threw }
      else
        { st with additional_info := assignKey st.additional_info rawHeader val }

/-- The record returned by `mapRow`. -/
structure Record where
  name : Str
  age : JsNum
  address : Option Props
  additional_info : Option Props
  deriving DecidableEq

/-- The state of `mapRow` after its loop over the columns. -/
def mapLoop (R : FloatRuntime) (proto : Props) (headers values : List Str) : MapState :=
  (List.zip headers (rowVals headers values)).foldl (mapStep R) (MapState.init proto)

/-- The expression `Object.keys(o).length ? o : null`. -/
def nonEmptyOrNull : Props → Option Props
  | .cons key val rest => some (.cons key val rest)
  | _ => none

/-- The validation and the construction of the record (source lines 117-128); `none` is the
rejection marker `null`. -/
def finishRow (st : MapState) : Option Record :=
  match st.firstName, st.lastName, st.age with
  | some firstName, some lastName, some age =>
    some { name := trim (trim firstName ++ ' ' :: trim lastName)
           age := age
           address := nonEmptyOrNull st.address
           additional_info := nonEmptyOrNull st.additional_info }
  | _, _, _ => none

/-- How a call of `mapRow` ends: with a TypeError, with the rejection marker `null`, or with a
record. -/
inductive RowResult
  | threw
  | rejected
  | accepted (record : Record)
  deriving DecidableEq

/-- The way `mapRow` ends when it returns `mapped`, a record or the rejection marker
`null`. -/
def returned : Option Record → RowResult
  | some record => .accepted record
  | none => .rejected

/-- A call of `mapRow`: how it ends, and `Object.prototype` afterwards. -/
structure RowRun where
  result : RowResult
  proto : Props
  deriving DecidableEq

/-- The function `mapRow(headers, values)`, called when `Object.prototype` is `proto`. -/
def mapRow (R : FloatRuntime) (proto : Props) (headers values : List Str) : RowRun :=
  let st := mapLoop R proto headers values
  { result := if st.threw then .threw else returned (finishRow st)
    proto := st.proto }

/-! ## The import loop of `processCsvFile`

The lines delivered by `readline` are a list of strings.  `insertUsersBatch` is the sink: the
model records the argument of every call, and an oracle `ok` tells whether the call with a given
index (counted from 0) succeeds or throws.  `batchSize` is the value of the local constant of
that name (source line 147), and `proto` is `Object.prototype` as earlier imports of the same
process have left it. -/

/-- The replacement `rawLine.replace(/\r$/, '')`. -/
def stripCR (rawLine : Str) : Str :=
  if rawLine.getLast? = some '\r' then rawLine.dropLast else rawLine

/-- The variables of the loop of `processCsvFile`, the calls made to `insertUsersBatch` so far,
whether an exception has left the loop, and `Object.prototype`. -/
structure ImportState where
  headers : Option (List Str)
  batch : List Record
  inserted : Nat
  skipped : Nat
  totalLines : Nat
  calls : List (List Record)
  failed : Bool
  proto : Props
  deriving DecidableEq

/-- The state before the loop (source lines 153-157). -/
def ImportState.init (proto : Props) : ImportState :=
  { headers := none, batch := [], inserted := 0, skipped := 0, totalLines := 0, calls := [],
    failed := false, proto := proto }

/-- The flush inside the loop (source lines 181-183): `await insertUsersBatch(batch)`, and when
it returns, `inserted += batch.length; batch = []`.  When it throws, nothing else happens. -/
def flushBatch (ok : Nat → Bool) (st : ImportState) : ImportState :=
  if ok st.calls.length then
    { st with calls := st.calls ++ [st.batch], inserted := st.inserted + st.batch.length,
              batch := [] }
  else
    { st with calls := st.calls ++ [st.batch], failed := true }

/-- One iteration of the loop over the lines (source lines 161-184).  An exception thrown by
`mapRow` or by `insertUsersBatch` is not caught, so the loop is left and a failed state no
longer changes. -/
def importStep (R : FloatRuntime) (batchSize : Nat) (ok : Nat → Bool) (st : ImportState)
    (rawLine : Str) : ImportState :=
  if st.failed then st
  else
    let line := stripCR rawLine
    if trim line = [] then st
    else
      match st.headers with
      | none => { st with headers := some ((parseCsvLine line).map trim) }
      | some headers =>
        let run := mapRow R st.proto headers (parseCsvLine line)
        let st1 := { st with totalLines := st.totalLines + 1, proto := run.proto }
        match run.result with
        | .threw => { st1 with failed := true }
        | .rejected => { st1 with skipped := st1.skipped + 1 }
        | .accepted mapped =>
          let st2 := { st1 with batch := st1.batch ++ [mapped] }
          if batchSize ≤ st2.batch.length then flushBatch ok st2 else st2

/-- The final flush (source lines 187-190). -/
def finalFlush (ok : Nat → Bool) (st : ImportState) : ImportState :=
  if st.failed then st
  else if 0 < st.batch.length then
    if ok st.calls.length then
      { st with calls := st.calls ++ [st.batch], inserted := st.inserted + st.batch.length }
    else
      { st with calls := st.calls ++ [st.batch], failed := true }
  else st

/-- The import loop with its final flush (source lines 160-190). -/
def importLoop (R : FloatRuntime) (batchSize : Nat) (ok : Nat → Bool) (proto : Props)
    (lines : List Str) : ImportState :=
  finalFlush ok (lines.foldl (importStep R batchSize ok) (ImportState.init proto))

/-- The summary `{ inserted, skipped, totalLines }`. -/
structure Summary where
  inserted : Nat
  skipped : Nat
  totalLines : Nat
  deriving DecidableEq

/-- The outcome of `processCsvFile` on an existing file: the summary, or `none` when `mapRow`
or a call of `insertUsersBatch` has thrown and the error has propagated. -/
def processCsvFile (R : FloatRuntime) (batchSize : Nat) (ok : Nat → Bool) (proto : Props)
    (lines : List Str) : Option Summary :=
  let st := importLoop R batchSize ok proto lines
  if st.failed then none
  else some { inserted := st.inserted, skipped := st.skipped, totalLines := st.totalLines }

/-- The non-blank lines of the input, each without its trailing carriage return. -/
def dataLines (lines : List Str) : List Str :=
  (lines.map stripCR).filter (fun line => trim line ≠ [])

/-- The rows mapped one after the other with the same header, each call of `mapRow` starting
from the `Object.prototype` the previous one has left. -/
def rowResults (R : FloatRuntime) (headers : List Str) : Props → List Str → List RowResult
  | _, [] => []
  | proto, line :: rest =>
    (mapRow R proto headers (parseCsvLine line)).result ::
      rowResults R headers (mapRow R proto headers (parseCsvLine line)).proto rest

/-- How `mapRow` ends on every row of the input: the first non-blank line is the header, every
later non-blank line is a row. -/
def rowOutcomes (R : FloatRuntime) (proto : Props) (lines : List Str) : List RowResult :=
  match dataLines lines with
  | [] => []
  | header :: rows => rowResults R ((parseCsvLine header).map trim) proto rows

/-- The record of an accepted row. -/
def RowResult.record? : RowResult → Option Record
  | .accepted record => some record
  | _ => none

/-- The records accepted by `mapRow`, in file order. -/
def acceptedRows (R : FloatRuntime) (proto : Props) (lines : List Str) : List Record :=
  (rowOutcomes R proto lines).filterMap RowResult.record?

/-- The state of the loop between two lines when nothing has been thrown: the records flushed
and buffered so far are `acc`, every flushed batch is full and the buffer is not. -/
def BatchInv (batchSize : Nat) (st : ImportState) (acc : List Record) : Prop :=
  st.failed = false ∧ st.calls.flatten ++ st.batch = acc ∧
    (∀ c ∈ st.calls, c.length = batchSize) ∧ st.batch.length < batchSize

/-- The tokenizer started at the suffix `rest` with `fields` already produced. -/
def parseFrom (rest : List Char) (fields : List Str) : List Str :=
  parseLoop rest.length rest fields

/-- The columns of a row: every header with the cell of `rowVals` at the same index. -/
def columns (headers values : List Str) : List (Str × Str) :=
  List.zip headers (rowVals headers values)

/-- The cell of the last column whose trimmed header is `name`, if there is such a column. -/
def lastCell (name : Str) (cols : List (Str × Str)) : Option Str :=
  ((cols.filter (fun col => trim col.1 = name)).getLast?).map (fun col => col.2)

/-- A letter: `A`-`Z`, `a`-`z`, or a character outside ASCII that is not white space (which
covers every letter of another alphabet). -/
def IsLetter (c : Char) : Prop := c.isAlpha = true ∨ (128 ≤ c.toNat ∧ isJsSpace c = false)

instance (c : Char) : Decidable (IsLetter c) := by unfold IsLetter; infer_instance

/-- A letter or a decimal digit. -/
def IsAlnum (c : Char) : Prop := IsLetter c ∨ c.isDigit = true

/-- An alphabetic word: non-empty, letters only, and not `true` or `false` in any letter
case. -/
def IsWord (w : Str) : Prop :=
  w ≠ [] ∧ (∀ ch ∈ w, IsLetter ch) ∧
    toLowerCase w ≠ "true".toList ∧ toLowerCase w ≠ "false".toList

instance (w : Str) : Decidable (IsWord w) := by unfold IsWord; infer_instance

/-- Whether `t` begins with a decimal digit, possibly after one sign `+` or `-`. -/
def startsWithInt : Str → Bool
  | '-' :: c :: _ => c.isDigit
  | '+' :: c :: _ => c.isDigit
  | c :: _ => c.isDigit
  | [] => false

/-- The decimal integer string with sign `neg` and digits `ds`. -/
def signedText (neg : Bool) (ds : Str) : Str := if neg then '-' :: ds else ds

/-- The integer written by `signedText neg ds`. -/
def signedVal (neg : Bool) (ds : Str) : Int :=
  if neg then -(digitsVal ds : Int) else (digitsVal ds : Int)

/-- A non-empty run of decimal digits. -/
def IsDigits (ds : Str) : Prop := ds ≠ [] ∧ ∀ c ∈ ds, c.isDigit = true

instance (ds : Str) : Decidable (IsDigits ds) := by unfold IsDigits; infer_instance

/-- The integer pattern in words: an optional `-` followed by one or more digits. -/
def IntForm (s : Str) : Prop := ∃ (neg : Bool) (ds : Str), IsDigits ds ∧ s = signedText neg ds

/-- The decimal pattern in words: an optional `-`, digits, a dot, digits. -/
def DecForm (s : Str) : Prop :=
  ∃ (neg : Bool) (ip fp : Str), IsDigits ip ∧ IsDigits fp ∧ s = signedText neg (ip ++ '.' :: fp)

/-- The decimal rendering of an integer. -/
def intText (z : Int) : Str := signedText (decide (z < 0)) (Nat.toDigits 10 z.natAbs)

/-- Looking up a path segment by segment through own properties: `v[k1][k2]...`; `none` when
a segment is missing or is reached on a cell value. -/
def lookupPath : Entry → List Str → Option Entry
  | v, [] => some v
  | .obj o, key :: rest =>
    match objGet o key with
    | some x => lookupPath x rest
    | none => none
  | .val _, _ :: _ => none

/-- The non-blank lines after the header line. -/
def rowLines (lines : List Str) : List Str := (dataLines lines).tail

/-- The number of rows rejected by `mapRow`. -/
def rejectedCount (R : FloatRuntime) (proto : Props) (lines : List Str) : Nat :=
  (rowOutcomes R proto lines).count RowResult.rejected

/-- The counters between two lines, as long as nothing has been thrown: `res` tells how
`mapRow` has ended on the rows read so far, none of them with a TypeError; the records flushed
and buffered so far are the accepted ones, `inserted` counts the flushed ones, `skipped` the
rejected rows and `totalLines` all rows. -/
def CountInv (st : ImportState) (res : List RowResult) : Prop :=
  st.failed = false →
    st.calls.flatten ++ st.batch = res.filterMap RowResult.record? ∧
      st.inserted = st.calls.flatten.length ∧ st.skipped = res.count RowResult.rejected ∧
      st.totalLines = res.length ∧ RowResult.threw ∉ res

/-- What the calls made so far say about the sink: every call but the last has succeeded;
while nothing has been thrown the last one has succeeded too and `inserted` counts the records
of all calls; and after an exception either the last call is the one that failed and `inserted`
counts the records of the earlier calls only, or `mapRow` has thrown, all calls have succeeded
and `inserted` counts the records of all of them. -/
def FailInv (ok : Nat → Bool) (st : ImportState) : Prop :=
  (∀ i, i + 1 < st.calls.length → ok i = true) ∧
  (st.failed = false →
    (∀ i, i < st.calls.length → ok i = true) ∧ st.inserted = st.calls.flatten.length) ∧
  (st.failed = true →
    (st.calls ≠ [] ∧ ok (st.calls.length - 1) = false ∧
      st.inserted = st.calls.dropLast.flatten.length) ∨
    ((∀ i, i < st.calls.length → ok i = true) ∧ st.inserted = st.calls.flatten.length))

/-- A blank line: empty or white space only. -/
def IsBlank (rawLine : Str) : Prop := ∀ c ∈ rawLine, isJsSpace c = true

instance (rawLine : Str) : Decidable (IsBlank rawLine) := by unfold IsBlank; infer_instance

/-! ## `insertUsersBatch` (`src/db.js`)

The pool, the client and `JSON.stringify` are external.  A run of `insertUsersBatch` is the list
of operations it performs on the pool and the client, in order, together with the error it
ends with, if any.  An oracle `ok` tells whether the operation at a given position of that list
(counted from 0) succeeds or throws; `client.release()` does not throw.  `stringify` stands for
`JSON.stringify` on the address and additional-info objects. -/

/-- A bound parameter of the insert statement. -/
inductive SqlParam
  | text (s : Str)
  | num (x : JsNum)
  | null
  deriving DecidableEq

/-- The placeholder tuple built for the row with index `i` (source lines 28 and 33). -/
def placeholderTuple (i : Nat) : Str :=
  let base := i * 4
  "($".toList ++ Nat.toDigits 10 (base + 1) ++ ", $".toList ++ Nat.toDigits 10 (base + 2) ++
    ", $".toList ++ Nat.toDigits 10 (base + 3) ++ "::jsonb, $".toList ++
    Nat.toDigits 10 (base + 4) ++ "::jsonb)".toList

/-- The expression `o ? JSON.stringify(o) : null` (source lines 31 and 32). -/
def jsonOrNull (stringify : Props → Str) : Option Props → SqlParam
  | some o => .text (stringify o)
  | none => .null

/-- The four parameters pushed for one row (source lines 29-32). -/
def rowParams (stringify : Props → Str) (r : Record) : List SqlParam :=
  [.text r.name, .num r.age, jsonOrNull stringify r.address,
    jsonOrNull stringify r.additional_info]

/-- The array returned by `rows.map` before it is joined (source lines 27-34). -/
def valueTuples (rows : List Record) : List Str :=
  (List.range rows.length).map placeholderTuple

/-- The array `values` after the `map` (source lines 26-34). -/
def insertValues (stringify : Props → Str) (rows : List Record) : List SqlParam :=
  rows.flatMap (rowParams stringify)

/-- The method `Array.prototype.join` on strings. -/
def joinWith (sep : Str) : List Str → Str
  | [] => []
  | [s] => s
  | s :: t :: more => s ++ sep ++ joinWith sep (t :: more)

/-- The array `columns` (source line 22). -/
def insertColumns : List Str :=
  ["\"name\"".toList, "age".toList, "address".toList, "additional_info".toList]

/-- The string `query` (source line 36). -/
def insertQuery (rows : List Record) : Str :=
  "INSERT INTO public.users (".toList ++ joinWith ",".toList insertColumns ++
    ") VALUES ".toList ++ joinWith ",".toList (valueTuples rows) ++ ";".toList

/-- An operation on the pool or on the client. -/
inductive DbEvent
  | connect
  | begin
  | insert (query : Str) (values : List SqlParam)
  | commit
  | rollback
  | release
  deriving DecidableEq

/-- A run of `insertUsersBatch`: the operations performed and the position of the operation
whose error the call ends with (`none` when the call returns normally). -/
structure DbRun where
  trace : List DbEvent
  error : Option Nat
  deriving DecidableEq

/-- The `try` block (source lines 40-42) for a client obtained at position 0: the statements
sent, and the position of the one that threw, if any. -/
def tryBlock (ok : Nat → Bool) (stmt : DbEvent) : List DbEvent × Option Nat :=
  if ok 1 then
    if ok 2 then
      if ok 3 then ([.begin, stmt, .commit], none)
      else ([.begin, stmt, .commit], some 3)
    else ([.begin, stmt], some 2)
  else ([.begin], some 1)

/-- The function `insertUsersBatch(rows)` (source lines 18-49). -/
def insertUsersBatch (stringify : Props → Str) (ok : Nat → Bool) (rows : List Record) : DbRun :=
  if rows.length = 0 then { trace := [], error := none }
  else
    let stmt := DbEvent.insert (insertQuery rows) (insertValues stringify rows)
    if ok 0 then
      match tryBlock ok stmt with
      | (sent, none) => { trace := .connect :: sent ++ [.release], error := none }
      | (sent, some e) =>
        -- `catch`: ROLLBACK is the operation at position `sent.length + 1`
        if ok (sent.length + 1) then
          { trace := .connect :: sent ++ [.rollback, .release], error := some e }
        else
          { trace := .connect :: sent ++ [.rollback, .release], error := some (sent.length + 1) }
    else { trace := [.connect], error := some 0 }

/-- A sample `JSON.stringify` for closed examples: it only tells an empty object from a
non-empty one. -/
def sampleStringify : Props → Str
  | .cons _ _ _ => "{...}".toList
  | _ => "{}".toList

/-- The pieces without the final one when that piece is the empty string. -/
def dropFinalEmpty (pieces : List Str) : List Str :=
  if pieces.getLast? = some [] then pieces.dropLast else pieces

/-- The reference tokenizer for lines without quotes: split at every comma, drop a final empty
piece, trim every remaining piece. -/
def splitTrim (line : Str) : List Str := (dropFinalEmpty (splitOnChar ',' line)).map trim

/-- A header that, once trimmed, starts with `address.`. -/
def IsAddressHeader (header : Str) : Prop := "address.".toList.isPrefixOf (trim header) = true

instance (header : Str) : Decidable (IsAddressHeader header) := by
  unfold IsAddressHeader; infer_instance
/-! ## Facts about the tokenizer -/

theorem scanQuoted_nil (field : Str) : scanQuoted [] field = (field, []) := by
  simp [scanQuoted]

theorem scanQuoted_plain (c : Char) (rest : List Char) (field : Str) (h : c ≠ '"') :
    scanQuoted (c :: rest) field = scanQuoted rest (field ++ [c]) := by
  rw [scanQuoted.eq_def]; simp [h]

theorem scanQuoted_escaped (rest : List Char) (field : Str) :
    scanQuoted ('"' :: '"' :: rest) field = scanQuoted rest (field ++ ['"']) := by
  rw [scanQuoted]; simp

theorem scanQuoted_close (d : Char) (rest : List Char) (field : Str) (h : d ≠ '"') :
    scanQuoted ('"' :: d :: rest) field = (field, d :: rest) := by
  rw [scanQuoted]; simp [h]

theorem scanQuoted_close_end (field : Str) : scanQuoted ['"'] field = (field, []) := by
  rw [scanQuoted]; simp

theorem scanQuoted_length (rest : List Char) :
    ∀ field : Str, (scanQuoted rest field).2.length ≤ rest.length := by
  induction rest using Nat.strongRecMeasure List.length with
  | ind rest ih =>
    intro field
    match rest with
    | [] => simp [scanQuoted_nil]
    | c :: rest1 =>
      by_cases hc : c = '"'
      · subst hc
        match rest1 with
        | [] => simp [scanQuoted_close_end]
        | d :: rest2 =>
          by_cases hd : d = '"'
          · subst hd
            have := ih rest2 (by simp only [List.length_cons]; omega) (field ++ ['"'])
            rw [scanQuoted_escaped]
            simp only [List.length_cons]
            omega
          · rw [scanQuoted_close _ _ _ hd]; simp
      · have := ih rest1 (by simp) (field ++ [c])
        rw [scanQuoted_plain _ _ _ hc]
        simp only [List.length_cons]
        omega

theorem skipToComma_length (rest : List Char) : (skipToComma rest).length ≤ rest.length := by
  unfold skipToComma
  exact (List.dropWhile_sublist _).length_le

theorem skipComma_length (rest : List Char) : (skipComma rest).length ≤ rest.length := by
  cases rest with
  | nil => simp [skipComma]
  | cons c rest =>
    by_cases h : c = ','
    · simp [skipComma, h]
    · simp [skipComma, h]

theorem skip_length_lt (ch : Char) (rest : List Char) :
    (skipComma (skipToComma (ch :: rest))).length ≤ rest.length := by
  by_cases h : ch = ','
  · simp [skipToComma, skipComma, h]
  · have h1 := skipComma_length (rest.dropWhile (fun c => c != ','))
    have h2 : (rest.dropWhile (fun c => c != ',')).length ≤ rest.length :=
      (List.dropWhile_sublist _).length_le
    simp only [skipToComma, List.dropWhile_cons, bne_iff_ne, ne_eq, h, not_false_eq_true,
      if_true]
    omega

/-- Enough iterations: once the bound is at least the number of unread characters, its exact
value does not matter, so the loop always leaves through its exit test `i < N`. -/
theorem parseLoop_fuel (fuel : Nat) :
    ∀ (rest : List Char) (fields : List Str), rest.length ≤ fuel →
      parseLoop fuel rest fields = parseLoop rest.length rest fields := by
  induction fuel using Nat.strong_induction_on with
  | _ fuel ih =>
    intro rest fields hle
    match fuel, rest with
    | 0, [] => rfl
    | _ + 1, [] => simp [parseLoop]
    | fuel + 1, ch :: rest1 =>
      have hq := scanQuoted_length rest1 []
      have h1 := skipComma_length (skipToComma (scanQuoted rest1 []).2)
      have h2 := skipToComma_length (scanQuoted rest1 []).2
      have h3 := skip_length_lt ch rest1
      simp only [List.length_cons] at hle ⊢
      by_cases hc : ch = '"'
      · simp only [parseLoop, hc, if_true]
        rw [ih fuel (by omega) _ _ (by omega), ih rest1.length (by omega) _ _ (by omega)]
      · simp only [parseLoop, hc, if_false]
        rw [ih fuel (by omega) _ _ (by omega), ih rest1.length (by omega) _ _ (by omega)]

theorem parseCsvLine_eq (line : Str) : parseCsvLine line = parseFrom line [] := rfl

theorem parseFrom_nil (fields : List Str) : parseFrom [] fields = fields := rfl

theorem parseFrom_quote (rest : List Char) (fields : List Str) :
    parseFrom ('"' :: rest) fields =
      parseFrom (skipComma (skipToComma (scanQuoted rest []).2))
        (fields ++ [(scanQuoted rest []).1]) := by
  have hq := scanQuoted_length rest []
  have h1 := skipComma_length (skipToComma (scanQuoted rest []).2)
  have h2 := skipToComma_length (scanQuoted rest []).2
  simp only [parseFrom, List.length_cons, parseLoop, if_true]
  exact parseLoop_fuel _ _ _ (by omega)

theorem parseFrom_plain (ch : Char) (rest : List Char) (fields : List Str) (h : ch ≠ '"') :
    parseFrom (ch :: rest) fields =
      parseFrom (skipComma (skipToComma (ch :: rest)))
        (fields ++ [trim ((ch :: rest).takeWhile (fun c => c != ','))]) := by
  have h3 := skip_length_lt ch rest
  simp only [parseFrom, List.length_cons, parseLoop, h, if_false]
  exact parseLoop_fuel _ _ _ (by omega)

/-- Scanning an escaped text up to its closing quote gives the text back; the scan stops right
after the closing quote when what follows does not start with a quote. -/
theorem scanQuoted_escape (s : Str) (tail : List Char) (htail : tail.head? ≠ some '"') :
    ∀ field : Str, scanQuoted (escapeQuotes s ++ '"' :: tail) field = (field ++ s, tail) := by
  induction s with
  | nil =>
    intro field
    cases tail with
    | nil => simp [escapeQuotes, scanQuoted_close_end]
    | cons d tail =>
      have hd : d ≠ '"' := by simpa using htail
      simp [escapeQuotes, scanQuoted_close _ _ _ hd]
  | cons c s ih =>
    intro field
    by_cases hc : c = '"'
    · subst hc
      have := ih (field ++ ['"'])
      simp only [escapeQuotes, List.flatMap_cons, if_true] at this ⊢
      simp only [List.cons_append, List.nil_append, scanQuoted_escaped]
      simpa using this
    · have := ih (field ++ [c])
      simp only [escapeQuotes, List.flatMap_cons, hc, if_false] at this ⊢
      simp only [List.cons_append, List.nil_append, scanQuoted_plain _ _ _ hc]
      simpa using this

theorem escapeQuotes_of_not_mem (s : Str) (h : '"' ∉ s) : escapeQuotes s = s := by
  induction s with
  | nil => rfl
  | cons c s ih =>
    have hc : c ≠ '"' := fun e => h (by simp [e])
    have hs : '"' ∉ s := fun e => h (by simp [e])
    simp only [escapeQuotes, List.flatMap_cons, hc, if_false] at ih ⊢
    simp [ih hs]

theorem takeWhile_notComma_append (a : Str) (tail : List Char) (h : ',' ∉ a) :
    (a ++ ',' :: tail).takeWhile (fun c => c != ',') = a := by
  induction a with
  | nil => simp
  | cons c a ih =>
    have hc : c ≠ ',' := fun e => h (by simp [e])
    have ha : ',' ∉ a := fun e => h (by simp [e])
    simp [List.takeWhile_cons, hc, ih ha]

theorem takeWhile_notComma_self (a : Str) (h : ',' ∉ a) :
    a.takeWhile (fun c => c != ',') = a := by
  induction a with
  | nil => simp
  | cons c a ih =>
    have hc : c ≠ ',' := fun e => h (by simp [e])
    have ha : ',' ∉ a := fun e => h (by simp [e])
    simp [List.takeWhile_cons, hc, ih ha]

theorem skipToComma_append (a : Str) (tail : List Char) (h : ',' ∉ a) :
    skipToComma (a ++ ',' :: tail) = ',' :: tail := by
  induction a with
  | nil => simp [skipToComma]
  | cons c a ih =>
    have hc : c ≠ ',' := fun e => h (by simp [e])
    have ha : ',' ∉ a := fun e => h (by simp [e])
    have := ih ha
    simp only [skipToComma] at this ⊢
    simp [List.dropWhile_cons, hc, this]

theorem skipToComma_self (a : Str) (h : ',' ∉ a) : skipToComma a = [] := by
  induction a with
  | nil => simp [skipToComma]
  | cons c a ih =>
    have hc : c ≠ ',' := fun e => h (by simp [e])
    have ha : ',' ∉ a := fun e => h (by simp [e])
    have := ih ha
    simp only [skipToComma] at this ⊢
    simp [List.dropWhile_cons, hc, this]

/-- An unquoted field followed by a comma. -/
theorem parseFrom_plain_comma (a : Str) (tail : List Char) (fields : List Str)
    (hne : a ≠ []) (hq : '"' ∉ a) (hc : ',' ∉ a) :
    parseFrom (a ++ ',' :: tail) fields = parseFrom tail (fields ++ [trim a]) := by
  cases a with
  | nil => exact absurd rfl hne
  | cons ch a1 =>
    have h1 : ch ≠ '"' := fun e => hq (by simp [e])
    have := parseFrom_plain ch (a1 ++ ',' :: tail) fields h1
    rw [List.cons_append, this, ← List.cons_append, takeWhile_notComma_append _ _ hc,
      skipToComma_append _ _ hc]
    simp [skipComma]

/-- An unquoted field that ends the line. -/
theorem parseFrom_plain_end (a : Str) (fields : List Str)
    (hne : a ≠ []) (hq : '"' ∉ a) (hc : ',' ∉ a) :
    parseFrom a fields = fields ++ [trim a] := by
  cases a with
  | nil => exact absurd rfl hne
  | cons ch a1 =>
    have h1 : ch ≠ '"' := fun e => hq (by simp [e])
    rw [parseFrom_plain ch a1 fields h1, takeWhile_notComma_self _ hc, skipToComma_self _ hc]
    simp [skipComma, parseFrom_nil]

/-! ## Claims about the tokenizer -/

/-- C1: a text written as a quoted field (every double quote doubled, the whole wrapped in one
pair of double quotes) tokenizes to exactly that text as the only field; in particular the line
`"She said ""hi"""` gives the single field `She said "hi"`. -/
theorem parseCsvLine_quoteField :
    (∀ s : Str, parseCsvLine (quoteField s) = [s]) ∧
      parseCsvLine "\"She said \"\"hi\"\"\"".toList = ["She said \"hi\"".toList] := by
  refine ⟨fun s => ?_, by decide⟩
  rw [parseCsvLine_eq, quoteField, parseFrom_quote,
    scanQuoted_escape s [] (by simp) []]
  simp [skipToComma, skipComma, parseFrom_nil]

/-- C2: commas inside a quoted field do not split it.  For a quote-free text `s` and non-empty
texts `a`, `b` without comma or quote, the line `a,"s",b` tokenizes to `[trim a, s, trim b]`,
and the line `"s"` to `[s]`. -/
theorem parseCsvLine_quoted_commas (s a b : Str) (hs : '"' ∉ s)
    (ha : a ≠ []) (haq : '"' ∉ a) (hac : ',' ∉ a)
    (hb : b ≠ []) (hbq : '"' ∉ b) (hbc : ',' ∉ b) :
    parseCsvLine (a ++ ",\"".toList ++ s ++ "\",".toList ++ b) = [trim a, s, trim b] ∧
      parseCsvLine ("\"".toList ++ s ++ "\"".toList) = [s] := by
  constructor
  · have e : a ++ ",\"".toList ++ s ++ "\",".toList ++ b =
        a ++ ',' :: '"' :: (escapeQuotes s ++ '"' :: ',' :: b) := by
      rw [escapeQuotes_of_not_mem s hs]; simp
    rw [parseCsvLine_eq, e, parseFrom_plain_comma a _ _ ha haq hac, parseFrom_quote,
      scanQuoted_escape s (',' :: b) (by simp) []]
    simp only [skipToComma, List.nil_append]
    simp only [List.dropWhile_cons, bne_self_eq_false, Bool.false_eq_true, if_false, skipComma,
      if_true]
    rw [parseFrom_plain_end b _ hb hbq hbc]
    simp
  · have e : "\"".toList ++ s ++ "\"".toList = '"' :: (escapeQuotes s ++ '"' :: []) := by
      rw [escapeQuotes_of_not_mem s hs]; simp
    rw [parseCsvLine_eq, e, parseFrom_quote, scanQuoted_escape s [] (by simp) []]
    simp [skipToComma, skipComma, parseFrom_nil]

/-- C2 at `s = Smith, Jr.` between the fields `a` and `b`. -/
theorem parseCsvLine_quoted_commas_witness :
    parseCsvLine ("a".toList ++ ",\"".toList ++ "Smith, Jr.".toList ++ "\",".toList ++ "b".toList)
        = [trim "a".toList, "Smith, Jr.".toList, trim "b".toList] ∧
      parseCsvLine ("\"".toList ++ "Smith, Jr.".toList ++ "\"".toList) = ["Smith, Jr.".toList] :=
  parseCsvLine_quoted_commas "Smith, Jr.".toList "a".toList "b".toList
    (by decide) (by decide) (by decide) (by decide) (by decide) (by decide) (by decide)

/-! ## Facts about the mapper -/

theorem mapStep_threw (R : FloatRuntime) (st : MapState) (col : Str × Str)
    (h : st.threw = true) : mapStep R st col = st := by
  unfold mapStep
  simp [h]

theorem foldl_mapStep_threw (R : FloatRuntime) (cols : List (Str × Str)) :
    ∀ st : MapState, st.threw = true → cols.foldl (mapStep R) st = st := by
  induction cols with
  | nil => intro st _; rfl
  | cons col cols ih =>
    intro st h
    rw [List.foldl_cons, mapStep_threw R st col h]
    exact ih st h

/-- A state that has not thrown comes from a state that had not thrown. -/
theorem mapStep_not_threw (R : FloatRuntime) (st : MapState) (col : Str × Str)
    (h : (mapStep R st col).threw = false) : st.threw = false := by
  cases ht : st.threw with
  | false => rfl
  | true => rw [mapStep_threw R st col ht, ht] at h; exact h

theorem foldl_mapStep_not_threw (R : FloatRuntime) (cols : List (Str × Str)) :
    ∀ st : MapState, (cols.foldl (mapStep R) st).threw = false → st.threw = false := by
  induction cols with
  | nil => intro st h; exact h
  | cons col cols ih =>
    intro st h
    exact mapStep_not_threw R st col (ih _ h)

theorem mapStep_firstName (R : FloatRuntime) (st : MapState) (col : Str × Str)
    (ht : st.threw = false) :
    (mapStep R st col).firstName =
      if trim col.1 = "name.firstName".toList then some (nameComponent R (cellValue col.2))
      else st.firstName := by
  unfold mapStep
  simp only [ht, Bool.false_eq_true, if_false]
  by_cases h : trim col.1 = "name.firstName".toList
  · rw [h]; simp
  · simp only [h, if_false]
    split_ifs <;> rfl

theorem mapStep_lastName (R : FloatRuntime) (st : MapState) (col : Str × Str)
    (ht : st.threw = false) :
    (mapStep R st col).lastName =
      if trim col.1 = "name.lastName".toList then some (nameComponent R (cellValue col.2))
      else st.lastName := by
  unfold mapStep
  simp only [ht, Bool.false_eq_true, if_false]
  by_cases h : trim col.1 = "name.lastName".toList
  · rw [h]; simp
  · simp only [h, if_false]
    split_ifs <;> rfl

theorem mapStep_age (R : FloatRuntime) (st : MapState) (col : Str × Str)
    (ht : st.threw = false) :
    (mapStep R st col).age =
      if trim col.1 = "age".toList then ageOfVal R (cellValue col.2) else st.age := by
  unfold mapStep
  simp only [ht, Bool.false_eq_true, if_false]
  by_cases h : trim col.1 = "age".toList
  · rw [h]; simp
  · simp only [h, if_false]
    split_ifs <;> rfl

theorem lastCell_append_singleton (name : Str) (cols : List (Str × Str)) (col : Str × Str) :
    lastCell name (cols ++ [col]) =
      if trim col.1 = name then some col.2 else lastCell name cols := by
  unfold lastCell
  by_cases h : trim col.1 = name
  · simp [List.filter_append, h]
  · simp [List.filter_append, h]

theorem lastCell_eq_none (name : Str) (cols : List (Str × Str)) :
    lastCell name cols = none ↔ ∀ col ∈ cols, trim col.1 ≠ name := by
  unfold lastCell
  simp [List.getLast?_eq_none_iff, List.filter_eq_nil_iff]

/-- After a loop that has not thrown, each of `firstName`, `lastName` and `age` is decided by
the last column that carries its header. -/
theorem foldl_mapStep_fields (R : FloatRuntime) (st : MapState) (cols : List (Str × Str)) :
    (cols.foldl (mapStep R) st).threw = false →
    (cols.foldl (mapStep R) st).firstName =
        (match lastCell "name.firstName".toList cols with
          | some cell => some (nameComponent R (cellValue cell))
          | none => st.firstName) ∧
      (cols.foldl (mapStep R) st).lastName =
        (match lastCell "name.lastName".toList cols with
          | some cell => some (nameComponent R (cellValue cell))
          | none => st.lastName) ∧
      (cols.foldl (mapStep R) st).age =
        (match lastCell "age".toList cols with
          | some cell => ageOfVal R (cellValue cell)
          | none => st.age) := by
  induction cols using List.reverseRecOn with
  | nil => intro _; simp [lastCell]
  | append_singleton cols col ih =>
    intro h
    rw [List.foldl_append, List.foldl_cons, List.foldl_nil] at h
    have hprev := mapStep_not_threw R _ col h
    obtain ⟨ih1, ih2, ih3⟩ := ih hprev
    simp only [List.foldl_append, List.foldl_cons, List.foldl_nil,
      mapStep_firstName R _ col hprev, mapStep_lastName R _ col hprev,
      mapStep_age R _ col hprev, lastCell_append_singleton]
    refine ⟨?_, ?_, ?_⟩
    · split_ifs <;> simp [ih1]
    · split_ifs <;> simp [ih2]
    · split_ifs <;> simp [ih3]

theorem rowVals_length (headers values : List Str) :
    (rowVals headers values).length = headers.length := by
  simp [rowVals]

theorem columns_map_fst (headers values : List Str) :
    (columns headers values).map Prod.fst = headers := by
  unfold columns
  exact List.map_fst_zip _ _ (by rw [rowVals_length])

theorem lastCell_columns_eq_none (name : Str) (headers values : List Str) :
    lastCell name (columns headers values) = none ↔ ∀ h ∈ headers, trim h ≠ name := by
  rw [lastCell_eq_none]
  constructor
  · intro hcols h hh
    rw [← columns_map_fst headers values] at hh
    obtain ⟨col, hcol, rfl⟩ := List.mem_map.1 hh
    exact hcols col hcol
  · intro hhs col hcol
    exact hhs col.1 (by rw [← columns_map_fst headers values]; exact List.mem_map_of_mem _ hcol)

theorem coerceValue_ne_null (s : Str) (h : s ≠ []) : coerceValue (some s) ≠ JsVal.null := by
  unfold coerceValue
  simp only [h, if_false]
  split_ifs <;> simp

theorem ageOfVal_cellValue_eq_none (R : FloatRuntime) (cell : Str) :
    ageOfVal R (cellValue cell) = none ↔
      trim cell = [] ∨ jsParseInt R (coerceValue (some (trim cell))) = JsNum.nan := by
  unfold ageOfVal cellValue
  by_cases h : trim cell = []
  · simp [h]
  · simp [h, coerceValue_ne_null _ h]

theorem mapRow_proto (R : FloatRuntime) (proto : Props) (headers values : List Str) :
    (mapRow R proto headers values).proto = (mapLoop R proto headers values).proto := rfl

theorem mapRow_threw_iff (R : FloatRuntime) (proto : Props) (headers values : List Str) :
    (mapRow R proto headers values).result = RowResult.threw ↔
      (mapLoop R proto headers values).threw = true := by
  show (if (mapLoop R proto headers values).threw then RowResult.threw
    else returned (finishRow (mapLoop R proto headers values))) = RowResult.threw ↔ _
  cases ht : (mapLoop R proto headers values).threw with
  | true => simp
  | false =>
    cases hf : finishRow (mapLoop R proto headers values) <;> simp [returned]

theorem mapRow_result (R : FloatRuntime) (proto : Props) (headers values : List Str)
    (h : (mapLoop R proto headers values).threw = false) :
    (mapRow R proto headers values).result = returned (finishRow (mapLoop R proto headers values)) := by
  show (if (mapLoop R proto headers values).threw then RowResult.threw
    else returned (finishRow (mapLoop R proto headers values))) = _
  rw [h]
  rfl

theorem mapRow_eq_rejected (R : FloatRuntime) (proto : Props) (headers values : List Str)
    (h : (mapLoop R proto headers values).threw = false) :
    (mapRow R proto headers values).result = RowResult.rejected ↔
      (mapLoop R proto headers values).firstName = none ∨
        (mapLoop R proto headers values).lastName = none ∨
        (mapLoop R proto headers values).age = none := by
  rw [mapRow_result R proto headers values h]
  unfold finishRow
  cases (mapLoop R proto headers values).firstName <;>
    cases (mapLoop R proto headers values).lastName <;>
      cases (mapLoop R proto headers values).age <;> simp [returned]

theorem mapLoop_fields (R : FloatRuntime) (proto : Props) (headers values : List Str)
    (h : (mapLoop R proto headers values).threw = false) :
    (mapLoop R proto headers values).firstName =
        (lastCell "name.firstName".toList (columns headers values)).map
          (fun cell => nameComponent R (cellValue cell)) ∧
      (mapLoop R proto headers values).lastName =
        (lastCell "name.lastName".toList (columns headers values)).map
          (fun cell => nameComponent R (cellValue cell)) ∧
      (mapLoop R proto headers values).age =
        (lastCell "age".toList (columns headers values)).bind
          (fun cell => ageOfVal R (cellValue cell)) := by
  obtain ⟨h1, h2, h3⟩ := foldl_mapStep_fields R (MapState.init proto) (columns headers values) h
  refine ⟨?_, ?_, ?_⟩
  · rw [mapLoop, ← columns, h1]; cases lastCell "name.firstName".toList (columns headers values) <;> rfl
  · rw [mapLoop, ← columns, h2]; cases lastCell "name.lastName".toList (columns headers values) <;> rfl
  · rw [mapLoop, ← columns, h3]; cases lastCell "age".toList (columns headers values) <;> rfl

/-! ## Characters, words and numerals -/

theorem isDigit_iff (c : Char) : c.isDigit = true ↔ 48 ≤ c.toNat ∧ c.toNat ≤ 57 := by
  simp only [Char.isDigit, Bool.and_eq_true, decide_eq_true_eq, ge_iff_le]
  rfl

theorem isAlpha_iff (c : Char) :
    c.isAlpha = true ↔ (65 ≤ c.toNat ∧ c.toNat ≤ 90) ∨ (97 ≤ c.toNat ∧ c.toNat ≤ 122) := by
  simp only [Char.isAlpha, Char.isUpper, Char.isLower, Bool.or_eq_true, Bool.and_eq_true,
    decide_eq_true_eq, ge_iff_le]
  rfl

theorem isJsSpace_eq_false (c : Char) (h : 33 ≤ c.toNat ∧ c.toNat ≤ 126) :
    isJsSpace c = false := by
  simp only [isJsSpace, Bool.or_eq_false_iff, Bool.and_eq_false_iff, beq_eq_false_iff_ne,
    decide_eq_false_iff_not]
  omega

theorem isLetter_range {c : Char} (h : IsLetter c) : 65 ≤ c.toNat := by
  rcases h with h | h
  · rw [isAlpha_iff] at h; omega
  · omega

theorem isLetter_not_space {c : Char} (h : IsLetter c) : isJsSpace c = false := by
  rcases h with h | h
  · rw [isAlpha_iff] at h
    exact isJsSpace_eq_false c (by omega)
  · exact h.2

theorem isAlnum_range {c : Char} (h : IsAlnum c) : 48 ≤ c.toNat := by
  rcases h with h | h
  · have := isLetter_range h; omega
  · rw [isDigit_iff] at h; omega

theorem isAlnum_not_space {c : Char} (h : IsAlnum c) : isJsSpace c = false := by
  rcases h with h | h
  · exact isLetter_not_space h
  · rw [isDigit_iff] at h
    exact isJsSpace_eq_false c (by omega)

theorem isAlnum_ne_of_toNat {c : Char} (h : IsAlnum c) (d : Char) (hd : d.toNat < 48) :
    c ≠ d := by
  intro e
  have := isAlnum_range h
  rw [e] at this
  omega

theorem trim_eq_self (w : Str) (h : ∀ c ∈ w, isJsSpace c = false) : trim w = w := by
  have h1 : w.dropWhile isJsSpace = w := by
    cases w with
    | nil => rfl
    | cons c w => simp [List.dropWhile_cons, h c (by simp)]
  unfold trim trimEnd
  rw [h1]
  have h2 : w.reverse.dropWhile isJsSpace = w.reverse := by
    cases hr : w.reverse with
    | nil => rfl
    | cons c r =>
      have hc : c ∈ w := by
        have : c ∈ w.reverse := by rw [hr]; simp
        simpa using this
      simp [List.dropWhile_cons, h c hc]
  rw [h2, List.reverse_reverse]

theorem plain_of_alnum (w : Str) (h : ∀ c ∈ w, IsAlnum c) :
    '"' ∉ w ∧ ',' ∉ w ∧ trim w = w := by
  refine ⟨fun hm => ?_, fun hm => ?_, trim_eq_self w (fun c hc => isAlnum_not_space (h c hc))⟩
  · exact isAlnum_ne_of_toNat (h _ hm) '"' (by decide) rfl
  · exact isAlnum_ne_of_toNat (h _ hm) ',' (by decide) rfl

theorem cellValue_word (w : Str) (h : IsWord w) : cellValue w = JsVal.str w := by
  obtain ⟨hne, halpha, ht, hf⟩ := h
  have htrim : trim w = w := (plain_of_alnum w (fun c hc => Or.inl (halpha c hc))).2.2
  cases w with
  | nil => exact absurd rfl hne
  | cons c w =>
    have hc := isLetter_range (halpha c (by simp))
    have hminus : c ≠ '-' := by
      intro e; rw [e] at hc; revert hc; decide
    have hdot : c ≠ '.' := by
      intro e; rw [e] at hc; revert hc; decide
    have hdig : c.isDigit = false := by
      cases hd : c.isDigit with
      | false => rfl
      | true => rw [isDigit_iff] at hd; omega
    have hint : isIntPattern (c :: w) = false := by
      unfold isIntPattern dropMinus allDigits
      split
      · rename_i heq; simp only [List.cons.injEq] at heq; exact absurd heq.1 hminus
      · simp [hdig]
    have hdec : isDecPattern (c :: w) = false := by
      unfold isDecPattern dropMinus
      split
      · rename_i heq; simp only [List.cons.injEq] at heq; exact absurd heq.1 hminus
      · simp [List.dropWhile_cons, hdig, hdot]
    unfold cellValue coerceValue
    simp only [htrim, hint, hdec, Bool.false_eq_true, if_false]
    rw [if_neg hne, if_neg ht, if_neg hf, if_neg hne]

theorem digitChar_spec (m : Nat) (h : m < 10) :
    (Nat.digitChar m).isDigit = true ∧ (Nat.digitChar m).toNat - 48 = m := by
  interval_cases m <;> decide

theorem digitsVal_append_singleton (ds : Str) (d : Char) :
    digitsVal (ds ++ [d]) = 10 * digitsVal ds + (d.toNat - 48) := by
  simp [digitsVal, List.foldl_append]

/-- The numeral produced by `Nat.toDigits 10` is a non-empty run of digits whose value is the
number. -/
theorem toDigitsCore_spec (fuel : Nat) :
    ∀ (n : Nat) (ds : List Char), n < fuel →
      ∃ pre : Str, Nat.toDigitsCore 10 fuel n ds = pre ++ ds ∧ pre ≠ [] ∧
        (∀ c ∈ pre, c.isDigit = true) ∧ digitsVal pre = n := by
  induction fuel with
  | zero => intro n ds h; omega
  | succ fuel ih =>
    intro n ds h
    have hd := digitChar_spec (n % 10) (Nat.mod_lt _ (by decide))
    by_cases h0 : n / 10 = 0
    · refine ⟨[Nat.digitChar (n % 10)], ?_, by simp, ?_, ?_⟩
      · simp [Nat.toDigitsCore, h0]
      · simpa using hd.1
      · have : digitsVal [Nat.digitChar (n % 10)] = (Nat.digitChar (n % 10)).toNat - 48 := by
          simp [digitsVal]
        rw [this, hd.2]
        omega
    · obtain ⟨pre, hpre, -, hall, hval⟩ :=
        ih (n / 10) (Nat.digitChar (n % 10) :: ds) (by omega)
      refine ⟨pre ++ [Nat.digitChar (n % 10)], ?_, by simp, ?_, ?_⟩
      · simp [Nat.toDigitsCore, h0, hpre]
      · intro c hc
        rcases List.mem_append.1 hc with hc | hc
        · exact hall c hc
        · rw [List.mem_singleton.1 hc]; exact hd.1
      · rw [digitsVal_append_singleton, hval, hd.2]
        omega

theorem toDigits_spec (n : Nat) :
    Nat.toDigits 10 n ≠ [] ∧ (∀ c ∈ Nat.toDigits 10 n, c.isDigit = true) ∧
      digitsVal (Nat.toDigits 10 n) = n := by
  obtain ⟨pre, hpre, hne, hall, hval⟩ := toDigitsCore_spec (n + 1) n [] (by omega)
  have : Nat.toDigits 10 n = pre := by simpa [Nat.toDigits] using hpre
  rw [this]
  exact ⟨hne, hall, hval⟩

theorem takeWhile_isDigit_self (ds : Str) (h : ∀ c ∈ ds, c.isDigit = true) :
    ds.takeWhile Char.isDigit = ds := by
  induction ds with
  | nil => rfl
  | cons c ds ih =>
    simp [List.takeWhile_cons, h c (by simp), ih (fun d hd => h d (by simp [hd]))]

/-- Reading a run of digits with `parseInt`. -/
theorem parseIntText_digits (ds : Str) (hne : ds ≠ []) (h : ∀ c ∈ ds, c.isDigit = true) :
    parseIntText ds = toDouble false (digitsVal ds) := by
  cases ds with
  | nil => exact absurd rfl hne
  | cons c ds =>
    have hc := (isDigit_iff c).1 (h c (by simp))
    have hsp : isJsSpace c = false := isJsSpace_eq_false c (by omega)
    have hminus : c ≠ '-' := by
      intro e; rw [e] at hc; revert hc; decide
    have hplus : c ≠ '+' := by
      intro e; rw [e] at hc; revert hc; decide
    have htw := takeWhile_isDigit_self (c :: ds) h
    unfold parseIntText
    simp only [List.dropWhile_cons, hsp, Bool.false_eq_true, if_false, List.head?_cons]
    have hbody : (match c :: ds with
        | '-' :: r => r
        | '+' :: r => r
        | _ => c :: ds) = c :: ds := by
      split
      · rename_i heq; simp only [List.cons.injEq] at heq; exact absurd heq.1 hminus
      · rename_i heq; simp only [List.cons.injEq] at heq; exact absurd heq.1 hplus
      · rfl
    rw [hbody, htw]
    have hneg : (some c == some '-') = false := by simp [hminus]
    simp [hneg]

theorem isIntPattern_digits (ds : Str) (hne : ds ≠ []) (h : ∀ c ∈ ds, c.isDigit = true) :
    isIntPattern ds = true := by
  cases ds with
  | nil => exact absurd rfl hne
  | cons c ds =>
    have hc := (isDigit_iff c).1 (h c (by simp))
    have hminus : c ≠ '-' := by
      intro e; rw [e] at hc; revert hc; decide
    unfold isIntPattern dropMinus allDigits
    split
    · rename_i heq; simp only [List.cons.injEq] at heq; exact absurd heq.1 hminus
    · simpa using h

theorem toDouble_small (n : Nat) (h : n < 2 ^ 53) : toDouble false n = JsNum.fin n := by
  unfold toDouble roundDouble
  rw [if_pos h]
  rfl

theorem numToText_small (n : Nat) (h : n < 2 ^ 53) :
    numToText (JsNum.fin n) = Nat.toDigits 10 n := by
  have h21 : n < 10 ^ 21 := lt_of_lt_of_le h (by norm_num)
  have hneg : ¬ ((n : Int) < 0) := by omega
  unfold numToText natText shortestDec
  simp only [Int.natAbs_ofNat]
  rw [if_neg hneg, if_pos h, if_pos h21]

/-- The cell holding the numeral of `n`, and the age read from it, for `n` below `2 ^ 53`. -/
theorem cellValue_numeral (R : FloatRuntime) (n : Nat) (h : n < 2 ^ 53) :
    cellValue (Nat.toDigits 10 n) = JsVal.num (JsNum.fin n) ∧
      ageOfVal R (JsVal.num (JsNum.fin n)) = some (JsNum.fin n) := by
  obtain ⟨hne, hall, hval⟩ := toDigits_spec n
  have htrim : trim (Nat.toDigits 10 n) = Nat.toDigits 10 n :=
    (plain_of_alnum _ (fun c hc => Or.inr (hall c hc))).2.2
  have hparse : parseIntText (Nat.toDigits 10 n) = JsNum.fin n := by
    rw [parseIntText_digits _ hne hall, hval, toDouble_small n h]
  constructor
  · unfold cellValue coerceValue
    simp [htrim, hne, isIntPattern_digits _ hne hall, hparse]
  · unfold ageOfVal jsParseInt jsString
    simp [numToText_small n h, hparse]

/-! ## Claims about the mapper -/

/-- When `mapRow` does not throw, it rejects a row exactly when no header trims to
`name.firstName`, or no header trims to `name.lastName`, or the age is null, that is, there is
no `age` column, or the cell of the (last) `age` column is empty after trimming, or `parseInt`
finds no integer in it.  In every other case a record is returned. -/
theorem mapRow_rejects_iff (R : FloatRuntime) (proto : Props) (headers values : List Str)
    (hrun : (mapLoop R proto headers values).threw = false) :
    ((mapRow R proto headers values).result = RowResult.rejected ↔
      (∀ h ∈ headers, trim h ≠ "name.firstName".toList) ∨
      (∀ h ∈ headers, trim h ≠ "name.lastName".toList) ∨
      (∀ h ∈ headers, trim h ≠ "age".toList) ∨
      (∃ cell, lastCell "age".toList (columns headers values) = some cell ∧
        (trim cell = [] ∨ jsParseInt R (coerceValue (some (trim cell))) = JsNum.nan))) ∧
    ((mapRow R proto headers values).result ≠ RowResult.rejected →
      ∃ record, (mapRow R proto headers values).result = RowResult.accepted record) := by
  constructor
  · obtain ⟨h1, h2, h3⟩ := mapLoop_fields R proto headers values hrun
    rw [mapRow_eq_rejected R proto headers values hrun, h1, h2, h3, Option.map_eq_none',
      Option.map_eq_none', lastCell_columns_eq_none, lastCell_columns_eq_none,
      ← lastCell_columns_eq_none "age".toList]
    refine or_congr Iff.rfl (or_congr Iff.rfl ?_)
    cases hc : lastCell "age".toList (columns headers values) with
    | none => simp
    | some cell => simp [ageOfVal_cellValue_eq_none]
  · rw [mapRow_result R proto headers values hrun]
    cases finishRow (mapLoop R proto headers values) with
    | none => intro h; exact absurd rfl h
    | some record => intro _; exact ⟨record, rfl⟩

/-- C3: the code at the failing input.  With the headers
`name.firstName,name.lastName,age,__proto__.__proto__.x` the call of `mapRow` ends with a
TypeError: for the row `Jane,Doe,30,1`, where the three columns are present and the age is 30,
no record is returned, and for the row `Jane,,`, whose age cell is empty, the rejection marker
is not returned either.  `setNested` follows `__proto__` to `Object.prototype`, reads `null`
as the `__proto__` of that, and assigns `{}` to it, which the setter refuses.  Without the
fourth column the two rows are accepted and rejected. -/
theorem mapRow_proto_header_throws :
    (mapRow sampleFloats Props.nil
      (parseCsvLine "name.firstName,name.lastName,age,__proto__.__proto__.x".toList)
      (parseCsvLine "Jane,Doe,30,1".toList)).result = RowResult.threw ∧
    (mapRow sampleFloats Props.nil
      (parseCsvLine "name.firstName,name.lastName,age,__proto__.__proto__.x".toList)
      (parseCsvLine "Jane,,".toList)).result = RowResult.threw ∧
    (mapRow sampleFloats Props.nil (parseCsvLine "name.firstName,name.lastName,age".toList)
      (parseCsvLine "Jane,Doe,30".toList)).result =
        RowResult.accepted
          { name := "Jane Doe".toList, age := .fin 30, address := none,
            additional_info := none } ∧
    (mapRow sampleFloats Props.nil (parseCsvLine "name.firstName,name.lastName,age".toList)
      (parseCsvLine "Jane,,".toList)).result = RowResult.rejected := by
  decide

/-- Four unquoted fields separated by commas. -/
theorem parseCsvLine_four (a b c d : Str)
    (ha : a ≠ [] ∧ ∀ ch ∈ a, IsAlnum ch) (hb : b ≠ [] ∧ ∀ ch ∈ b, IsAlnum ch)
    (hc : c ≠ [] ∧ ∀ ch ∈ c, IsAlnum ch) (hd : d ≠ [] ∧ ∀ ch ∈ d, IsAlnum ch) :
    parseCsvLine (a ++ ",".toList ++ b ++ ",".toList ++ c ++ ",".toList ++ d) = [a, b, c, d] := by
  obtain ⟨haq, hac, hat⟩ := plain_of_alnum a ha.2
  obtain ⟨hbq, hbc, hbt⟩ := plain_of_alnum b hb.2
  obtain ⟨hcq, hcc, hct⟩ := plain_of_alnum c hc.2
  obtain ⟨hdq, hdc, hdt⟩ := plain_of_alnum d hd.2
  have e : a ++ ",".toList ++ b ++ ",".toList ++ c ++ ",".toList ++ d =
      a ++ ',' :: (b ++ ',' :: (c ++ ',' :: d)) := by simp
  rw [parseCsvLine_eq, e, parseFrom_plain_comma a _ _ ha.1 haq hac,
    parseFrom_plain_comma b _ _ hb.1 hbq hbc, parseFrom_plain_comma c _ _ hc.1 hcq hcc,
    parseFrom_plain_end d _ hd.1 hdq hdc, hat, hbt, hct, hdt]
  rfl

/-- The loop of `mapRow` on the four columns of the first end-to-end scenario. -/
theorem mapRow_scenario_columns (R : FloatRuntime) (proto : Props) (a b c d : Str) :
    mapRow R proto (parseCsvLine "name.firstName,name.lastName,age,address.city".toList)
        [a, b, c, d] =
      { result := returned (finishRow
          { address := Props.cons "city".toList (Entry.val (cellValue d)) Props.nil
            additional_info := Props.nil
            firstName := some (nameComponent R (cellValue a))
            lastName := some (nameComponent R (cellValue b))
            age := ageOfVal R (cellValue c)
            proto := proto
            threw := false })
        proto := proto } := by
  rfl

theorem nameComponent_word (R : FloatRuntime) (w : Str) (h : w ≠ []) :
    nameComponent R (JsVal.str w) = w := by
  simp [nameComponent, truthy, jsString, h]

/-- C4 (amended): with the headers `name.firstName,name.lastName,age,address.city`, for
alphabetic words `f`, `l`, `c` and every `n` below `2 ^ 53` written in decimal, the row
`f,l,n,c` is mapped to the record with name `f l`, age `n`, address `{city: c}` and no
additional information, whatever `Object.prototype` holds, and `Object.prototype` is left as
it is. -/
theorem mapRow_wellFormed_row (R : FloatRuntime) (proto : Props) (f l c : Str) (n : Nat)
    (hf : IsWord f) (hl : IsWord l) (hc : IsWord c) (hn : n < 2 ^ 53) :
    mapRow R proto (parseCsvLine "name.firstName,name.lastName,age,address.city".toList)
        (parseCsvLine (f ++ ",".toList ++ l ++ ",".toList ++ Nat.toDigits 10 n ++ ",".toList ++ c)) =
      { result := RowResult.accepted
          { name := f ++ " ".toList ++ l
            age := JsNum.fin n
            address := some (Props.cons "city".toList (Entry.val (JsVal.str c)) Props.nil)
            additional_info := none }
        proto := proto } := by
  obtain ⟨hne, hall, -⟩ := toDigits_spec n
  have hfa : ∀ ch ∈ f, IsAlnum ch := fun ch h => Or.inl (hf.2.1 ch h)
  have hla : ∀ ch ∈ l, IsAlnum ch := fun ch h => Or.inl (hl.2.1 ch h)
  have hca : ∀ ch ∈ c, IsAlnum ch := fun ch h => Or.inl (hc.2.1 ch h)
  have hna : ∀ ch ∈ Nat.toDigits 10 n, IsAlnum ch := fun ch h => Or.inr (hall ch h)
  obtain ⟨hnum, hage⟩ := cellValue_numeral R n hn
  rw [parseCsvLine_four f l _ c ⟨hf.1, hfa⟩ ⟨hl.1, hla⟩ ⟨hne, hna⟩ ⟨hc.1, hca⟩,
    mapRow_scenario_columns, cellValue_word f hf, cellValue_word l hl, cellValue_word c hc,
    hnum, hage, nameComponent_word R f hf.1, nameComponent_word R l hl.1]
  have e : f ++ ' ' :: l = f ++ " ".toList ++ l := by simp
  have hname : trim (f ++ " ".toList ++ l) = f ++ " ".toList ++ l := by
    cases f with
    | nil => exact absurd rfl hf.1
    | cons c0 f0 =>
      have h1 : (c0 :: f0 ++ " ".toList ++ l).dropWhile isJsSpace = c0 :: f0 ++ " ".toList ++ l := by
        simp [List.dropWhile_cons, isAlnum_not_space (hfa c0 (by simp))]
      have hlr : l.reverse ≠ [] := by simpa using hl.1
      cases hr : l.reverse with
      | nil => exact absurd hr hlr
      | cons d r =>
        have hd : d ∈ l := by
          have : d ∈ l.reverse := by rw [hr]; simp
          simpa using this
        have h2 : (c0 :: f0 ++ " ".toList ++ l).reverse.dropWhile isJsSpace =
            (c0 :: f0 ++ " ".toList ++ l).reverse := by
          rw [List.reverse_append, hr]
          simp [List.dropWhile_cons, isAlnum_not_space (hla d hd)]
        unfold trim trimEnd
        rw [h1, h2, List.reverse_reverse]
  simp only [finishRow, returned, nonEmptyOrNull, (plain_of_alnum f hfa).2.2,
    (plain_of_alnum l hla).2.2, e, hname]

/-- C4 (amended) at the row `John,Doe,34,Springfield`. -/
theorem mapRow_wellFormed_row_witness :
    mapRow sampleFloats Props.nil
        (parseCsvLine "name.firstName,name.lastName,age,address.city".toList)
        (parseCsvLine ("John".toList ++ ",".toList ++ "Doe".toList ++ ",".toList ++
          Nat.toDigits 10 34 ++ ",".toList ++ "Springfield".toList)) =
      { result := RowResult.accepted
          { name := "John".toList ++ " ".toList ++ "Doe".toList
            age := JsNum.fin (34 : Nat)
            address := some (Props.cons "city".toList
              (Entry.val (JsVal.str "Springfield".toList)) Props.nil)
            additional_info := none }
        proto := Props.nil } :=
  mapRow_wellFormed_row sampleFloats Props.nil "John".toList "Doe".toList "Springfield".toList 34
    (by decide) (by decide) (by decide) (by decide)

/-- C4, as stated, fails for large numerals: the row `John,Doe,1000000000000000000000,Springfield`
is mapped to a record whose age is 1, because `parseInt` is applied to the already coerced
Number `1e21`, whose string form is `1e+21`. -/
theorem mapRow_wellFormed_row_large :
    (mapRow sampleFloats Props.nil
        (parseCsvLine "name.firstName,name.lastName,age,address.city".toList)
        (parseCsvLine ("John".toList ++ ",".toList ++ "Doe".toList ++ ",".toList ++
          Nat.toDigits 10 1000000000000000000000 ++ ",".toList ++ "Springfield".toList))).result =
      RowResult.accepted
        { name := "John Doe".toList
          age := JsNum.fin 1
          address := some (Props.cons "city".toList
            (Entry.val (JsVal.str "Springfield".toList)) Props.nil)
          additional_info := none } ∧
    (mapRow sampleFloats Props.nil
        (parseCsvLine "name.firstName,name.lastName,age,address.city".toList)
        (parseCsvLine ("John".toList ++ ",".toList ++ "Doe".toList ++ ",".toList ++
          Nat.toDigits 10 1000000000000000000000 ++ ",".toList ++ "Springfield".toList))).result ≠
      RowResult.accepted
        { name := "John".toList ++ " ".toList ++ "Doe".toList
          age := JsNum.fin (1000000000000000000000 : Nat)
          address := some (Props.cons "city".toList
            (Entry.val (JsVal.str "Springfield".toList)) Props.nil)
          additional_info := none } := by
  decide

/-! ## Facts about `parseInt` and the age -/

theorem trim_head_not_space (s : Str) (c : Char) (t : Str) (h : trim s = c :: t) :
    isJsSpace c = false := by
  have hpre : trim s <+: s.dropWhile isJsSpace := by
    unfold trim trimEnd
    rw [← List.reverse_suffix, List.reverse_reverse]
    exact List.dropWhile_suffix _
  rw [h] at hpre
  obtain ⟨u, hu⟩ := hpre
  have hd := List.head?_dropWhile_not isJsSpace s
  rw [← hu] at hd
  simpa using hd

theorem toDouble_ne_nan (neg : Bool) (n : Nat) : toDouble neg n ≠ JsNum.nan := by
  unfold toDouble
  cases roundDouble n <;> simp

theorem takeWhile_isDigit_eq_nil (body : Str) :
    body.takeWhile Char.isDigit = [] ↔ body.head?.all (fun c => !c.isDigit) = true := by
  cases body with
  | nil => simp
  | cons c r => cases hc : c.isDigit <;> simp [List.takeWhile_cons, hc]

/-- On a text without leading white space, `parseInt` gives NaN exactly when the text does not
begin with a digit, possibly after one sign. -/
theorem parseIntText_eq_nan (t : Str) (ht : ∀ c r, t = c :: r → isJsSpace c = false) :
    parseIntText t = JsNum.nan ↔ startsWithInt t = false := by
  have hdrop : t.dropWhile isJsSpace = t := by
    cases t with
    | nil => rfl
    | cons c r => simp [List.dropWhile_cons, ht c r rfl]
  unfold parseIntText
  simp only [hdrop]
  have key : ∀ body : Str, (if body.takeWhile Char.isDigit = [] then JsNum.nan
      else toDouble (t.head? == some '-') (digitsVal (body.takeWhile Char.isDigit))) = JsNum.nan ↔
      body.head?.all (fun c => !c.isDigit) = true := by
    intro body
    rw [← takeWhile_isDigit_eq_nil]
    by_cases hb : body.takeWhile Char.isDigit = []
    · simp [hb]
    · simp [hb, toDouble_ne_nan]
  rw [key]
  match t with
  | [] => simp [startsWithInt]
  | ['-'] => simp [startsWithInt]
  | ['+'] => simp [startsWithInt]
  | '-' :: c :: r => simp [startsWithInt]
  | '+' :: c :: r => simp [startsWithInt]
  | c :: r =>
    by_cases h1 : c = '-'
    · subst h1
      cases r with
      | nil => simp [startsWithInt]
      | cons d r => simp [startsWithInt]
    · by_cases h2 : c = '+'
      · subst h2
        cases r with
        | nil => simp [startsWithInt]
        | cons d r => simp [startsWithInt]
      · have e1 : (match c :: r with
            | '-' :: r => r
            | '+' :: r => r
            | _ => c :: r) = c :: r := by
          split
          · rename_i heq; simp only [List.cons.injEq] at heq; exact absurd heq.1 h1
          · rename_i heq; simp only [List.cons.injEq] at heq; exact absurd heq.1 h2
          · rfl
        have e2 : startsWithInt (c :: r) = c.isDigit := by
          unfold startsWithInt
          split
          · rename_i heq; simp only [List.cons.injEq] at heq; exact absurd heq.1 h1
          · rename_i heq; simp only [List.cons.injEq] at heq; exact absurd heq.1 h2
          · rename_i heq; simp only [List.cons.injEq] at heq; rw [heq.1]
          · rename_i heq; simp at heq
        rw [e1, e2]
        simp

theorem parseIntText_signed (neg : Bool) (ds : Str) (hne : ds ≠ [])
    (h : ∀ c ∈ ds, c.isDigit = true) :
    parseIntText (signedText neg ds) = toDouble neg (digitsVal ds) := by
  cases neg with
  | false => exact parseIntText_digits ds hne h
  | true =>
    have htw := takeWhile_isDigit_self ds h
    have hne2 : ds.takeWhile Char.isDigit ≠ [] := by rw [htw]; exact hne
    have hsp : isJsSpace '-' = false := by decide
    unfold parseIntText signedText
    simp only [if_true, List.dropWhile_cons, hsp, Bool.false_eq_true, if_false, List.head?_cons,
      beq_self_eq_true]
    rw [if_neg hne2, htw]

theorem isIntPattern_signed (neg : Bool) (ds : Str) (hne : ds ≠ [])
    (h : ∀ c ∈ ds, c.isDigit = true) : isIntPattern (signedText neg ds) = true := by
  cases neg with
  | false => exact isIntPattern_digits ds hne h
  | true =>
    unfold isIntPattern signedText dropMinus allDigits
    simpa [hne] using h

theorem toDouble_signed (neg : Bool) (ds : Str) (h : digitsVal ds < 2 ^ 53) :
    toDouble neg (digitsVal ds) = JsNum.fin (signedVal neg ds) := by
  unfold toDouble roundDouble signedVal
  rw [if_pos h]

/-- The age read back from a coerced integer of magnitude below `2 ^ 53` is that integer. -/
theorem ageOfVal_int (R : FloatRuntime) (neg : Bool) (ds : Str) (h : digitsVal ds < 2 ^ 53) :
    ageOfVal R (JsVal.num (JsNum.fin (signedVal neg ds))) = some (JsNum.fin (signedVal neg ds)) := by
  obtain ⟨hne, hall, hval⟩ := toDigits_spec (digitsVal ds)
  have h21 : digitsVal ds < 10 ^ 21 := lt_of_lt_of_le h (by norm_num)
  have hnat : natText (digitsVal ds) = Nat.toDigits 10 (digitsVal ds) := by
    unfold natText shortestDec
    rw [if_pos h, if_pos h21]
  have hback : parseIntText (numToText (JsNum.fin (signedVal neg ds))) =
      JsNum.fin (signedVal neg ds) := by
    by_cases hlt : signedVal neg ds < 0
    · have hneg : neg = true := by
        cases neg with
        | true => rfl
        | false => exfalso; simp only [signedVal] at hlt; revert hlt; simp
      subst hneg
      have habs : (signedVal true ds).natAbs = digitsVal ds := by simp [signedVal]
      have := parseIntText_signed true (Nat.toDigits 10 (digitsVal ds)) hne hall
      simp only [signedText, if_true] at this
      rw [numToText, if_pos hlt, habs, hnat, this, hval]
      exact toDouble_signed true ds h
    · have habs : ((signedVal neg ds).natAbs : Int) = signedVal neg ds :=
        Int.natAbs_of_nonneg (by omega)
      have hv : (signedVal neg ds).natAbs = digitsVal ds := by
        cases neg with
        | false => simp [signedVal]
        | true => simp [signedVal] at hlt ⊢
      rw [numToText, if_neg hlt, hv, hnat, parseIntText_digits _ hne hall, hval,
        toDouble_small _ h, ← hv, habs]
  unfold ageOfVal jsParseInt jsString
  simp [hback]

theorem toLower_of_not_upper (c : Char) (h : c.toNat < 65) : c.toLower = c := by
  unfold Char.toLower
  simp only []
  rw [if_neg (by omega)]

theorem toLowerCase_of_startsWithInt (t : Str) (h : startsWithInt t = true) :
    toLowerCase t ≠ "true".toList ∧ toLowerCase t ≠ "false".toList := by
  have key : ∀ (c : Char) (r : Str), c.toNat < 65 →
      toLowerCase (c :: r) ≠ "true".toList ∧ toLowerCase (c :: r) ≠ "false".toList := by
    intro c r hc
    have hl := toLower_of_not_upper c hc
    constructor
    · intro e
      simp only [toLowerCase, List.map_cons, hl] at e
      have : c = 't' := (List.cons.inj e).1
      rw [this] at hc
      revert hc; decide
    · intro e
      simp only [toLowerCase, List.map_cons, hl] at e
      have : c = 'f' := (List.cons.inj e).1
      rw [this] at hc
      revert hc; decide
  match t, h with
  | [], h => simp [startsWithInt] at h
  | c :: r, h =>
    by_cases h1 : c = '-'
    · subst h1; exact key _ _ (by decide)
    · by_cases h2 : c = '+'
      · subst h2; exact key _ _ (by decide)
      · have e2 : startsWithInt (c :: r) = c.isDigit := by
          unfold startsWithInt
          split
          · rename_i heq; simp only [List.cons.injEq] at heq; exact absurd heq.1 h1
          · rename_i heq; simp only [List.cons.injEq] at heq; exact absurd heq.1 h2
          · rename_i heq; simp only [List.cons.injEq] at heq; rw [heq.1]
          · rename_i heq; simp at heq
        rw [e2, isDigit_iff] at h
        exact key _ _ (by omega)

/-- The coerced value of a non-empty text that matches neither numeric pattern: a boolean for
`true` and `false` in any letter case, and the text itself otherwise. -/
theorem coerceValue_non_numeric (t : Str) (hne : t ≠ []) (hint : isIntPattern t = false)
    (hdec : isDecPattern t = false) :
    (coerceValue (some t) = JsVal.str t ∨ ∃ b, coerceValue (some t) = JsVal.bool b) ∧
      (toLowerCase t ≠ "true".toList → toLowerCase t ≠ "false".toList →
        coerceValue (some t) = JsVal.str t) := by
  unfold coerceValue
  simp only [hint, hdec, Bool.false_eq_true, if_false]
  rw [if_neg hne]
  constructor
  · by_cases h1 : toLowerCase t = "true".toList
    · rw [if_pos h1]; exact Or.inr ⟨true, rfl⟩
    · rw [if_neg h1]
      by_cases h2 : toLowerCase t = "false".toList
      · rw [if_pos h2]; exact Or.inr ⟨false, rfl⟩
      · rw [if_neg h2]; exact Or.inl rfl
  · intro h1 h2
    rw [if_neg h1, if_neg h2]

theorem mapLoop_age_of_lastCell (R : FloatRuntime) (proto : Props) (headers values : List Str)
    (cell : Str) (hrun : (mapLoop R proto headers values).threw = false)
    (hcell : lastCell "age".toList (columns headers values) = some cell) :
    (mapLoop R proto headers values).age = ageOfVal R (cellValue cell) := by
  rw [(mapLoop_fields R proto headers values hrun).2.2, hcell]
  rfl

/-- The name of an accepted row: the components come from the last `name.firstName` and the
last `name.lastName` column, each being `val ? String(val) : ''` of the coerced cell. -/
theorem mapRow_name (R : FloatRuntime) (proto : Props) (headers values : List Str) (r : Record)
    (hr : (mapRow R proto headers values).result = RowResult.accepted r) :
    ∃ fc lc, lastCell "name.firstName".toList (columns headers values) = some fc ∧
      lastCell "name.lastName".toList (columns headers values) = some lc ∧
      r.name = trim (trim (nameComponent R (cellValue fc)) ++
        ' ' :: trim (nameComponent R (cellValue lc))) := by
  have hrun : (mapLoop R proto headers values).threw = false := by
    cases ht : (mapLoop R proto headers values).threw with
    | false => rfl
    | true => rw [(mapRow_threw_iff R proto headers values).2 ht] at hr; cases hr
  obtain ⟨h1, h2, -⟩ := mapLoop_fields R proto headers values hrun
  rw [mapRow_result R proto headers values hrun] at hr
  unfold finishRow at hr
  rw [h1, h2] at hr
  cases hf : lastCell "name.firstName".toList (columns headers values) with
  | none => rw [hf] at hr; simp [returned] at hr
  | some fc =>
    cases hl : lastCell "name.lastName".toList (columns headers values) with
    | none => rw [hf, hl] at hr; simp [returned] at hr
    | some lc =>
      refine ⟨fc, lc, rfl, rfl, ?_⟩
      rw [hf, hl] at hr
      cases ha : (mapLoop R proto headers values).age with
      | none => rw [ha] at hr; simp [returned] at hr
      | some a =>
        rw [ha] at hr
        simp only [Option.map_some', returned, RowResult.accepted.injEq] at hr
        rw [← hr]

/-! ## Claims about names and ages -/

/-- C5: the code at the failing inputs.  With the headers `name.firstName,name.lastName,age`,
the rows `0,Doe,30` and `false,Doe,30` are accepted with the name `Doe`, although the
first-name cell is not empty and its coerced value has the string form `0`, respectively
`false`: the test `val ? String(val) : ''` also discards the values zero and false. -/
theorem mapRow_name_falsy_cell :
    (mapRow sampleFloats Props.nil (parseCsvLine "name.firstName,name.lastName,age".toList)
        (parseCsvLine "0,Doe,30".toList)).result =
      RowResult.accepted
        { name := "Doe".toList, age := .fin 30, address := none, additional_info := none } ∧
    jsString sampleFloats (cellValue "0".toList) = "0".toList ∧
    (mapRow sampleFloats Props.nil (parseCsvLine "name.firstName,name.lastName,age".toList)
        (parseCsvLine "false,Doe,30".toList)).result =
      RowResult.accepted
        { name := "Doe".toList, age := .fin 30, address := none, additional_info := none } ∧
    jsString sampleFloats (cellValue "false".toList) = "false".toList := by
  decide

/-- C6, as stated, fails on a cell that begins with digits: `12abc` matches neither numeric
pattern, yet the row `Jane,Doe,12abc` is accepted with age 12. -/
theorem mapRow_age_digit_prefix :
    isIntPattern "12abc".toList = false ∧ isDecPattern "12abc".toList = false ∧
    (mapRow sampleFloats Props.nil (parseCsvLine "name.firstName,name.lastName,age".toList)
        (parseCsvLine "Jane,Doe,12abc".toList)).result =
      RowResult.accepted
        { name := "Jane Doe".toList, age := .fin 12, address := none,
          additional_info := none } := by
  decide

/-- C6 (amended): let `cell` be the cell of the last `age` column of a row on which `mapRow`
does not throw.  If, after trimming, the cell is non-empty, matches neither numeric pattern and
does not begin with a digit (possibly after one sign), the age is null and the row is rejected;
if it matches neither numeric pattern but does begin so, the age is the integer that `parseInt`
reads from its leading digits; and if it is a decimal integer string of magnitude below
`2 ^ 53`, the age is that integer. -/
theorem mapRow_age (R : FloatRuntime) (proto : Props) (headers values : List Str) (cell : Str)
    (hrun : (mapRow R proto headers values).result ≠ RowResult.threw)
    (hcell : lastCell "age".toList (columns headers values) = some cell) :
    (trim cell ≠ [] → isIntPattern (trim cell) = false → isDecPattern (trim cell) = false →
      startsWithInt (trim cell) = false →
        (mapLoop R proto headers values).age = none ∧
          (mapRow R proto headers values).result = RowResult.rejected) ∧
    (isIntPattern (trim cell) = false → isDecPattern (trim cell) = false →
      startsWithInt (trim cell) = true →
        (mapLoop R proto headers values).age = some (parseIntText (trim cell)) ∧
          parseIntText (trim cell) ≠ JsNum.nan) ∧
    (∀ (neg : Bool) (ds : Str), ds ≠ [] → (∀ c ∈ ds, c.isDigit = true) →
      digitsVal ds < 2 ^ 53 → trim cell = signedText neg ds →
        (mapLoop R proto headers values).age = some (JsNum.fin (signedVal neg ds))) := by
  have hthrew : (mapLoop R proto headers values).threw = false := by
    cases ht : (mapLoop R proto headers values).threw with
    | false => rfl
    | true => exact absurd ((mapRow_threw_iff R proto headers values).2 ht) hrun
  have hage := mapLoop_age_of_lastCell R proto headers values cell hthrew hcell
  have hsp : ∀ c r, trim cell = c :: r → isJsSpace c = false :=
    fun c r h => trim_head_not_space cell c r h
  refine ⟨fun hne hint hdec hstart => ?_, fun hint hdec hstart => ?_,
    fun neg ds hne hall hlt htext => ?_⟩
  · have hnone : (mapLoop R proto headers values).age = none := by
      rw [hage]
      unfold cellValue
      simp only [hne, if_false]
      rcases (coerceValue_non_numeric _ hne hint hdec).1 with hv | ⟨b, hv⟩
      · rw [hv]
        have := (parseIntText_eq_nan _ hsp).2 hstart
        simp [ageOfVal, jsParseInt, jsString, this]
      · rw [hv]
        cases b <;> simp [ageOfVal, jsParseInt, jsString] <;> decide
    exact ⟨hnone, (mapRow_eq_rejected R proto headers values hthrew).2 (Or.inr (Or.inr hnone))⟩
  · have hne : trim cell ≠ [] := by
      intro e; rw [e] at hstart; simp [startsWithInt] at hstart
    have hnan : parseIntText (trim cell) ≠ JsNum.nan := by
      intro e
      have := (parseIntText_eq_nan _ hsp).1 e
      rw [hstart] at this
      exact absurd this (by simp)
    obtain ⟨hl1, hl2⟩ := toLowerCase_of_startsWithInt _ hstart
    refine ⟨?_, hnan⟩
    rw [hage]
    unfold cellValue
    simp only [hne, if_false]
    rw [(coerceValue_non_numeric _ hne hint hdec).2 hl1 hl2]
    simp [ageOfVal, jsParseInt, jsString, hnan]
  · have hne2 : trim cell ≠ [] := by
      rw [htext]; cases neg <;> simp [signedText, hne]
    rw [hage]
    unfold cellValue
    simp only [hne2, if_false]
    have hcv : coerceValue (some (trim cell)) = JsVal.num (JsNum.fin (signedVal neg ds)) := by
      simp only [coerceValue, hne2, if_false]
      rw [htext, isIntPattern_signed neg ds hne hall, if_pos rfl,
        parseIntText_signed neg ds hne hall, toDouble_signed neg ds hlt]
    rw [hcv]
    exact ageOfVal_int R neg ds hlt

/-- C6 (amended) at the age cells `abc`, `-3x` and `34`. -/
theorem mapRow_age_witness :
    (mapRow sampleFloats Props.nil
        ["name.firstName".toList, "name.lastName".toList, "age".toList]
        ["Jane".toList, "Doe".toList, "abc".toList]).result = RowResult.rejected ∧
    (mapLoop sampleFloats Props.nil
        ["name.firstName".toList, "name.lastName".toList, "age".toList]
        ["Jane".toList, "Doe".toList, "-3x".toList]).age = some (JsNum.fin (-3)) ∧
    (mapLoop sampleFloats Props.nil
        ["name.firstName".toList, "name.lastName".toList, "age".toList]
        ["Jane".toList, "Doe".toList, "34".toList]).age = some (JsNum.fin 34) :=
  ⟨((mapRow_age sampleFloats Props.nil
      ["name.firstName".toList, "name.lastName".toList, "age".toList]
      ["Jane".toList, "Doe".toList, "abc".toList] "abc".toList (by decide) (by decide)).1
      (by decide) (by decide) (by decide) (by decide)).2,
   ((mapRow_age sampleFloats Props.nil
      ["name.firstName".toList, "name.lastName".toList, "age".toList]
      ["Jane".toList, "Doe".toList, "-3x".toList] "-3x".toList (by decide) (by decide)).2.1
      (by decide) (by decide) (by decide)).1,
   (mapRow_age sampleFloats Props.nil
      ["name.firstName".toList, "name.lastName".toList, "age".toList]
      ["Jane".toList, "Doe".toList, "34".toList] "34".toList (by decide) (by decide)).2.2
      false "34".toList (by decide) (by decide) (by decide) (by decide)⟩

/-! ## The patterns of `coerceValue` -/

theorem isDigit_false_of_toNat_lt (c : Char) (h : c.toNat < 48) : c.isDigit = false := by
  cases hd : c.isDigit with
  | false => rfl
  | true => rw [isDigit_iff] at hd; omega

theorem isDigits_head_ne_minus {ds : Str} (h : IsDigits ds) : ∀ r, ds ≠ '-' :: r := by
  intro r e
  have := h.2 '-' (by rw [e]; simp)
  revert this; decide

theorem dropMinus_of_digits (ds tail : Str) (h : IsDigits ds) :
    dropMinus (ds ++ tail) = ds ++ tail := by
  cases ds with
  | nil => exact absurd rfl h.1
  | cons c ds =>
    have hc : c ≠ '-' := fun e => isDigits_head_ne_minus h ds (by rw [e])
    unfold dropMinus
    split
    · rename_i heq; simp only [List.cons_append, List.cons.injEq] at heq; exact absurd heq.1 hc
    · rfl

theorem dropMinus_signed (neg : Bool) (ds tail : Str) (h : IsDigits ds) :
    dropMinus (signedText neg (ds ++ tail)) = ds ++ tail := by
  cases neg with
  | false => exact dropMinus_of_digits ds tail h
  | true => rfl

theorem intForm_of_isIntPattern (s : Str) (h : isIntPattern s = true) : IntForm s := by
  unfold isIntPattern allDigits at h
  simp only [Bool.and_eq_true, bne_iff_ne, ne_eq, List.all_eq_true] at h
  by_cases hm : ∃ r, s = '-' :: r
  · obtain ⟨r, rfl⟩ := hm
    exact ⟨true, r, ⟨h.1, h.2⟩, rfl⟩
  · have e : dropMinus s = s := by
      unfold dropMinus
      split
      · rename_i r; exact absurd ⟨r, rfl⟩ hm
      · rfl
    rw [e] at h
    exact ⟨false, s, ⟨h.1, h.2⟩, rfl⟩

theorem isIntPattern_of_intForm (s : Str) (h : IntForm s) : isIntPattern s = true := by
  obtain ⟨neg, ds, hds, rfl⟩ := h
  exact isIntPattern_signed neg ds hds.1 hds.2

theorem takeWhile_digits_dot (ip fp : Str) (h : ∀ c ∈ ip, c.isDigit = true) :
    (ip ++ '.' :: fp).takeWhile Char.isDigit = ip ∧
      (ip ++ '.' :: fp).dropWhile Char.isDigit = '.' :: fp := by
  induction ip with
  | nil =>
    have : Char.isDigit '.' = false := by decide
    simp [List.takeWhile_cons, List.dropWhile_cons, this]
  | cons c ip ih =>
    obtain ⟨h1, h2⟩ := ih (fun d hd => h d (by simp [hd]))
    simp [List.takeWhile_cons, List.dropWhile_cons, h c (by simp), h1, h2]

theorem patterns_of_decForm (s : Str) (h : DecForm s) :
    isIntPattern s = false ∧ isDecPattern s = true := by
  obtain ⟨neg, ip, fp, hip, hfp, rfl⟩ := h
  obtain ⟨h1, h2⟩ := takeWhile_digits_dot ip fp hip.2
  have hbody := dropMinus_signed neg ip ('.' :: fp) hip
  constructor
  · unfold isIntPattern allDigits
    rw [hbody]
    have : Char.isDigit '.' = false := by decide
    simp [this]
  · unfold isDecPattern
    simp only [hbody, h1, h2]
    unfold allDigits
    simp only [Bool.and_eq_true, bne_iff_ne, ne_eq, List.all_eq_true]
    exact ⟨⟨hip.1, hip.2⟩, ⟨hfp.1, hfp.2⟩⟩

theorem decForm_of_isDecPattern (s : Str) (h : isDecPattern s = true) : DecForm s := by
  unfold isDecPattern at h
  simp only [] at h
  split at h
  · rename_i frac heq
    unfold allDigits at h
    simp only [Bool.and_eq_true, bne_iff_ne, ne_eq, List.all_eq_true] at h
    have hsplit : dropMinus s = (dropMinus s).takeWhile Char.isDigit ++ '.' :: frac := by
      rw [← heq, List.takeWhile_append_dropWhile]
    have hip : IsDigits ((dropMinus s).takeWhile Char.isDigit) := ⟨h.1.1, h.1.2⟩
    have hfp : IsDigits frac := ⟨h.2.1, h.2.2⟩
    by_cases hm : ∃ r, s = '-' :: r
    · obtain ⟨r, rfl⟩ := hm
      refine ⟨true, _, frac, hip, hfp, ?_⟩
      have : dropMinus ('-' :: r) = r := rfl
      rw [this] at hsplit ⊢
      simp only [signedText, if_true]
      rw [← hsplit]
    · have e : dropMinus s = s := by
        unfold dropMinus
        split
        · rename_i r; exact absurd ⟨r, rfl⟩ hm
        · rfl
      rw [e] at hsplit hip
      exact ⟨false, _, frac, hip, hfp, by simpa [signedText] using hsplit⟩
  · exact absurd h (by simp)

theorem signedVal_intText (z : Int) :
    IsDigits (Nat.toDigits 10 z.natAbs) ∧
      signedVal (decide (z < 0)) (Nat.toDigits 10 z.natAbs) = z := by
  obtain ⟨hne, hall, hval⟩ := toDigits_spec z.natAbs
  refine ⟨⟨hne, hall⟩, ?_⟩
  unfold signedVal
  rw [hval]
  by_cases hz : z < 0
  · simp only [hz, decide_True, if_true]; omega
  · simp only [hz, decide_False, Bool.false_eq_true, if_false]; omega

/-! ## Claims about `coerceValue` -/

/-- C7, as stated, fails above `2 ^ 53`: the numeral `9007199254740993` is coerced to the Number
`9007199254740992`, the double nearest to the integer it denotes. -/
theorem coerceValue_rounds :
    isIntPattern "9007199254740993".toList = true ∧
    coerceValue (some "9007199254740993".toList) = JsVal.num (JsNum.fin 9007199254740992) ∧
    coerceValue (some (intText 9007199254740993)) ≠ JsVal.num (JsNum.fin 9007199254740993) := by
  decide

/-- C7 (amended): the ladder of `coerceValue`, first match wins.  `null` and the empty string
give `null`.  An optional `-` followed by one or more digits gives the Number nearest to the
integer written, which is that integer when its magnitude is below `2 ^ 53`; so every integer
`z` of magnitude below `2 ^ 53` is recovered from its decimal rendering.  Otherwise an optional
`-`, digits, a dot and digits give a floating-point Number.  Otherwise `true` and `false` in any
letter case give the booleans, and every other non-empty string is returned unchanged. -/
theorem coerceValue_ladder :
    coerceValue none = JsVal.null ∧ coerceValue (some []) = JsVal.null ∧
    (∀ (neg : Bool) (ds : Str), IsDigits ds →
      coerceValue (some (signedText neg ds)) = JsVal.num (toDouble neg (digitsVal ds)) ∧
      (digitsVal ds < 2 ^ 53 →
        coerceValue (some (signedText neg ds)) = JsVal.num (JsNum.fin (signedVal neg ds)))) ∧
    (∀ z : Int, z.natAbs < 2 ^ 53 → coerceValue (some (intText z)) = JsVal.num (JsNum.fin z)) ∧
    (∀ s : Str, DecForm s → coerceValue (some s) = JsVal.float s) ∧
    (∀ s : Str, s ≠ [] → ¬ IntForm s → ¬ DecForm s →
      (toLowerCase s = "true".toList → coerceValue (some s) = JsVal.bool true) ∧
      (toLowerCase s = "false".toList → coerceValue (some s) = JsVal.bool false) ∧
      (toLowerCase s ≠ "true".toList → toLowerCase s ≠ "false".toList →
        coerceValue (some s) = JsVal.str s)) := by
  have hint : ∀ (neg : Bool) (ds : Str), IsDigits ds →
      coerceValue (some (signedText neg ds)) = JsVal.num (toDouble neg (digitsVal ds)) := by
    intro neg ds hds
    have hne : signedText neg ds ≠ [] := by
      cases neg <;> simp [signedText, hds.1]
    simp only [coerceValue, hne, if_false]
    rw [isIntPattern_signed neg ds hds.1 hds.2, if_pos rfl, parseIntText_signed neg ds hds.1 hds.2]
  refine ⟨rfl, rfl, fun neg ds hds => ⟨hint neg ds hds, fun hlt => ?_⟩, fun z hz => ?_,
    fun s hs => ?_, fun s hne hni hnd => ?_⟩
  · rw [hint neg ds hds, toDouble_signed neg ds hlt]
  · obtain ⟨hds, hval⟩ := signedVal_intText z
    have hlt : digitsVal (Nat.toDigits 10 z.natAbs) < 2 ^ 53 := by
      rw [(toDigits_spec z.natAbs).2.2]; exact hz
    rw [intText, hint _ _ hds, toDouble_signed _ _ hlt, hval]
  · obtain ⟨h1, h2⟩ := patterns_of_decForm s hs
    have hne : s ≠ [] := by
      obtain ⟨neg, ip, fp, -, -, rfl⟩ := hs
      cases neg <;> simp [signedText]
    simp only [coerceValue, hne, if_false, h1, h2, Bool.false_eq_true, if_true]
  · have h1 : isIntPattern s = false := by
      cases h : isIntPattern s with
      | false => rfl
      | true => exact absurd (intForm_of_isIntPattern s h) hni
    have h2 : isDecPattern s = false := by
      cases h : isDecPattern s with
      | false => rfl
      | true => exact absurd (decForm_of_isDecPattern s h) hnd
    refine ⟨fun ht => ?_, fun hf => ?_, (coerceValue_non_numeric s hne h1 h2).2⟩
    · simp only [coerceValue, hne, if_false, h1, h2, Bool.false_eq_true]
      rw [if_pos ht]
    · have ht : toLowerCase s ≠ "true".toList := by rw [hf]; decide
      simp only [coerceValue, hne, if_false, h1, h2, Bool.false_eq_true]
      rw [if_neg ht, if_pos hf]

/-- C7 (amended) at `-42`, `2024`, `3.14`, `TRUE` and `12abc`. -/
theorem coerceValue_ladder_witness :
    coerceValue (some "-42".toList) = JsVal.num (JsNum.fin (-42)) ∧
    coerceValue (some (intText 2024)) = JsVal.num (JsNum.fin 2024) ∧
    coerceValue (some "3.14".toList) = JsVal.float "3.14".toList ∧
    coerceValue (some "TRUE".toList) = JsVal.bool true ∧
    coerceValue (some "12abc".toList) = JsVal.str "12abc".toList :=
  ⟨(coerceValue_ladder.2.2.1 true "42".toList (by decide)).2 (by decide),
   coerceValue_ladder.2.2.2.1 2024 (by decide),
   coerceValue_ladder.2.2.2.2.1 "3.14".toList
     ⟨false, "3".toList, "14".toList, by decide, by decide, by decide⟩,
   (coerceValue_ladder.2.2.2.2.2 "TRUE".toList (by decide)
     (fun h => absurd (isIntPattern_of_intForm _ h) (by decide))
     (fun h => absurd (patterns_of_decForm _ h).2 (by decide))).1 (by decide),
   (coerceValue_ladder.2.2.2.2.2 "12abc".toList (by decide)
     (fun h => absurd (isIntPattern_of_intForm _ h) (by decide))
     (fun h => absurd (patterns_of_decForm _ h).2 (by decide))).2.2 (by decide) (by decide)⟩

/-! ## Rows that are shorter or longer than the header -/

theorem rowVals_eq_map_getD (headers values : List Str) :
    rowVals headers values = (List.range headers.length).map (fun idx => values.getD idx []) := by
  unfold rowVals
  apply List.map_congr_left
  intro idx _
  by_cases h : idx < values.length
  · simp [h]
  · rw [if_neg h, List.getD_eq_default _ _ (Nat.le_of_not_lt h)]

theorem rowVals_congr (headers values values2 : List Str)
    (h : ∀ idx, idx < headers.length → values.getD idx [] = values2.getD idx []) :
    rowVals headers values = rowVals headers values2 := by
  rw [rowVals_eq_map_getD, rowVals_eq_map_getD]
  apply List.map_congr_left
  intro idx hidx
  exact h idx (List.mem_range.1 hidx)

theorem mapRow_congr (R : FloatRuntime) (proto : Props) (headers values values2 : List Str)
    (h : rowVals headers values = rowVals headers values2) :
    mapRow R proto headers values = mapRow R proto headers values2 := by
  unfold mapRow mapLoop
  rw [h]

/-- A row whose length differs from the header's is mapped like the row brought to the header's
length: `mapRow` behaves in the same way (it ends in the same way and leaves the same
`Object.prototype`) on `values` and on `values` padded with empty strings up to the header
length, and on `values` and on its first `headers.length` entries.  The cell of a column beyond
the end of `values` is the empty string, which is coerced to `null`. -/
theorem mapRow_length_mismatch (R : FloatRuntime) (proto : Props) (headers values : List Str) :
    mapRow R proto headers values =
        mapRow R proto headers (values ++ List.replicate (headers.length - values.length) []) ∧
      mapRow R proto headers values = mapRow R proto headers (values.take headers.length) ∧
      (∀ idx, values.length ≤ idx → idx < headers.length →
        (columns headers values).get? idx = some (headers.getD idx [], [])) ∧
      cellValue [] = JsVal.null := by
  refine ⟨mapRow_congr R proto _ _ _ (rowVals_congr _ _ _ fun idx hidx => ?_),
    mapRow_congr R proto _ _ _ (rowVals_congr _ _ _ fun idx hidx => ?_), fun idx h1 h2 => ?_, rfl⟩
  · by_cases h : idx < values.length
    · simp [List.getD_eq_getElem?_getD, List.getElem?_append_left h]
    · have h' : values.length ≤ idx := Nat.le_of_not_lt h
      rw [List.getD_eq_default _ _ h']
      simp only [List.getD_eq_getElem?_getD, List.getElem?_append_right h',
        List.getElem?_replicate]
      split_ifs <;> rfl
  · simp [List.getD_eq_getElem?_getD, List.getElem?_take, hidx]
  · have hr : (rowVals headers values).get? idx = some [] := by
      rw [rowVals_eq_map_getD]
      simp only [List.get?_eq_getElem?, List.getElem?_map, List.getElem?_range h2,
        Option.map_some', List.getD_eq_default _ _ h1]
    have hh : headers.get? idx = some (headers.getD idx []) := by
      simp [List.getD_eq_getElem?_getD, List.getElem?_eq_getElem h2]
    unfold columns
    simp only [List.get?_eq_getElem?] at hr hh ⊢
    rw [List.getElem?_zip_eq_some]
    exact ⟨hh, hr⟩

/-- C8: the code at the failing input.  With the headers
`name.firstName,name.lastName,age,__proto__.__proto__.x` and the row `Jane,Doe,30`, which is
one value short, `mapRow` does not end without error: the missing cell is read as the empty
string, and the call ends with the TypeError thrown by the setter of `__proto__` on
`Object.prototype`.  The same happens for the single header `__proto__.__proto__.x` and the
empty row, and for the padded and for the longer row. -/
theorem mapRow_short_row_throws :
    (mapRow sampleFloats Props.nil
      (parseCsvLine "name.firstName,name.lastName,age,__proto__.__proto__.x".toList)
      (parseCsvLine "Jane,Doe,30".toList)).result = RowResult.threw ∧
    (mapRow sampleFloats Props.nil (parseCsvLine "__proto__.__proto__.x".toList) []).result =
      RowResult.threw ∧
    (mapRow sampleFloats Props.nil
      (parseCsvLine "name.firstName,name.lastName,age,__proto__.__proto__.x".toList)
      (parseCsvLine "Jane,Doe,30,,".toList)).result = RowResult.threw ∧
    (mapRow sampleFloats Props.nil
      (parseCsvLine "name.firstName,name.lastName,age,__proto__.__proto__.x".toList)
      (parseCsvLine "Jane,Doe,30,1,2".toList)).result = RowResult.threw := by
  decide

/-! ## `setNested` -/

/-- C9: the code at the failing input.  After `setNested(obj, ['__proto__'], 'v')` with
`obj = {}` the lookup of `__proto__` does not yield `'v'`: the assignment runs the setter of
`Object.prototype.__proto__`, which ignores a scalar, so `obj` has no such property and is
left as it was.  For the value `null` the setter removes the prototype of `obj` instead, and
with a further segment, as in `__proto__.x`, the value is written to `Object.prototype`, not
to `obj`.  Any other key is set as claimed. -/
theorem setNested_proto_key :
    setNested Props.nil Props.nil [protoKey] (JsVal.str "v".toList) =
      { obj := Props.nil, proto := Props.nil, threw := false } ∧
    lookupPath (Entry.obj (setNested Props.nil Props.nil [protoKey] (JsVal.str "v".toList)).obj)
      [protoKey] = none ∧
    setNested Props.nil Props.nil [protoKey] JsVal.null =
      { obj := Props.bare, proto := Props.nil, threw := false } ∧
    setNested Props.nil Props.nil [protoKey, "x".toList] (JsVal.str "v".toList) =
      { obj := Props.nil,
        proto := Props.cons "x".toList (Entry.val (JsVal.str "v".toList)) Props.nil,
        threw := false } ∧
    lookupPath (Entry.obj (setNested Props.nil Props.nil ["a".toList] (JsVal.str "v".toList)).obj)
      ["a".toList] = some (Entry.val (JsVal.str "v".toList)) ∧
    (mapRow sampleFloats Props.nil
      (parseCsvLine "name.firstName,name.lastName,age,address.__proto__".toList)
      (parseCsvLine "Jane,Doe,30,v".toList)).result =
        RowResult.accepted
          { name := "Jane Doe".toList, age := .fin 30, address := none,
            additional_info := none } := by
  decide

/-! ## The import loop -/

theorem importStep_blank (R : FloatRuntime) (batchSize : Nat) (ok : Nat → Bool)
    (st : ImportState) (rawLine : Str) (h : trim (stripCR rawLine) = []) :
    importStep R batchSize ok st rawLine = st := by
  unfold importStep
  simp [h]

/-- Blank lines are skipped: the loop over all lines is the loop over the non-blank ones. -/
theorem foldl_importStep_filter (R : FloatRuntime) (batchSize : Nat) (ok : Nat → Bool)
    (lines : List Str) :
    ∀ st : ImportState, lines.foldl (importStep R batchSize ok) st =
      (lines.filter (fun raw => trim (stripCR raw) ≠ [])).foldl (importStep R batchSize ok) st := by
  induction lines with
  | nil => intro st; rfl
  | cons raw lines ih =>
    intro st
    by_cases h : trim (stripCR raw) = []
    · simp [List.filter_cons, h, importStep_blank R batchSize ok st raw h, ih]
    · simp [List.filter_cons, h, ih]

theorem dataLines_eq (lines : List Str) :
    dataLines lines = (lines.filter (fun raw => trim (stripCR raw) ≠ [])).map stripCR := by
  unfold dataLines
  rw [List.filter_map]
  rfl

theorem importStep_header (R : FloatRuntime) (batchSize : Nat) (ok : Nat → Bool) (proto : Props)
    (rawLine : Str) (h : trim (stripCR rawLine) ≠ []) :
    importStep R batchSize ok (ImportState.init proto) rawLine =
      { ImportState.init proto with
        headers := some ((parseCsvLine (stripCR rawLine)).map trim) } := by
  unfold importStep
  simp [h, ImportState.init]

theorem importStep_failed (R : FloatRuntime) (batchSize : Nat) (ok : Nat → Bool)
    (st : ImportState) (rawLine : Str) (h : st.failed = true) :
    importStep R batchSize ok st rawLine = st := by
  unfold importStep
  simp [h]

/-- Once an exception has left the loop, the remaining lines change nothing. -/
theorem foldl_importStep_failed (R : FloatRuntime) (batchSize : Nat) (ok : Nat → Bool)
    (lines : List Str) :
    ∀ st : ImportState, st.failed = true →
      lines.foldl (importStep R batchSize ok) st = st := by
  induction lines with
  | nil => intro st _; rfl
  | cons raw lines ih =>
    intro st h
    rw [List.foldl_cons, importStep_failed R batchSize ok st raw h]
    exact ih st h

/-- A data line on which `mapRow` throws: the loop is left. -/
theorem importStep_threw (R : FloatRuntime) (batchSize : Nat) (ok : Nat → Bool)
    (st : ImportState) (rawLine : Str) (headers : List Str) (hf : st.failed = false)
    (hh : st.headers = some headers) (hraw : trim (stripCR rawLine) ≠ [])
    (hm : (mapRow R st.proto headers (parseCsvLine (stripCR rawLine))).result =
      RowResult.threw) :
    importStep R batchSize ok st rawLine =
      { st with totalLines := st.totalLines + 1,
                proto := (mapRow R st.proto headers (parseCsvLine (stripCR rawLine))).proto,
                failed := true } := by
  unfold importStep
  simp [hf, hraw, hh, hm]

/-- A rejected data line: `totalLines` and `skipped` go up by one; of the rest only
`Object.prototype` can change. -/
theorem importStep_rejected (R : FloatRuntime) (batchSize : Nat) (ok : Nat → Bool)
    (st : ImportState) (rawLine : Str) (headers : List Str) (hf : st.failed = false)
    (hh : st.headers = some headers) (hraw : trim (stripCR rawLine) ≠ [])
    (hm : (mapRow R st.proto headers (parseCsvLine (stripCR rawLine))).result =
      RowResult.rejected) :
    importStep R batchSize ok st rawLine =
      { st with totalLines := st.totalLines + 1,
                proto := (mapRow R st.proto headers (parseCsvLine (stripCR rawLine))).proto,
                skipped := st.skipped + 1 } := by
  unfold importStep
  simp [hf, hraw, hh, hm]

/-- An accepted data line: the record is buffered, and the buffer is flushed when it is
full. -/
theorem importStep_accepted (R : FloatRuntime) (batchSize : Nat) (ok : Nat → Bool)
    (st : ImportState) (rawLine : Str) (headers : List Str) (mapped : Record)
    (hf : st.failed = false) (hh : st.headers = some headers)
    (hraw : trim (stripCR rawLine) ≠ [])
    (hm : (mapRow R st.proto headers (parseCsvLine (stripCR rawLine))).result =
      RowResult.accepted mapped) :
    importStep R batchSize ok st rawLine =
      if batchSize ≤ (st.batch ++ [mapped]).length then
        flushBatch ok
          { st with totalLines := st.totalLines + 1,
                    proto := (mapRow R st.proto headers (parseCsvLine (stripCR rawLine))).proto,
                    batch := st.batch ++ [mapped] }
      else
        { st with totalLines := st.totalLines + 1,
                  proto := (mapRow R st.proto headers (parseCsvLine (stripCR rawLine))).proto,
                  batch := st.batch ++ [mapped] } := by
  unfold importStep
  simp [hf, hraw, hh, hm]

theorem flushBatch_headers (ok : Nat → Bool) (st : ImportState) :
    (flushBatch ok st).headers = st.headers ∧ (flushBatch ok st).proto = st.proto := by
  unfold flushBatch
  split_ifs <;> exact ⟨rfl, rfl⟩

/-- A data line keeps the header and leaves the `Object.prototype` that `mapRow` has left. -/
theorem importStep_next (R : FloatRuntime) (batchSize : Nat) (ok : Nat → Bool)
    (st : ImportState) (rawLine : Str) (headers : List Str) (hf : st.failed = false)
    (hh : st.headers = some headers) (hraw : trim (stripCR rawLine) ≠ []) :
    (importStep R batchSize ok st rawLine).headers = some headers ∧
      (importStep R batchSize ok st rawLine).proto =
        (mapRow R st.proto headers (parseCsvLine (stripCR rawLine))).proto := by
  cases hm : (mapRow R st.proto headers (parseCsvLine (stripCR rawLine))).result with
  | threw =>
    rw [importStep_threw R batchSize ok st rawLine headers hf hh hraw hm]
    exact ⟨hh, rfl⟩
  | rejected =>
    rw [importStep_rejected R batchSize ok st rawLine headers hf hh hraw hm]
    exact ⟨hh, rfl⟩
  | accepted mapped =>
    rw [importStep_accepted R batchSize ok st rawLine headers mapped hf hh hraw hm]
    split_ifs
    · rw [(flushBatch_headers ok _).1, (flushBatch_headers ok _).2]
      exact ⟨hh, rfl⟩
    · exact ⟨hh, rfl⟩

theorem importStep_headers (R : FloatRuntime) (batchSize : Nat) (ok : Nat → Bool)
    (st : ImportState) (rawLine : Str) (headers : List Str) (hh : st.headers = some headers) :
    (importStep R batchSize ok st rawLine).headers = some headers := by
  cases hf : st.failed with
  | true => rw [importStep_failed R batchSize ok st rawLine hf]; exact hh
  | false =>
    by_cases hraw : trim (stripCR rawLine) = []
    · rw [importStep_blank R batchSize ok st rawLine hraw]; exact hh
    · exact (importStep_next R batchSize ok st rawLine headers hf hh hraw).1

theorem foldl_importStep_headers (R : FloatRuntime) (batchSize : Nat) (ok : Nat → Bool)
    (headers : List Str) (lines : List Str) :
    ∀ st : ImportState, st.headers = some headers →
      (lines.foldl (importStep R batchSize ok) st).headers = some headers := by
  induction lines with
  | nil => intro st h; exact h
  | cons raw lines ih =>
    intro st h
    exact ih _ (importStep_headers R batchSize ok st raw headers h)

theorem rowResults_cons (R : FloatRuntime) (headers : List Str) (proto : Props) (line : Str)
    (rest : List Str) :
    rowResults R headers proto (line :: rest) =
      (mapRow R proto headers (parseCsvLine line)).result ::
        rowResults R headers (mapRow R proto headers (parseCsvLine line)).proto rest := rfl

/-- One data line keeps the invariant and appends the record, if the row is accepted. -/
theorem importStep_row (R : FloatRuntime) (batchSize : Nat) (headers : List Str)
    (st : ImportState) (acc : List Record) (rawLine : Str)
    (hN : 1 ≤ batchSize) (hraw : trim (stripCR rawLine) ≠ [])
    (hh : st.headers = some headers) (hinv : BatchInv batchSize st acc)
    (hres : (mapRow R st.proto headers (parseCsvLine (stripCR rawLine))).result ≠
      RowResult.threw) :
    BatchInv batchSize (importStep R batchSize (fun _ => true) st rawLine)
      (acc ++ ((mapRow R st.proto headers
        (parseCsvLine (stripCR rawLine))).result.record?).toList) := by
  obtain ⟨hf, hacc, hall, hlt⟩ := hinv
  cases hm : (mapRow R st.proto headers (parseCsvLine (stripCR rawLine))).result with
  | threw => exact absurd hm hres
  | rejected =>
    rw [importStep_rejected R batchSize _ st rawLine headers hf hh hraw hm]
    simp only [RowResult.record?, Option.toList, List.append_nil]
    exact ⟨hf, hacc, hall, hlt⟩
  | accepted mapped =>
    rw [importStep_accepted R batchSize _ st rawLine headers mapped hf hh hraw hm]
    simp only [RowResult.record?, Option.toList]
    by_cases hfull : batchSize ≤ (st.batch ++ [mapped]).length
    · simp only [hfull, if_true, flushBatch]
      refine ⟨hf, ?_, ?_, ?_⟩
      · simp only [List.flatten_append, List.flatten_cons, List.flatten_nil, List.append_nil]
        rw [← List.append_assoc, hacc]
      · intro c hc
        rcases List.mem_append.1 hc with hc | hc
        · exact hall c hc
        · rw [List.mem_singleton.1 hc]
          simp only [List.length_append, List.length_singleton] at hfull ⊢
          omega
      · simp only [List.length_nil]; omega
    · simp only [hfull, if_false]
      refine ⟨hf, ?_, hall, ?_⟩
      · show st.calls.flatten ++ (st.batch ++ [mapped]) = acc ++ [mapped]
        rw [← List.append_assoc, hacc]
      · exact Nat.lt_of_not_le hfull

theorem foldl_importStep_rows (R : FloatRuntime) (batchSize : Nat) (headers : List Str)
    (hN : 1 ≤ batchSize) (rows : List Str) :
    ∀ (st : ImportState) (acc : List Record),
      (∀ raw ∈ rows, trim (stripCR raw) ≠ []) → st.headers = some headers →
      BatchInv batchSize st acc →
      RowResult.threw ∉ rowResults R headers st.proto (rows.map stripCR) →
        BatchInv batchSize (rows.foldl (importStep R batchSize (fun _ => true)) st)
          (acc ++ (rowResults R headers st.proto (rows.map stripCR)).filterMap
            RowResult.record?) := by
  induction rows with
  | nil => intro st acc _ _ hinv _; simpa [rowResults] using hinv
  | cons raw rows ih =>
    intro st acc hrows hh hinv hno
    rw [List.map_cons, rowResults_cons] at hno ⊢
    have hraw := hrows raw (by simp)
    have hres : (mapRow R st.proto headers (parseCsvLine (stripCR raw))).result ≠
        RowResult.threw := fun e => hno (by rw [e]; simp)
    have hstep := importStep_row R batchSize headers st acc raw hN hraw hh hinv hres
    obtain ⟨hh1, hp1⟩ := importStep_next R batchSize (fun _ => true) st raw headers hinv.1 hh hraw
    have := ih _ _ (fun r hr => hrows r (by simp [hr])) hh1 hstep
      (by rw [hp1]; exact fun h => hno (List.mem_cons_of_mem _ h))
    rw [hp1] at this
    simp only [List.foldl_cons]
    cases hm : (mapRow R st.proto headers (parseCsvLine (stripCR raw))).result with
    | threw => exact absurd hm hres
    | rejected =>
      simpa [List.filterMap_cons, hm, RowResult.record?, Option.toList] using this
    | accepted mapped =>
      simpa [List.filterMap_cons, hm, RowResult.record?, Option.toList] using this

/-- When no flush fails and `mapRow` throws on no row, the state after the loop satisfies the
invariant for the accepted rows. -/
theorem foldl_importStep_inv (R : FloatRuntime) (batchSize : Nat) (hN : 1 ≤ batchSize)
    (proto : Props) (lines : List Str) (hno : RowResult.threw ∉ rowOutcomes R proto lines) :
    BatchInv batchSize
      (lines.foldl (importStep R batchSize (fun _ => true)) (ImportState.init proto))
      (acceptedRows R proto lines) := by
  rw [foldl_importStep_filter]
  unfold acceptedRows
  unfold rowOutcomes at hno ⊢
  rw [dataLines_eq] at hno ⊢
  have hmem : ∀ raw ∈ lines.filter (fun raw => trim (stripCR raw) ≠ []),
      trim (stripCR raw) ≠ [] := by
    intro raw hraw
    simpa using (List.mem_filter.1 hraw).2
  cases hF : lines.filter (fun raw => trim (stripCR raw) ≠ []) with
  | nil => exact ⟨rfl, rfl, by simp [ImportState.init], by simp [ImportState.init]; omega⟩
  | cons hdr rows =>
    rw [hF] at hmem hno
    simp only [List.map_cons, List.foldl_cons] at hno ⊢
    rw [importStep_header R batchSize _ proto hdr (hmem hdr (by simp))]
    have hinit : BatchInv batchSize
        { ImportState.init proto with
          headers := some ((parseCsvLine (stripCR hdr)).map trim) } [] :=
      ⟨rfl, rfl, by simp [ImportState.init], by simp [ImportState.init]; omega⟩
    have := foldl_importStep_rows R batchSize _ hN rows _ [] (fun r hr => hmem r (by simp [hr]))
      rfl hinit hno
    simpa using this

theorem length_flatten_of_all (N : Nat) (calls : List (List Record))
    (h : ∀ c ∈ calls, c.length = N) : calls.flatten.length = N * calls.length := by
  induction calls with
  | nil => simp
  | cons c calls ih =>
    have h1 := h c (by simp)
    have h2 := ih (fun d hd => h d (by simp [hd]))
    simp only [List.flatten_cons, List.length_append, List.length_cons, h1, h2]
    rw [Nat.mul_succ]
    omega

theorem ceil_div_chunks (N c b : Nat) (hN : 1 ≤ N) (hb : b < N) :
    (N * c + b + N - 1) / N = (if b = 0 then c else c + 1) ∧ (N * c + b) % N = b := by
  refine ⟨?_, by rw [Nat.mul_add_mod, Nat.mod_eq_of_lt hb]⟩
  by_cases h0 : b = 0
  · rw [if_pos h0]
    apply Nat.div_eq_of_lt_le
    · rw [Nat.mul_comm]; omega
    · rw [Nat.succ_mul, Nat.mul_comm]; omega
  · rw [if_neg h0]
    apply Nat.div_eq_of_lt_le
    · rw [Nat.add_mul, Nat.mul_comm]; omega
    · rw [Nat.succ_mul, Nat.add_mul, Nat.mul_comm]; omega

theorem getD_length_of_all (N : Nat) (calls : List (List Record))
    (h : ∀ c ∈ calls, c.length = N) (i : Nat) (hi : i < calls.length) :
    (calls.getD i []).length = N := by
  rw [List.getD_eq_getElem _ _ hi]
  exact h _ (List.getElem_mem hi)

/-! ## Claim about the batch boundary -/

/-- C10, as stated, fails when `mapRow` throws on a later row.  With the headers
`name.firstName,name.lastName,age,address.__proto__,address.__proto__.__proto__.x` the row
`J,D,3,,1` is accepted: its empty cell removes the prototype of `address`, so the last column
stores `{}` under the key `__proto__` and ends by writing `x` to `Object.prototype`.  On the
row `K,E,4,z,1` the cell `z` is ignored by the setter, the last column reaches
`Object.prototype` and throws.  With batch size 2 and no failing flush there is one accepted
row, but `insertUsersBatch` is not called, neither in the loop nor after it, and the import
ends with the error. -/
theorem importLoop_batches_throw :
    (acceptedRows sampleFloats Props.nil
      ["name.firstName,name.lastName,age,address.__proto__,address.__proto__.__proto__.x".toList,
        "J,D,3,,1".toList, "K,E,4,z,1".toList]).length = 1 ∧
    (importLoop sampleFloats 2 (fun _ => true) Props.nil
      ["name.firstName,name.lastName,age,address.__proto__,address.__proto__.__proto__.x".toList,
        "J,D,3,,1".toList, "K,E,4,z,1".toList]).calls = [] ∧
    (1 + 2 - 1) / 2 = 1 ∧
    processCsvFile sampleFloats 2 (fun _ => true) Props.nil
      ["name.firstName,name.lastName,age,address.__proto__,address.__proto__.__proto__.x".toList,
        "J,D,3,,1".toList, "K,E,4,z,1".toList] = none ∧
    rowOutcomes sampleFloats Props.nil
      ["name.firstName,name.lastName,age,address.__proto__,address.__proto__.__proto__.x".toList,
        "J,D,3,,1".toList, "K,E,4,z,1".toList] =
      [RowResult.accepted
        { name := "J D".toList, age := .fin 3,
          address := some (Props.cons protoKey (Entry.obj Props.nil) Props.bare),
          additional_info := none },
       RowResult.threw] := by
  decide

/-- C10 (amended): for a batch size `N ≥ 1` and an input with `M ≥ 1` accepted rows, when no
flush fails and `mapRow` throws on no row, `insertUsersBatch` is called `ceil(M / N)` times;
every call but the last receives `N` records, the last one `M mod N` records (`N` when `N`
divides `M`); the batches concatenated in call order are the accepted records in file order;
and no call receives an empty batch. -/
theorem importLoop_batches (R : FloatRuntime) (N : Nat) (proto : Props) (lines : List Str)
    (hN : 1 ≤ N) (hM : 1 ≤ (acceptedRows R proto lines).length)
    (hrun : RowResult.threw ∉ rowOutcomes R proto lines) :
    (importLoop R N (fun _ => true) proto lines).failed = false ∧
    (importLoop R N (fun _ => true) proto lines).calls.length =
      ((acceptedRows R proto lines).length + N - 1) / N ∧
    (∀ i, i + 1 < (importLoop R N (fun _ => true) proto lines).calls.length →
      ((importLoop R N (fun _ => true) proto lines).calls.getD i []).length = N) ∧
    (importLoop R N (fun _ => true) proto lines).calls.getLast?.map List.length =
      some (if (acceptedRows R proto lines).length % N = 0 then N
            else (acceptedRows R proto lines).length % N) ∧
    (importLoop R N (fun _ => true) proto lines).calls.flatten = acceptedRows R proto lines ∧
    (∀ c ∈ (importLoop R N (fun _ => true) proto lines).calls, c ≠ []) := by
  have hloop : importLoop R N (fun _ => true) proto lines =
      finalFlush (fun _ => true)
        (lines.foldl (importStep R N (fun _ => true)) (ImportState.init proto)) :=
    rfl
  rw [hloop]
  obtain ⟨hf, hacc, hall, hlt⟩ := foldl_importStep_inv R N hN proto lines hrun
  generalize lines.foldl (importStep R N (fun _ => true)) (ImportState.init proto) = st
    at hf hacc hall hlt
  have hlen := length_flatten_of_all N st.calls hall
  have hMeq : (acceptedRows R proto lines).length = N * st.calls.length + st.batch.length := by
    rw [← hacc, List.length_append, hlen]
  obtain ⟨hceil, hmod⟩ := ceil_div_chunks N st.calls.length st.batch.length hN hlt
  rw [hMeq, hceil, hmod]
  by_cases hb : 0 < st.batch.length
  · have hb0 : st.batch.length ≠ 0 := by omega
    have hfin : finalFlush (fun _ => true) st =
        { st with calls := st.calls ++ [st.batch],
                  inserted := st.inserted + st.batch.length } := by
      unfold finalFlush
      simp [hf, hb]
    rw [hfin]
    simp only [if_neg hb0]
    refine ⟨hf, by simp, ?_, ?_, ?_, ?_⟩
    · intro i hi
      simp only [List.length_append, List.length_singleton] at hi
      have hi' : i < st.calls.length := by omega
      rw [List.getD_eq_getElem?_getD, List.getElem?_append_left hi', ← List.getD_eq_getElem?_getD]
      exact getD_length_of_all N st.calls hall i hi'
    · simp [List.getLast?_concat]
    · simp only [List.flatten_append, List.flatten_cons, List.flatten_nil, List.append_nil]
      exact hacc
    · intro c hc
      rcases List.mem_append.1 hc with hc | hc
      · intro e
        have := hall c hc
        rw [e] at this
        simp at this
        omega
      · rw [List.mem_singleton.1 hc]
        intro e
        rw [e] at hb
        simp at hb
  · have hb0 : st.batch.length = 0 := by omega
    have hnil : st.batch = [] := List.length_eq_zero.1 hb0
    have hfin : finalFlush (fun _ => true) st = st := by
      unfold finalFlush
      simp [hf, hb]
    rw [hfin]
    simp only [if_pos hb0]
    have hc1 : 1 ≤ st.calls.length := by
      rw [hMeq, hb0] at hM
      by_contra hc
      have : st.calls.length = 0 := by omega
      rw [this] at hM
      simp at hM
    refine ⟨hf, trivial, ?_, ?_, ?_, ?_⟩
    · intro i hi
      exact getD_length_of_all N st.calls hall i (by omega)
    · cases hl : st.calls.getLast? with
      | none =>
        rw [List.getLast?_eq_none_iff] at hl
        rw [hl] at hc1
        simp at hc1
      | some x =>
        simp only [Option.map_some', Option.some.injEq]
        exact hall x (List.mem_of_getLast?_eq_some hl)
    · rw [← hacc, hnil, List.append_nil]
    · intro c hc e
      have := hall c hc
      rw [e] at this
      simp at this
      omega

/-- C10 (amended) at batch size 2 and three accepted rows. -/
theorem importLoop_batches_witness :
    (importLoop sampleFloats 2 (fun _ => true) Props.nil
      ["name.firstName,name.lastName,age".toList, "a,b,1".toList, "c,d,2".toList,
        "e,f,3".toList]).calls.length = (3 + 2 - 1) / 2 ∧
    (importLoop sampleFloats 2 (fun _ => true) Props.nil
      ["name.firstName,name.lastName,age".toList, "a,b,1".toList, "c,d,2".toList,
        "e,f,3".toList]).calls.getLast?.map List.length = some 1 :=
  have h := importLoop_batches sampleFloats 2 Props.nil
    ["name.firstName,name.lastName,age".toList, "a,b,1".toList, "c,d,2".toList, "e,f,3".toList]
    (by decide) (by decide) (by decide)
  ⟨h.2.1, h.2.2.2.1⟩

/-! ## Counters of the import loop -/

theorem importStep_count (R : FloatRuntime) (batchSize : Nat) (ok : Nat → Bool)
    (headers : List Str) (st : ImportState) (res : List RowResult) (rawLine : Str)
    (hraw : trim (stripCR rawLine) ≠ []) (hh : st.headers = some headers)
    (hinv : CountInv st res) :
    CountInv (importStep R batchSize ok st rawLine)
      (res ++ [(mapRow R st.proto headers (parseCsvLine (stripCR rawLine))).result]) := by
  cases hf : st.failed with
  | true =>
    rw [importStep_failed R batchSize ok st rawLine hf]
    exact fun h => by rw [hf] at h; cases h
  | false =>
    obtain ⟨hacc, hins, hskip, htot, hno⟩ := hinv hf
    cases hm : (mapRow R st.proto headers (parseCsvLine (stripCR rawLine))).result with
    | threw =>
      rw [importStep_threw R batchSize ok st rawLine headers hf hh hraw hm]
      exact fun h => by cases h
    | rejected =>
      rw [importStep_rejected R batchSize ok st rawLine headers hf hh hraw hm]
      refine fun _ => ⟨?_, hins, ?_, ?_, ?_⟩
      · simpa [List.filterMap_append, RowResult.record?] using hacc
      · simp [List.count_append, hskip]
      · simp [htot]
      · simpa using hno
    | accepted mapped =>
      rw [importStep_accepted R batchSize ok st rawLine headers mapped hf hh hraw hm]
      have hno2 : RowResult.threw ∉ res ++ [RowResult.accepted mapped] := by simpa using hno
      have hskip2 : st.skipped = (res ++ [RowResult.accepted mapped]).count RowResult.rejected := by
        simp [List.count_append, hskip]
      by_cases hfull : batchSize ≤ (st.batch ++ [mapped]).length
      · simp only [hfull, if_true, flushBatch]
        by_cases hok : ok st.calls.length = true
        · simp only [hok, if_true]
          refine fun _ => ⟨?_, ?_, hskip2, by simp [htot], hno2⟩
          · simp only [List.flatten_append, List.flatten_cons, List.flatten_nil,
              List.append_nil, List.filterMap_append, List.filterMap_cons, List.filterMap_nil,
              RowResult.record?]
            rw [← hacc, List.append_assoc]
          · simp only [List.flatten_append, List.flatten_cons, List.flatten_nil,
              List.append_nil, List.length_append]
            rw [hins]
        · simp only [hok, Bool.false_eq_true, if_false]
          exact fun h => by cases h
      · simp only [hfull, if_false]
        refine fun _ => ⟨?_, hins, hskip2, by simp [htot], hno2⟩
        show st.calls.flatten ++ (st.batch ++ [mapped]) = _
        simp only [List.filterMap_append, List.filterMap_cons, List.filterMap_nil,
          RowResult.record?]
        rw [← List.append_assoc, hacc]

theorem foldl_importStep_count (R : FloatRuntime) (batchSize : Nat) (ok : Nat → Bool)
    (headers : List Str) (rows : List Str) :
    ∀ (st : ImportState) (res : List RowResult),
      (∀ raw ∈ rows, trim (stripCR raw) ≠ []) → st.headers = some headers →
      CountInv st res →
        CountInv (rows.foldl (importStep R batchSize ok) st)
          (res ++ rowResults R headers st.proto (rows.map stripCR)) := by
  induction rows with
  | nil => intro st res _ _ hinv; simpa [rowResults] using hinv
  | cons raw rows ih =>
    intro st res hrows hh hinv
    have hraw := hrows raw (by simp)
    cases hf : st.failed with
    | true =>
      rw [foldl_importStep_failed R batchSize ok _ st hf]
      exact fun h => by rw [hf] at h; cases h
    | false =>
      obtain ⟨hh1, hp1⟩ := importStep_next R batchSize ok st raw headers hf hh hraw
      have hstep := importStep_count R batchSize ok headers st res raw hraw hh hinv
      have := ih _ _ (fun r hr => hrows r (by simp [hr])) hh1 hstep
      rw [hp1] at this
      simpa [rowResults_cons] using this

/-- The state after the loop, before the final flush, for any behaviour of the sink. -/
theorem foldl_importStep_counters (R : FloatRuntime) (batchSize : Nat) (ok : Nat → Bool)
    (proto : Props) (lines : List Str) :
    CountInv (lines.foldl (importStep R batchSize ok) (ImportState.init proto))
      (rowOutcomes R proto lines) := by
  rw [foldl_importStep_filter]
  unfold rowOutcomes
  rw [dataLines_eq]
  have hmem : ∀ raw ∈ lines.filter (fun raw => trim (stripCR raw) ≠ []),
      trim (stripCR raw) ≠ [] := by
    intro raw hraw
    simpa using (List.mem_filter.1 hraw).2
  cases hF : lines.filter (fun raw => trim (stripCR raw) ≠ []) with
  | nil => intro _; exact ⟨rfl, rfl, rfl, rfl, by simp⟩
  | cons hdr rows =>
    rw [hF] at hmem
    simp only [List.map_cons, List.foldl_cons]
    rw [importStep_header R batchSize ok proto hdr (hmem hdr (by simp))]
    have hinit : CountInv
        { ImportState.init proto with
          headers := some ((parseCsvLine (stripCR hdr)).map trim) } [] :=
      fun _ => ⟨rfl, rfl, rfl, rfl, by simp⟩
    have := foldl_importStep_count R batchSize ok _ rows _ []
      (fun r hr => hmem r (by simp [hr])) rfl hinit
    simpa using this

theorem rowResults_length (R : FloatRuntime) (headers : List Str) (rows : List Str) :
    ∀ proto : Props, (rowResults R headers proto rows).length = rows.length := by
  induction rows with
  | nil => intro proto; rfl
  | cons line rows ih => intro proto; rw [rowResults_cons, List.length_cons, ih]; rfl

theorem rowOutcomes_length (R : FloatRuntime) (proto : Props) (lines : List Str) :
    (rowOutcomes R proto lines).length = (rowLines lines).length := by
  unfold rowOutcomes rowLines
  cases dataLines lines with
  | nil => rfl
  | cons header rows => exact rowResults_length R _ rows proto

/-- When no row has thrown, every row is accepted or rejected. -/
theorem accepted_add_rejected (res : List RowResult) (h : RowResult.threw ∉ res) :
    (res.filterMap RowResult.record?).length + res.count RowResult.rejected = res.length := by
  induction res with
  | nil => rfl
  | cons r res ih =>
    have ih := ih (fun hm => h (List.mem_cons_of_mem _ hm))
    cases r with
    | threw => exact absurd (List.mem_cons_self _ _) h
    | rejected =>
      simp only [List.filterMap_cons, RowResult.record?, List.count_cons_self, List.length_cons]
      omega
    | accepted record =>
      have hne : (RowResult.accepted record == RowResult.rejected) = false := by
        simp
      simp only [List.filterMap_cons, RowResult.record?, List.count_cons, hne, List.length_cons,
        Bool.false_eq_true, if_false]
      omega

/-! ## Claim about the counters -/

/-- C11: when the import completes with a summary (nothing has been thrown), `totalLines` is
the number of non-blank lines after the header line, `skipped` the number of them that `mapRow`
rejects and `inserted` the number it accepts, so `inserted + skipped = totalLines`; and a
rejected line increases `skipped` (and `totalLines`) by exactly one and leaves `inserted`, the
buffer and the calls made unchanged. -/
theorem processCsvFile_counters (R : FloatRuntime) (batchSize : Nat) (ok : Nat → Bool)
    (proto : Props) (lines : List Str) (s : Summary)
    (h : processCsvFile R batchSize ok proto lines = some s) :
    s.totalLines = (rowLines lines).length ∧
    s.skipped = rejectedCount R proto lines ∧
    s.inserted = (acceptedRows R proto lines).length ∧
    s.inserted + s.skipped = s.totalLines ∧
    (∀ (st : ImportState) (rawLine : Str) (headers : List Str), st.failed = false →
      st.headers = some headers → trim (stripCR rawLine) ≠ [] →
      (mapRow R st.proto headers (parseCsvLine (stripCR rawLine))).result =
        RowResult.rejected →
        (importStep R batchSize ok st rawLine).skipped = st.skipped + 1 ∧
        (importStep R batchSize ok st rawLine).inserted = st.inserted ∧
        (importStep R batchSize ok st rawLine).batch = st.batch ∧
        (importStep R batchSize ok st rawLine).calls = st.calls) := by
  have hinv := foldl_importStep_counters R batchSize ok proto lines
  have hlen := rowOutcomes_length R proto lines
  unfold processCsvFile importLoop at h
  generalize lines.foldl (importStep R batchSize ok) (ImportState.init proto) = st at hinv h
  have key : s.totalLines = (rowLines lines).length ∧
      s.skipped = rejectedCount R proto lines ∧
      s.inserted = (acceptedRows R proto lines).length ∧
      RowResult.threw ∉ rowOutcomes R proto lines := by
    cases hf : st.failed with
    | true => simp [finalFlush, hf] at h
    | false =>
      obtain ⟨hacc, hins, hskip, htot, hno⟩ := hinv hf
      by_cases hb : 0 < st.batch.length
      · by_cases hok : ok st.calls.length = true
        · simp only [finalFlush, hf, hb, hok, Bool.false_eq_true, if_false, if_true,
            Option.some.injEq] at h
          rw [← h]
          refine ⟨by rw [← hlen]; exact htot, hskip, ?_, hno⟩
          show st.inserted + st.batch.length = _
          unfold acceptedRows
          rw [← hacc, List.length_append, hins]
        · simp [finalFlush, hf, hb, hok] at h
      · simp only [finalFlush, hf, hb, Bool.false_eq_true, if_false, Option.some.injEq] at h
        rw [← h]
        refine ⟨by rw [← hlen]; exact htot, hskip, ?_, hno⟩
        show st.inserted = _
        have hnil : st.batch = [] := List.length_eq_zero.1 (by omega)
        unfold acceptedRows
        rw [← hacc, hnil, List.append_nil, hins]
  obtain ⟨k1, k2, k3, k4⟩ := key
  refine ⟨k1, k2, k3, ?_, ?_⟩
  · rw [k1, k2, k3, ← hlen]
    exact accepted_add_rejected _ k4
  · intro st0 rawLine headers hf hh hraw hm
    rw [importStep_rejected R batchSize ok st0 rawLine headers hf hh hraw hm]
    exact ⟨rfl, rfl, rfl, rfl⟩

/-- C11 at a file with a blank line, two accepted rows and one rejected row. -/
theorem processCsvFile_counters_witness :
    (3 : Nat) = (rowLines ["name.firstName,name.lastName,age".toList, "".toList,
      "a,b,1".toList, "c,d,x".toList, "e,f,2".toList]).length ∧
    (1 : Nat) = rejectedCount sampleFloats Props.nil ["name.firstName,name.lastName,age".toList,
      "".toList, "a,b,1".toList, "c,d,x".toList, "e,f,2".toList] ∧
    (2 : Nat) = (acceptedRows sampleFloats Props.nil ["name.firstName,name.lastName,age".toList,
      "".toList, "a,b,1".toList, "c,d,x".toList, "e,f,2".toList]).length :=
  have h := processCsvFile_counters sampleFloats 2 (fun _ => true) Props.nil
    ["name.firstName,name.lastName,age".toList, "".toList, "a,b,1".toList, "c,d,x".toList,
      "e,f,2".toList] ⟨2, 1, 3⟩ (by decide)
  ⟨h.1, h.2.1, h.2.2.1⟩

/-! ## Flush failures -/

/-- A call of the sink from a state without failure keeps `FailInv`, whatever is done with the
buffer afterwards. -/
theorem failInv_call (ok : Nat → Bool) (st : ImportState) (newBatch : List Record)
    (hf : st.failed = false) (hinv : FailInv ok st) :
    FailInv ok
      (if ok st.calls.length then
        { st with calls := st.calls ++ [st.batch], inserted := st.inserted + st.batch.length,
                  batch := newBatch }
      else { st with calls := st.calls ++ [st.batch], failed := true }) := by
  obtain ⟨hall, hins⟩ := hinv.2.1 hf
  have hprev : ∀ i, i + 1 < (st.calls ++ [st.batch]).length → ok i = true := by
    intro i hi
    simp only [List.length_append, List.length_singleton] at hi
    exact hall i (by omega)
  by_cases hok : ok st.calls.length = true
  · rw [if_pos hok]
    unfold FailInv
    refine ⟨hprev, fun _ => ⟨?_, ?_⟩, fun h => ?_⟩
    · intro i hi
      simp only [List.length_append, List.length_singleton] at hi
      by_cases hlt : i < st.calls.length
      · exact hall i hlt
      · have : i = st.calls.length := by omega
        rw [this]; exact hok
    · simp only [List.flatten_append, List.flatten_cons, List.flatten_nil, List.append_nil,
        List.length_append]
      rw [hins]
    · simp only [hf] at h
      cases h
  · rw [if_neg hok]
    unfold FailInv
    refine ⟨hprev, (fun h => nomatch h), fun _ => Or.inl ⟨by simp, ?_, ?_⟩⟩
    · simpa using hok
    · simp only [List.dropLast_concat]
      exact hins

theorem failInv_importStep (R : FloatRuntime) (batchSize : Nat) (ok : Nat → Bool)
    (st : ImportState) (rawLine : Str) (hinv : FailInv ok st) :
    FailInv ok (importStep R batchSize ok st rawLine) := by
  cases hf : st.failed with
  | true => rw [importStep_failed R batchSize ok st rawLine hf]; exact hinv
  | false =>
    by_cases hraw : trim (stripCR rawLine) = []
    · rw [importStep_blank R batchSize ok st rawLine hraw]; exact hinv
    · cases hh : st.headers with
      | none =>
        have e : importStep R batchSize ok st rawLine =
            { st with headers := some ((parseCsvLine (stripCR rawLine)).map trim) } := by
          unfold importStep
          simp [hf, hraw, hh]
        rw [e]
        exact hinv
      | some headers =>
        cases hm : (mapRow R st.proto headers (parseCsvLine (stripCR rawLine))).result with
        | threw =>
          rw [importStep_threw R batchSize ok st rawLine headers hf hh hraw hm]
          exact ⟨hinv.1, (fun h => nomatch h), fun _ => Or.inr (hinv.2.1 hf)⟩
        | rejected =>
          rw [importStep_rejected R batchSize ok st rawLine headers hf hh hraw hm]
          exact hinv
        | accepted mapped =>
          rw [importStep_accepted R batchSize ok st rawLine headers mapped hf hh hraw hm]
          by_cases hfull : batchSize ≤ (st.batch ++ [mapped]).length
          · rw [if_pos hfull]
            exact failInv_call ok
              { st with totalLines := st.totalLines + 1,
                        proto := (mapRow R st.proto headers
                          (parseCsvLine (stripCR rawLine))).proto,
                        batch := st.batch ++ [mapped] } [] hf hinv
          · rw [if_neg hfull]
            exact hinv

theorem failInv_foldl (R : FloatRuntime) (batchSize : Nat) (ok : Nat → Bool)
    (lines : List Str) :
    ∀ st : ImportState, FailInv ok st →
      FailInv ok (lines.foldl (importStep R batchSize ok) st) := by
  induction lines with
  | nil => intro st h; exact h
  | cons raw lines ih =>
    intro st h
    exact ih _ (failInv_importStep R batchSize ok st raw h)

/-- The state at the end of the import satisfies `FailInv`. -/
theorem failInv_importLoop (R : FloatRuntime) (batchSize : Nat) (ok : Nat → Bool)
    (proto : Props) (lines : List Str) : FailInv ok (importLoop R batchSize ok proto lines) := by
  have hinit : FailInv ok (ImportState.init proto) :=
    ⟨fun i hi => by simp [ImportState.init] at hi,
      fun _ => ⟨fun i hi => by simp [ImportState.init] at hi, rfl⟩, fun h => nomatch h⟩
  have h := failInv_foldl R batchSize ok lines _ hinit
  unfold importLoop
  generalize lines.foldl (importStep R batchSize ok) (ImportState.init proto) = st at h
  unfold finalFlush
  cases hf : st.failed with
  | true => simpa [hf] using h
  | false =>
    obtain ⟨headers, batch, inserted, skipped, totalLines, calls, failed, proto1⟩ := st
    simp only at hf
    subst hf
    simp only [Bool.false_eq_true, if_false]
    by_cases hb : 0 < batch.length
    · rw [if_pos hb]
      exact failInv_call ok
        { headers := headers, batch := batch, inserted := inserted, skipped := skipped,
          totalLines := totalLines, calls := calls, failed := false, proto := proto1 }
        batch rfl h
    · rw [if_neg hb]; exact h

/-! ## Claim about flush failures -/

/-- C12: if the call of `insertUsersBatch` with index `j` (the `(j+1)`-th call) is made and is
the first one that fails, then it is the last call: exactly `j + 1` calls are made, the import
ends with the error instead of a summary, and `inserted` is the number of records of the first
`j` batches.  Lines after the one whose flush failed are not processed: the final state is the
state right after the failure. -/
theorem importLoop_flush_failure (R : FloatRuntime) (batchSize : Nat) (ok : Nat → Bool)
    (proto : Props) (lines : List Str) (j : Nat) (hj : ok j = false)
    (hprev : ∀ i, i < j → ok i = true)
    (hreach : j < (importLoop R batchSize ok proto lines).calls.length) :
    (importLoop R batchSize ok proto lines).failed = true ∧
    (importLoop R batchSize ok proto lines).calls.length = j + 1 ∧
    processCsvFile R batchSize ok proto lines = none ∧
    (importLoop R batchSize ok proto lines).inserted =
      ((importLoop R batchSize ok proto lines).calls.take j).flatten.length ∧
    (∀ pre post : List Str, lines = pre ++ post →
      (pre.foldl (importStep R batchSize ok) (ImportState.init proto)).failed = true →
        importLoop R batchSize ok proto lines =
          pre.foldl (importStep R batchSize ok) (ImportState.init proto)) := by
  have hinv := failInv_importLoop R batchSize ok proto lines
  have hfailed : (importLoop R batchSize ok proto lines).failed = true := by
    cases hf : (importLoop R batchSize ok proto lines).failed with
    | true => rfl
    | false =>
      have := (hinv.2.1 hf).1 j hreach
      rw [hj] at this
      cases this
  have hflush : (importLoop R batchSize ok proto lines).calls ≠ [] ∧
      ok ((importLoop R batchSize ok proto lines).calls.length - 1) = false ∧
      (importLoop R batchSize ok proto lines).inserted =
        (importLoop R batchSize ok proto lines).calls.dropLast.flatten.length := by
    rcases hinv.2.2 hfailed with h | h
    · exact h
    · have := h.1 j hreach
      rw [hj] at this
      cases this
  obtain ⟨hne, hlast, hins⟩ := hflush
  have hlen : (importLoop R batchSize ok proto lines).calls.length = j + 1 := by
    have h1 : ¬ j + 1 < (importLoop R batchSize ok proto lines).calls.length := by
      intro h
      have := hinv.1 j h
      rw [hj] at this
      cases this
    have h2 : ¬ (importLoop R batchSize ok proto lines).calls.length - 1 < j := by
      intro h
      have := hprev _ h
      rw [hlast] at this
      cases this
    omega
  refine ⟨hfailed, hlen, ?_, ?_, ?_⟩
  · unfold processCsvFile
    simp [hfailed]
  · rw [hins, List.dropLast_eq_take, hlen]
    rfl
  · intro pre post hlines hpre
    unfold importLoop
    rw [hlines, List.foldl_append, foldl_importStep_failed R batchSize ok post _ hpre]
    unfold finalFlush
    simp [hpre]

/-- C12 at three batches of which the second fails: two calls are made, `inserted` is the size
of the first batch and the third batch is never flushed. -/
theorem importLoop_flush_failure_witness :
    (importLoop sampleFloats 2 (fun i => i != 1) Props.nil
      ["name.firstName,name.lastName,age".toList, "a,b,1".toList, "c,d,2".toList,
        "e,f,3".toList, "g,h,4".toList, "i,j,5".toList]).calls.length = 1 + 1 ∧
    processCsvFile sampleFloats 2 (fun i => i != 1) Props.nil
      ["name.firstName,name.lastName,age".toList, "a,b,1".toList, "c,d,2".toList,
        "e,f,3".toList, "g,h,4".toList, "i,j,5".toList] = none ∧
    (importLoop sampleFloats 2 (fun i => i != 1) Props.nil
      ["name.firstName,name.lastName,age".toList, "a,b,1".toList, "c,d,2".toList,
        "e,f,3".toList, "g,h,4".toList, "i,j,5".toList]).inserted = 2 ∧
    (importLoop sampleFloats 2 (fun _ => true) Props.nil
      ["name.firstName,name.lastName,age".toList, "a,b,1".toList, "c,d,2".toList,
        "e,f,3".toList, "g,h,4".toList, "i,j,5".toList]).calls.length = 3 :=
  have h := importLoop_flush_failure sampleFloats 2 (fun i => i != 1) Props.nil
    ["name.firstName,name.lastName,age".toList, "a,b,1".toList, "c,d,2".toList,
      "e,f,3".toList, "g,h,4".toList, "i,j,5".toList] 1 (by decide) (by decide) (by decide)
  ⟨h.2.1, h.2.2.1, by decide, by decide⟩

/-! ## Blank lines -/

theorem trimEnd_eq_nil (u : Str) : trimEnd u = [] ↔ ∀ c ∈ u, isJsSpace c = true := by
  unfold trimEnd
  rw [List.reverse_eq_nil_iff, List.dropWhile_eq_nil_iff]
  simp

theorem trim_eq_nil (s : Str) : trim s = [] ↔ IsBlank s := by
  unfold trim IsBlank
  rw [trimEnd_eq_nil]
  constructor
  · intro h
    have hnil : s.dropWhile isJsSpace = [] := by
      cases hu : s.dropWhile isJsSpace with
      | nil => rfl
      | cons c u =>
        have h1 := List.head?_dropWhile_not isJsSpace s
        rw [hu] at h1 h
        have h2 := h c (by simp)
        simp only [List.head?_cons] at h1
        rw [h2] at h1
        cases h1
    exact List.dropWhile_eq_nil_iff.1 hnil
  · intro h c hc
    exact h c ((List.dropWhile_sublist _).subset hc)

theorem isBlank_stripCR (rawLine : Str) : IsBlank (stripCR rawLine) ↔ IsBlank rawLine := by
  unfold stripCR
  by_cases h : rawLine.getLast? = some '\r'
  · rw [if_pos h]
    obtain ⟨ys, hys⟩ := List.getLast?_eq_some_iff.1 h
    rw [hys, List.dropLast_concat]
    unfold IsBlank
    constructor
    · intro hb c hc
      rcases List.mem_append.1 hc with hc | hc
      · exact hb c hc
      · rw [List.mem_singleton.1 hc]; decide
    · intro hb c hc
      exact hb c (List.mem_append_left _ hc)
  · rw [if_neg h]

theorem filter_nonblank_eq (lines : List Str) :
    lines.filter (fun raw => trim (stripCR raw) ≠ []) =
      lines.filter (fun raw => ¬ IsBlank raw) := by
  apply List.filter_congr
  intro raw _
  have : trim (stripCR raw) = [] ↔ IsBlank raw := by
    rw [trim_eq_nil, isBlank_stripCR]
  by_cases hb : IsBlank raw
  · simp [hb, this.2 hb]
  · have : trim (stripCR raw) ≠ [] := fun e => hb (this.1 e)
    simp [hb, this]
theorem finalFlush_headers (ok : Nat → Bool) (st : ImportState) :
    (finalFlush ok st).headers = st.headers := by
  unfold finalFlush
  split_ifs <;> rfl

/-- The header is captured from the first non-blank line, whatever the sink does. -/
theorem importLoop_headers (R : FloatRuntime) (batchSize : Nat) (ok : Nat → Bool)
    (proto : Props) (lines : List Str) :
    (importLoop R batchSize ok proto lines).headers =
      ((lines.filter (fun raw => trim (stripCR raw) ≠ [])).head?).map
        (fun raw => (parseCsvLine (stripCR raw)).map trim) := by
  unfold importLoop
  rw [finalFlush_headers, foldl_importStep_filter]
  have hmem : ∀ raw ∈ lines.filter (fun raw => trim (stripCR raw) ≠ []),
      trim (stripCR raw) ≠ [] := by
    intro raw hraw
    simpa using (List.mem_filter.1 hraw).2
  cases hF : lines.filter (fun raw => trim (stripCR raw) ≠ []) with
  | nil => rfl
  | cons hdr rows =>
    rw [hF] at hmem
    simp only [List.foldl_cons, List.head?_cons, Option.map_some']
    rw [importStep_header R batchSize ok proto hdr (hmem hdr (by simp))]
    exact foldl_importStep_headers R batchSize ok _ rows _ rfl

/-! ## Claim about blank lines -/

/-- C13: blank lines (empty or white space only, anywhere in the input) do not matter: the loop
of the import ends in the same state (captured header, counters, buffer, sequence of batches
sent to the sink, failure) as on the input without its blank lines, so `processCsvFile` has the
same outcome; and the header is read from the first non-blank line. -/
theorem importLoop_ignores_blank (R : FloatRuntime) (batchSize : Nat) (ok : Nat → Bool)
    (proto : Props) (lines : List Str) :
    importLoop R batchSize ok proto lines =
      importLoop R batchSize ok proto (lines.filter (fun raw => ¬ IsBlank raw)) ∧
    processCsvFile R batchSize ok proto lines =
      processCsvFile R batchSize ok proto (lines.filter (fun raw => ¬ IsBlank raw)) ∧
    (importLoop R batchSize ok proto lines).headers =
      ((lines.filter (fun raw => ¬ IsBlank raw)).head?).map
        (fun raw => (parseCsvLine (stripCR raw)).map trim) := by
  have hloop : importLoop R batchSize ok proto lines =
      importLoop R batchSize ok proto (lines.filter (fun raw => ¬ IsBlank raw)) := by
    unfold importLoop
    rw [foldl_importStep_filter R batchSize ok lines,
      foldl_importStep_filter R batchSize ok (lines.filter (fun raw => ¬ IsBlank raw)),
      ← filter_nonblank_eq, List.filter_filter]
    simp
  refine ⟨hloop, ?_, ?_⟩
  · unfold processCsvFile
    rw [hloop]
  · rw [importLoop_headers, filter_nonblank_eq]

/-! ## Columns with an empty header -/

theorem mapStep_empty_header (R : FloatRuntime) (st : MapState) (col : Str × Str)
    (h : trim col.1 = []) : mapStep R st col = st := by
  unfold mapStep
  simp [h]

/-- Removing a column whose header is empty does not change the loop. -/
theorem foldl_mapStep_eraseIdx (R : FloatRuntime) (cols : List (Str × Str)) :
    ∀ (i : Nat) (st : MapState), (∀ col, cols[i]? = some col → trim col.1 = []) →
      (cols.eraseIdx i).foldl (mapStep R) st = cols.foldl (mapStep R) st := by
  induction cols with
  | nil => intro i st _; rfl
  | cons c cols ih =>
    intro i st h
    cases i with
    | zero =>
      have hc : trim c.1 = [] := h c (by simp)
      simp [mapStep_empty_header R st c hc]
    | succ i =>
      simp only [List.eraseIdx_cons_succ, List.foldl_cons]
      exact ih i _ (fun col hcol => h col (by simpa using hcol))

theorem zip_eraseIdx {α β : Type} (l1 : List α) :
    ∀ (l2 : List β) (i : Nat),
      List.zip (l1.eraseIdx i) (l2.eraseIdx i) = (List.zip l1 l2).eraseIdx i := by
  induction l1 with
  | nil => intro l2 i; simp
  | cons a l1 ih =>
    intro l2 i
    cases l2 with
    | nil =>
      simp only [List.zip_nil_right, List.eraseIdx_nil]
    | cons b l2 =>
      cases i with
      | zero => simp
      | succ i => simp [ih l2 i]

theorem rowVals_getElem? (headers values : List Str) (j : Nat) :
    (rowVals headers values)[j]? =
      if j < headers.length then some (values.getD j []) else none := by
  rw [rowVals_eq_map_getD, List.getElem?_map]
  by_cases h : j < headers.length
  · rw [List.getElem?_range h, if_pos h]; rfl
  · rw [if_neg h, List.getElem?_eq_none (by simpa using h)]; rfl

theorem getD_eraseIdx (values : List Str) (i j : Nat) :
    (values.eraseIdx i).getD j [] =
      if j < i then values.getD j [] else values.getD (j + 1) [] := by
  simp only [List.getD_eq_getElem?_getD, List.getElem?_eraseIdx]
  split_ifs <;> rfl

theorem rowVals_eraseIdx (headers values : List Str) (i : Nat) (hi : i < headers.length) :
    rowVals (headers.eraseIdx i) (values.eraseIdx i) = (rowVals headers values).eraseIdx i := by
  apply List.ext_getElem?
  intro j
  rw [rowVals_getElem?, List.getElem?_eraseIdx, List.length_eraseIdx_of_lt hi, getD_eraseIdx,
    rowVals_getElem?, rowVals_getElem?]
  by_cases hj : j < i
  · have h1 : j < headers.length - 1 := by omega
    have h2 : j < headers.length := by omega
    simp [hj, h1, h2]
  · by_cases h1 : j < headers.length - 1
    · have h2 : j + 1 < headers.length := by omega
      simp [hj, h1, h2]
    · have h2 : ¬ j + 1 < headers.length := by omega
      simp [hj, h1, h2]

theorem columns_eraseIdx (headers values : List Str) (i : Nat) (hi : i < headers.length) :
    columns (headers.eraseIdx i) (values.eraseIdx i) = (columns headers values).eraseIdx i := by
  unfold columns
  rw [rowVals_eraseIdx headers values i hi, zip_eraseIdx]

theorem mapRow_eraseIdx (R : FloatRuntime) (proto : Props) (headers values : List Str) (i : Nat) (hd : Str)
    (hi : headers[i]? = some hd) (hempty : trim hd = []) :
    mapRow R proto headers values = mapRow R proto (headers.eraseIdx i) (values.eraseIdx i) := by
  have hlt : i < headers.length := by
    by_contra h
    rw [List.getElem?_eq_none (by omega)] at hi
    cases hi
  have hcols : ∀ col, (columns headers values)[i]? = some col → trim col.1 = [] := by
    intro col hcol
    unfold columns at hcol
    rw [List.getElem?_zip_eq_some] at hcol
    rw [hi] at hcol
    have : hd = col.1 := Option.some.inj hcol.1
    rw [← this]; exact hempty
  have e1 : mapLoop R proto headers values = (columns headers values).foldl (mapStep R) (MapState.init proto) :=
    rfl
  have e2 : mapLoop R proto (headers.eraseIdx i) (values.eraseIdx i) =
      (columns (headers.eraseIdx i) (values.eraseIdx i)).foldl (mapStep R) (MapState.init proto) := rfl
  unfold mapRow
  rw [e1, e2, columns_eraseIdx headers values i hlt,
    foldl_mapStep_eraseIdx R _ i (MapState.init proto) hcols]

/-! ## Claim about empty headers -/

/-- C14: a header that is empty after trimming contributes no key and its cell has no
influence.  If position `i` of the headers is such a header, `mapRow` gives the same result
(it ends in the same way and leaves the same `Object.prototype`) on two value lists that agree
at every position other than `i`, and that result is the one of `mapRow` on the headers and the
values with position `i` removed from both. -/
theorem mapRow_empty_header (R : FloatRuntime) (proto : Props) (headers values values2 : List Str) (i : Nat)
    (hd : Str) (hi : headers[i]? = some hd) (hempty : trim hd = [])
    (hdiff : ∀ j, j ≠ i → values[j]? = values2[j]?) :
    mapRow R proto headers values = mapRow R proto headers values2 ∧
      mapRow R proto headers values = mapRow R proto (headers.eraseIdx i) (values.eraseIdx i) := by
  have h1 := mapRow_eraseIdx R proto headers values i hd hi hempty
  have h2 := mapRow_eraseIdx R proto headers values2 i hd hi hempty
  refine ⟨?_, h1⟩
  rw [h1, h2]
  apply mapRow_congr
  apply rowVals_congr
  intro idx _
  rw [getD_eraseIdx, getD_eraseIdx]
  by_cases hlt : idx < i
  · simp only [hlt, if_true, List.getD_eq_getElem?_getD]
    rw [hdiff idx (by omega)]
  · simp only [hlt, if_false, List.getD_eq_getElem?_getD]
    rw [hdiff (idx + 1) (by omega)]

/-- C14 at the headers `name.firstName, (empty), name.lastName, age`. -/
theorem mapRow_empty_header_witness :
    mapRow sampleFloats Props.nil
        ["name.firstName".toList, " ".toList, "name.lastName".toList, "age".toList]
        ["Jane".toList, "x".toList, "Doe".toList, "30".toList] =
      mapRow sampleFloats Props.nil
        ["name.firstName".toList, " ".toList, "name.lastName".toList, "age".toList]
        ["Jane".toList, "y,z".toList, "Doe".toList, "30".toList] ∧
    mapRow sampleFloats Props.nil
        ["name.firstName".toList, " ".toList, "name.lastName".toList, "age".toList]
        ["Jane".toList, "x".toList, "Doe".toList, "30".toList] =
      mapRow sampleFloats Props.nil
        (["name.firstName".toList, " ".toList, "name.lastName".toList, "age".toList].eraseIdx 1)
        (["Jane".toList, "x".toList, "Doe".toList, "30".toList].eraseIdx 1) :=
  mapRow_empty_header sampleFloats Props.nil
    ["name.firstName".toList, " ".toList, "name.lastName".toList, "age".toList]
    ["Jane".toList, "x".toList, "Doe".toList, "30".toList]
    ["Jane".toList, "y,z".toList, "Doe".toList, "30".toList] 1 " ".toList (by decide) (by decide)
    (fun j hj => by
      match j, hj with
      | 0, _ => rfl
      | 1, h => exact absurd rfl h
      | 2, _ => rfl
      | 3, _ => rfl
      | n + 4, _ => rfl)

/-! ## The transaction of `insertUsersBatch` -/

/-- C15: for a non-empty batch one connection is requested.  When it is obtained, the client
receives `BEGIN`, the single insert statement and `COMMIT`, in this order, as long as each
succeeds; when one of them fails, the next statement sent is `ROLLBACK`, nothing else of the
batch is sent, and the call ends with an error (the error of the failed statement, or the one
of `ROLLBACK` when that fails too); and on each of these paths the connection is released
exactly once, as the last operation. -/
theorem insertUsersBatch_protocol (stringify : Props → Str) (ok : Nat → Bool)
    (rows : List Record) (hrows : rows ≠ []) (hconn : ok 0 = true) :
    ((insertUsersBatch stringify ok rows).trace.count DbEvent.connect = 1 ∧
      (insertUsersBatch stringify ok rows).trace.count DbEvent.release = 1 ∧
      (insertUsersBatch stringify ok rows).trace.getLast? = some DbEvent.release) ∧
    (ok 1 = true → ok 2 = true → ok 3 = true →
      insertUsersBatch stringify ok rows =
        { trace := [.connect, .begin,
            .insert (insertQuery rows) (insertValues stringify rows), .commit, .release],
          error := none }) ∧
    (ok 1 = false →
      (insertUsersBatch stringify ok rows).trace = [.connect, .begin, .rollback, .release] ∧
      (insertUsersBatch stringify ok rows).error = some (if ok 2 then 1 else 2)) ∧
    (ok 1 = true → ok 2 = false →
      (insertUsersBatch stringify ok rows).trace =
        [.connect, .begin, .insert (insertQuery rows) (insertValues stringify rows),
          .rollback, .release] ∧
      (insertUsersBatch stringify ok rows).error = some (if ok 3 then 2 else 3)) ∧
    (ok 1 = true → ok 2 = true → ok 3 = false →
      (insertUsersBatch stringify ok rows).trace =
        [.connect, .begin, .insert (insertQuery rows) (insertValues stringify rows),
          .commit, .rollback, .release] ∧
      (insertUsersBatch stringify ok rows).error = some (if ok 4 then 3 else 4)) := by
  have hlen : ¬ rows.length = 0 := fun h => hrows (List.length_eq_zero.1 h)
  unfold insertUsersBatch tryBlock
  simp only [hlen, if_false, hconn, if_true]
  cases h1 : ok 1 <;> cases h2 : ok 2 <;> cases h3 : ok 3 <;> cases h4 : ok 4 <;>
    simp [List.count_cons, h1, h2, h3, h4]

/-- C15 at a one-row batch whose insert statement fails. -/
theorem insertUsersBatch_protocol_witness :
    (insertUsersBatch sampleStringify (fun i => i != 2)
      [{ name := "Jane Doe".toList, age := .fin 30, address := none,
         additional_info := none }]).trace.count DbEvent.release = 1 ∧
    (insertUsersBatch sampleStringify (fun i => i != 2)
      [{ name := "Jane Doe".toList, age := .fin 30, address := none,
         additional_info := none }]).error = some 2 :=
  have h := insertUsersBatch_protocol sampleStringify (fun i => i != 2)
    [{ name := "Jane Doe".toList, age := .fin 30, address := none, additional_info := none }]
    (by decide) (by decide)
  ⟨h.1.2.1, (h.2.2.2.1 (by decide) (by decide)).2⟩

/-- When no connection is obtained, nothing is sent and nothing is released. -/
theorem insertUsersBatch_no_connection (stringify : Props → Str) (ok : Nat → Bool)
    (rows : List Record) (hrows : rows ≠ []) (hconn : ok 0 = false) :
    insertUsersBatch stringify ok rows = { trace := [.connect], error := some 0 } := by
  have hlen : ¬ rows.length = 0 := fun h => hrows (List.length_eq_zero.1 h)
  unfold insertUsersBatch
  simp [hlen, hconn]

/-! ## The statement built by `insertUsersBatch` -/

/-- When every operation succeeds, the call is the committed transaction. -/
theorem insertUsersBatch_all_ok (stringify : Props → Str) (rows : List Record)
    (hrows : rows ≠ []) :
    insertUsersBatch stringify (fun _ => true) rows =
      { trace := [.connect, .begin, .insert (insertQuery rows) (insertValues stringify rows),
          .commit, .release],
        error := none } := by
  have hlen : ¬ rows.length = 0 := fun h => hrows (List.length_eq_zero.1 h)
  unfold insertUsersBatch tryBlock
  simp [hlen]

theorem rowParams_length (stringify : Props → Str) (r : Record) :
    (rowParams stringify r).length = 4 := rfl

theorem insertValues_length (stringify : Props → Str) (rows : List Record) :
    (insertValues stringify rows).length = 4 * rows.length := by
  induction rows with
  | nil => rfl
  | cons r rows ih =>
    have : insertValues stringify (r :: rows) =
        rowParams stringify r ++ insertValues stringify rows := by
      simp [insertValues, List.flatMap_cons]
    rw [this, List.length_append, ih, rowParams_length, List.length_cons]
    omega

/-- The parameters of row `i` are at positions `4 i` to `4 i + 3`. -/
theorem insertValues_getElem? (stringify : Props → Str) (rows : List Record) :
    ∀ (i : Nat) (r : Record), rows[i]? = some r → ∀ j, j < 4 →
      (insertValues stringify rows)[4 * i + j]? = (rowParams stringify r)[j]? := by
  induction rows with
  | nil => intro i r h; simp at h
  | cons r0 rows ih =>
    intro i r h j hj
    have e : insertValues stringify (r0 :: rows) =
        rowParams stringify r0 ++ insertValues stringify rows := by
      simp [insertValues, List.flatMap_cons]
    rw [e]
    cases i with
    | zero =>
      have hr : r0 = r := by simpa using h
      rw [hr, List.getElem?_append_left (by rw [rowParams_length]; omega), Nat.mul_zero,
        Nat.zero_add]
    | succ i =>
      have h' : rows[i]? = some r := by simpa using h
      rw [List.getElem?_append_right (by rw [rowParams_length]; omega), rowParams_length]
      have : 4 * (i + 1) + j - 4 = 4 * i + j := by omega
      rw [this]
      exact ih i r h' j hj

/-- C16: for a batch of `n ≥ 1` records the statement has exactly `n` value tuples, joined by
commas after `VALUES`, and `4 n` parameters; tuple `i` is
`($4i+1, $4i+2, $4i+3::jsonb, $4i+4::jsonb)`, and the parameters at positions `4i`, `4i+1`,
`4i+2`, `4i+3` are the name of record `i`, its age, its address as JSON (null when the address
is null) and its additional information as JSON (null when it is null).  This is the statement
sent between `BEGIN` and `COMMIT`.  For an empty batch nothing is built, requested or sent. -/
theorem insertUsersBatch_statement (stringify : Props → Str) (rows : List Record)
    (hrows : 1 ≤ rows.length) :
    (valueTuples rows).length = rows.length ∧
    (insertValues stringify rows).length = 4 * rows.length ∧
    insertQuery rows =
      "INSERT INTO public.users (\"name\",age,address,additional_info) VALUES ".toList ++
        joinWith ",".toList (valueTuples rows) ++ ";".toList ∧
    (∀ (i : Nat) (r : Record), rows[i]? = some r →
      (valueTuples rows)[i]? = some
        ("($".toList ++ Nat.toDigits 10 (4 * i + 1) ++ ", $".toList ++
          Nat.toDigits 10 (4 * i + 2) ++ ", $".toList ++ Nat.toDigits 10 (4 * i + 3) ++
          "::jsonb, $".toList ++ Nat.toDigits 10 (4 * i + 4) ++ "::jsonb)".toList) ∧
      (insertValues stringify rows)[4 * i]? = some (SqlParam.text r.name) ∧
      (insertValues stringify rows)[4 * i + 1]? = some (SqlParam.num r.age) ∧
      (insertValues stringify rows)[4 * i + 2]? = some (jsonOrNull stringify r.address) ∧
      (insertValues stringify rows)[4 * i + 3]? =
        some (jsonOrNull stringify r.additional_info)) ∧
      jsonOrNull stringify none = SqlParam.null ∧
    (insertUsersBatch stringify (fun _ => true) rows).trace =
      [.connect, .begin, .insert (insertQuery rows) (insertValues stringify rows), .commit,
        .release] ∧
    (∀ ok : Nat → Bool, insertUsersBatch stringify ok [] = { trace := [], error := none }) := by
  have hne : rows ≠ [] := by
    intro e; rw [e] at hrows; simp at hrows
  refine ⟨by simp [valueTuples], insertValues_length stringify rows, ?_, ?_, rfl, ?_,
    fun ok => rfl⟩
  · unfold insertQuery
    have : "INSERT INTO public.users (".toList ++ joinWith ",".toList insertColumns ++
        ") VALUES ".toList =
        "INSERT INTO public.users (\"name\",age,address,additional_info) VALUES ".toList := by
      decide
    rw [this]
  · intro i r hi
    have hlt : i < rows.length := by
      by_contra h
      rw [List.getElem?_eq_none (by omega)] at hi
      cases hi
    have h0 := insertValues_getElem? stringify rows i r hi 0 (by omega)
    have h1 := insertValues_getElem? stringify rows i r hi 1 (by omega)
    have h2 := insertValues_getElem? stringify rows i r hi 2 (by omega)
    have h3 := insertValues_getElem? stringify rows i r hi 3 (by omega)
    refine ⟨?_, by simpa [rowParams] using h0, by simpa [rowParams] using h1,
      by simpa [rowParams] using h2, by simpa [rowParams] using h3⟩
    unfold valueTuples
    rw [List.getElem?_map, List.getElem?_range hlt]
    simp only [Option.map_some', placeholderTuple, Nat.mul_comm i 4]
  · rw [insertUsersBatch_all_ok stringify rows hne]

/-- C16 at a batch of two records. -/
theorem insertUsersBatch_statement_witness :
    insertQuery
      [{ name := "Jane Doe".toList, age := .fin 30, address := none, additional_info := none },
       { name := "John Roe".toList, age := .fin 41, address := none,
         additional_info := none }] =
      "INSERT INTO public.users (\"name\",age,address,additional_info) VALUES ".toList ++
        joinWith ",".toList (valueTuples
          [{ name := "Jane Doe".toList, age := .fin 30, address := none,
             additional_info := none },
           { name := "John Roe".toList, age := .fin 41, address := none,
             additional_info := none }]) ++ ";".toList ∧
    (insertValues sampleStringify
      [{ name := "Jane Doe".toList, age := .fin 30, address := none, additional_info := none },
       { name := "John Roe".toList, age := .fin 41, address := none,
         additional_info := none }]).length = 4 * 2 :=
  have h := insertUsersBatch_statement sampleStringify
    [{ name := "Jane Doe".toList, age := .fin 30, address := none, additional_info := none },
     { name := "John Roe".toList, age := .fin 41, address := none, additional_info := none }]
    (by decide)
  ⟨h.2.2.1, h.2.1⟩

/-! ## Lines without quotes -/

theorem splitOnChar_ne_nil (sep : Char) (s : Str) : splitOnChar sep s ≠ [] := by
  cases s with
  | nil => simp [splitOnChar]
  | cons c rest =>
    unfold splitOnChar
    by_cases h : c = sep
    · simp [h]
    · rw [if_neg h]
      split <;> simp

theorem splitOnChar_no_sep (sep : Char) (s : Str) (h : sep ∉ s) : splitOnChar sep s = [s] := by
  induction s with
  | nil => rfl
  | cons c rest ih =>
    have hc : c ≠ sep := fun e => h (by simp [e])
    have hr : sep ∉ rest := fun e => h (by simp [e])
    unfold splitOnChar
    rw [if_neg hc, ih hr]

theorem splitOnChar_sep_cons (sep : Char) (u : Str) :
    splitOnChar sep (sep :: u) = [] :: splitOnChar sep u := by
  rw [splitOnChar.eq_def]; simp

theorem splitOnChar_other_cons (sep c : Char) (u : Str) (hc : c ≠ sep) :
    splitOnChar sep (c :: u) =
      (c :: (splitOnChar sep u).head?.getD []) :: (splitOnChar sep u).tail := by
  rw [splitOnChar.eq_def]
  simp only [hc, if_false]
  cases hs : splitOnChar sep u with
  | nil => exact absurd hs (splitOnChar_ne_nil sep u)
  | cons p ps => simp

/-- Splitting distributes over a separator. -/
theorem splitOnChar_append (sep : Char) (s t : Str) :
    splitOnChar sep (s ++ sep :: t) =
      (splitOnChar sep s).dropLast ++
        (((splitOnChar sep s).getLast?.getD []) :: splitOnChar sep t) := by
  induction s with
  | nil => simp [splitOnChar, splitOnChar_sep_cons]
  | cons c rest ih =>
    by_cases hc : c = sep
    · subst hc
      rw [List.cons_append, splitOnChar_sep_cons, splitOnChar_sep_cons, ih]
      cases hs : splitOnChar c rest with
      | nil => exact absurd hs (splitOnChar_ne_nil c rest)
      | cons p ps => simp [List.dropLast_cons_of_ne_nil, List.getLast?_cons_cons]
    · rw [List.cons_append, splitOnChar_other_cons sep c _ hc,
        splitOnChar_other_cons sep c _ hc, ih]
      cases hs : splitOnChar sep rest with
      | nil => exact absurd hs (splitOnChar_ne_nil sep rest)
      | cons p ps =>
        cases ps with
        | nil => simp
        | cons q qs => simp [List.getLast?_cons_cons]

theorem splitOnChar_cons_sep (sep : Char) (pre rest : Str) (h : sep ∉ pre) :
    splitOnChar sep (pre ++ sep :: rest) = pre :: splitOnChar sep rest := by
  rw [splitOnChar_append, splitOnChar_no_sep sep pre h]
  simp

theorem dropFinalEmpty_cons (p : Str) (pieces : List Str) (h : pieces ≠ []) :
    dropFinalEmpty (p :: pieces) = p :: dropFinalEmpty pieces := by
  cases pieces with
  | nil => exact absurd rfl h
  | cons q qs =>
    unfold dropFinalEmpty
    rw [List.getLast?_cons_cons]
    by_cases hl : (q :: qs).getLast? = some []
    · rw [if_pos hl, if_pos hl, List.dropLast_cons_of_ne_nil (by simp)]
    · rw [if_neg hl, if_neg hl]

theorem mem_takeWhile_ne_comma (L : Str) : ',' ∉ L.takeWhile (fun c => c != ',') := by
  intro h
  have := List.mem_takeWhile_imp h
  simp at this

/-- On a line without quotes the tokenizer is the reference tokenizer. -/
theorem parseFrom_quoteFree (n : Nat) :
    ∀ (L : Str) (fields : List Str), L.length ≤ n → '"' ∉ L →
      parseFrom L fields = fields ++ splitTrim L := by
  induction n with
  | zero =>
    intro L fields hlen _
    have : L = [] := List.length_eq_zero.1 (by omega)
    subst this
    simp [parseFrom_nil, splitTrim, dropFinalEmpty, splitOnChar]
  | succ n ih =>
    intro L fields hlen hq
    cases L with
    | nil => simp [parseFrom_nil, splitTrim, dropFinalEmpty, splitOnChar]
    | cons ch rest =>
      have hch : ch ≠ '"' := fun e => hq (by simp [e])
      rw [parseFrom_plain ch rest fields hch]
      have hsplit : (ch :: rest).takeWhile (fun c => c != ',') ++ skipToComma (ch :: rest) =
          ch :: rest := List.takeWhile_append_dropWhile _ _
      have hpre := mem_takeWhile_ne_comma (ch :: rest)
      cases hsuf : skipToComma (ch :: rest) with
      | nil =>
        rw [hsuf, List.append_nil] at hsplit
        rw [hsplit] at hpre ⊢
        simp only [skipComma, parseFrom_nil]
        unfold splitTrim
        rw [splitOnChar_no_sep ',' _ hpre]
        simp [dropFinalEmpty]
      | cons c rest2 =>
        have hc : c = ',' := by
          have h1 := List.head?_dropWhile_not (fun c => c != ',') (ch :: rest)
          unfold skipToComma at hsuf
          rw [hsuf] at h1
          simpa using h1
        subst hc
        rw [hsuf] at hsplit
        have hlen2 : rest2.length ≤ n := by
          have := congrArg List.length hsplit
          simp only [List.length_append, List.length_cons] at this hlen
          omega
        have hq2 : '"' ∉ rest2 := by
          intro h
          apply hq
          rw [← hsplit]
          simp [h]
        simp only [skipComma, if_true]
        rw [ih rest2 _ hlen2 hq2]
        unfold splitTrim
        conv_rhs => rw [← hsplit]
        rw [splitOnChar_cons_sep ',' _ rest2 hpre,
          dropFinalEmpty_cons _ _ (splitOnChar_ne_nil ',' rest2)]
        simp

theorem splitOnChar_getLast (sep : Char) (s : Str) :
    (splitOnChar sep s).getLast? = some [] → s = [] ∨ s.getLast? = some sep := by
  induction s with
  | nil => intro _; exact Or.inl rfl
  | cons c rest ih =>
    intro h
    right
    by_cases hc : c = sep
    · subst hc
      rw [splitOnChar_sep_cons] at h
      cases hs : splitOnChar c rest with
      | nil => exact absurd hs (splitOnChar_ne_nil c rest)
      | cons p ps =>
        rw [hs, List.getLast?_cons_cons, ← hs] at h
        rcases ih h with hr | hr
        · rw [hr]; rfl
        · cases rest with
          | nil => simp at hr
          | cons d ds => rw [List.getLast?_cons_cons]; exact hr
    · rw [splitOnChar_other_cons sep c rest hc] at h
      cases hs : splitOnChar sep rest with
      | nil => exact absurd hs (splitOnChar_ne_nil sep rest)
      | cons p ps =>
        rw [hs] at h
        cases ps with
        | nil => simp at h
        | cons q qs =>
          simp only [List.tail_cons, List.getLast?_cons_cons] at h
          have h3 : (splitOnChar sep rest).getLast? = some [] := by
            rw [hs, List.getLast?_cons_cons]; exact h
          rcases ih h3 with hr | hr
          · rw [hr] at hs; simp [splitOnChar] at hs
          · cases rest with
            | nil => simp at hr
            | cons d ds => rw [List.getLast?_cons_cons]; exact hr

theorem dropLast_append_getLastD (X : List Str) (hX : X ≠ []) :
    X.dropLast ++ [X.getLast?.getD []] = X := by
  obtain ⟨ys, y, rfl⟩ : ∃ ys y, X = ys ++ [y] :=
    ⟨X.dropLast, X.getLast hX, (List.dropLast_append_getLast hX).symm⟩
  simp

/-! ## Claims about lines without quotes and about trailing garbage -/

/-- C17: on a line `L` without double quotes, `parseCsvLine` is the reference tokenizer: split
at every comma, drop the final piece when it is empty, trim the other pieces.  Hence, for a
non-empty `L` that does not end in a comma, `L,` gives the same fields as `L`, while `L, ` (a
comma and a space) gives the fields of `L` followed by one empty field; and interior empty
fields are kept: `a,,b` gives three fields. -/
theorem parseCsvLine_quoteFree (L : Str) (hq : '"' ∉ L) :
    parseCsvLine L = splitTrim L ∧
    (L ≠ [] → L.getLast? ≠ some ',' →
      parseCsvLine (L ++ ",".toList) = parseCsvLine L ∧
      parseCsvLine (L ++ ", ".toList) = parseCsvLine L ++ [[]]) ∧
    parseCsvLine "a,,b".toList = ["a".toList, [], "b".toList] := by
  have hmain : ∀ M : Str, '"' ∉ M → parseCsvLine M = splitTrim M := by
    intro M hM
    rw [parseCsvLine_eq, parseFrom_quoteFree M.length M [] (Nat.le_refl _) hM]
    rfl
  refine ⟨hmain L hq, fun hne hlast => ?_, by decide⟩
  have hnot : ¬ (splitOnChar ',' L).getLast? = some [] := by
    intro h
    rcases splitOnChar_getLast ',' L h with h1 | h1
    · exact hne h1
    · exact hlast h1
  have hL : splitTrim L = (splitOnChar ',' L).map trim := by
    unfold splitTrim dropFinalEmpty
    rw [if_neg hnot]
  have hX := dropLast_append_getLastD _ (splitOnChar_ne_nil ',' L)
  constructor
  · have hq1 : '"' ∉ L ++ ",".toList := by
      intro h
      rcases List.mem_append.1 h with h | h
      · exact hq h
      · revert h; decide
    rw [hmain _ hq1, hmain L hq, hL]
    have e : L ++ ",".toList = L ++ ',' :: [] := rfl
    unfold splitTrim
    rw [e, splitOnChar_append]
    have e2 : (splitOnChar ',' L).dropLast ++
        ((splitOnChar ',' L).getLast?.getD [] :: splitOnChar ',' []) =
        splitOnChar ',' L ++ [[]] := by
      have : splitOnChar ',' [] = [[]] := rfl
      rw [this]
      conv_rhs => rw [← hX]
      simp
    rw [e2]
    unfold dropFinalEmpty
    simp
  · have hq1 : '"' ∉ L ++ ", ".toList := by
      intro h
      rcases List.mem_append.1 h with h | h
      · exact hq h
      · revert h; decide
    rw [hmain _ hq1, hmain L hq, hL]
    have e : L ++ ", ".toList = L ++ ',' :: [' '] := rfl
    unfold splitTrim
    rw [e, splitOnChar_append]
    have e2 : (splitOnChar ',' L).dropLast ++
        ((splitOnChar ',' L).getLast?.getD [] :: splitOnChar ',' [' ']) =
        splitOnChar ',' L ++ [[' ']] := by
      have : splitOnChar ',' [' '] = [[' ']] := by decide
      rw [this]
      conv_rhs => rw [← hX]
      simp
    rw [e2]
    unfold dropFinalEmpty
    have htrim : trim [' '] = [] := by decide
    simp [htrim]

/-- C17 at the line `x, y`. -/
theorem parseCsvLine_quoteFree_witness :
    parseCsvLine ("x, y".toList ++ ",".toList) = parseCsvLine "x, y".toList ∧
    parseCsvLine ("x, y".toList ++ ", ".toList) = parseCsvLine "x, y".toList ++ [[]] :=
  (parseCsvLine_quoteFree "x, y".toList (by decide)).2.1 (by decide) (by decide)

/-- C18, as stated, fails when the garbage begins with a double quote: after `"a"` the text
`"x` is not skipped, its first quote is read as the second half of an escaped quote, and the
line `"a""x` gives the single field `a"x`. -/
theorem parseCsvLine_garbage_quote :
    '"' ∉ "a".toList ∧ ',' ∉ "\"x".toList ∧
    parseCsvLine ("\"".toList ++ "a".toList ++ "\"".toList ++ "\"x".toList) =
      ["a\"x".toList] := by
  decide

/-- C18 (amended): for a text `s` without double quote, a text `g` without comma that does not
begin with a double quote (it may contain double quotes further on), and a non-empty text `b`
without comma or quote, the line `"s"g` gives `[s]` and the line `"s"g,b` gives
`[s, trim b]`: no character of `g` appears in a field. -/
theorem parseCsvLine_trailing_garbage (s g b : Str) (hs : '"' ∉ s) (hg : ',' ∉ g)
    (hgq : g.head? ≠ some '"') (hb : b ≠ []) (hbq : '"' ∉ b) (hbc : ',' ∉ b) :
    parseCsvLine ("\"".toList ++ s ++ "\"".toList ++ g) = [s] ∧
    parseCsvLine ("\"".toList ++ s ++ "\"".toList ++ g ++ ",".toList ++ b) = [s, trim b] := by
  constructor
  · have e : "\"".toList ++ s ++ "\"".toList ++ g = '"' :: (escapeQuotes s ++ '"' :: g) := by
      rw [escapeQuotes_of_not_mem s hs]; simp
    rw [parseCsvLine_eq, e, parseFrom_quote, scanQuoted_escape s g hgq []]
    simp [skipToComma_self g hg, skipComma, parseFrom_nil]
  · have e : "\"".toList ++ s ++ "\"".toList ++ g ++ ",".toList ++ b =
        '"' :: (escapeQuotes s ++ '"' :: (g ++ ',' :: b)) := by
      rw [escapeQuotes_of_not_mem s hs]; simp
    have htail : (g ++ ',' :: b).head? ≠ some '"' := by
      cases g with
      | nil => simp
      | cons c g => simpa using hgq
    rw [parseCsvLine_eq, e, parseFrom_quote, scanQuoted_escape s _ htail []]
    simp only [List.nil_append, skipToComma_append g b hg, skipComma, if_true]
    rw [parseFrom_plain_end b _ hb hbq hbc]
    rfl

/-- C18 (amended) at `"Smith" Jr"x` followed by the field `b`. -/
theorem parseCsvLine_trailing_garbage_witness :
    parseCsvLine ("\"".toList ++ "Smith".toList ++ "\"".toList ++ " Jr\"x".toList) =
      ["Smith".toList] ∧
    parseCsvLine ("\"".toList ++ "Smith".toList ++ "\"".toList ++ " Jr\"x".toList ++
      ",".toList ++ "b".toList) = ["Smith".toList, trim "b".toList] :=
  parseCsvLine_trailing_garbage "Smith".toList " Jr\"x".toList "b".toList
    (by decide) (by decide) (by decide) (by decide) (by decide) (by decide)

/-! ## Claims about unrelated paths and about null objects -/

/-- C19: the code at the failing inputs.  `setNested(obj, ['__proto__', 'x'], 1)` with
`obj = {}` does not leave the rest alone: `obj` keeps its own properties, but the value is
written to `Object.prototype`, so that afterwards `obj.x`, like `o.x` for every object `o`
without an own property `x`, reads 1 where it read `undefined`, although the paths `x` and
`__proto__.x` diverge.  `setNested(obj, ['__proto__', '__proto__', 'x'], 1)` ends with a
TypeError.  And once `Object.prototype` holds an object under `note`, a later
`setNested(obj, ['note', 'b'], 2)` on a fresh `obj` writes into that shared object and leaves
`obj` empty.  In `mapRow` the headers `__proto__.note.a` and `note.b` do this: the record has no
additional information. -/
theorem setNested_writes_prototype :
    setNested Props.nil Props.nil [protoKey, "x".toList] (JsVal.num (.fin 1)) =
      { obj := Props.nil,
        proto := Props.cons "x".toList (Entry.val (JsVal.num (.fin 1))) Props.nil,
        threw := false } ∧
    (setNested Props.nil Props.nil [protoKey, protoKey, "x".toList]
      (JsVal.num (.fin 1))).threw = true ∧
    setNested
        (Props.cons "note".toList
          (Entry.obj (Props.cons "a".toList (Entry.val (JsVal.num (.fin 1))) Props.nil))
          Props.nil)
        Props.nil ["note".toList, "b".toList] (JsVal.num (.fin 2)) =
      { obj := Props.nil,
        proto := Props.cons "note".toList
          (Entry.obj (Props.cons "a".toList (Entry.val (JsVal.num (.fin 1)))
            (Props.cons "b".toList (Entry.val (JsVal.num (.fin 2))) Props.nil)))
          Props.nil,
        threw := false } ∧
    mapRow sampleFloats Props.nil
        (parseCsvLine "name.firstName,name.lastName,age,__proto__.note.a,note.b".toList)
        (parseCsvLine "Jane,Doe,30,1,2".toList) =
      { result := RowResult.accepted
          { name := "Jane Doe".toList, age := .fin 30, address := none,
            additional_info := none },
        proto := Props.cons "note".toList
          (Entry.obj (Props.cons "a".toList (Entry.val (JsVal.num (.fin 1)))
            (Props.cons "b".toList (Entry.val (JsVal.num (.fin 2))) Props.nil)))
          Props.nil } := by
  decide

/-- C20: the code at the failing inputs.  With the headers
`name.firstName,name.lastName,age,address.__proto__` the row `Jane,Doe,30,x` is accepted with
the address `null`, although a header starts with `address.`: the assignment to `__proto__`
runs the setter of `Object.prototype`, and `address` stays without keys.  With the headers
`name.firstName,name.lastName,age,__proto__.polluted` the row `Jane,Doe,30,yes` is accepted
without additional information, although `__proto__.polluted` is none of the three core
columns and does not start with `address.`: the value is written to `Object.prototype`.  With
the key `city` in the place of `__proto__`, respectively the header `polluted`, the mappings
are there. -/
theorem mapRow_proto_header_null :
    IsAddressHeader "address.__proto__".toList ∧
    mapRow sampleFloats Props.nil
        (parseCsvLine "name.firstName,name.lastName,age,address.__proto__".toList)
        (parseCsvLine "Jane,Doe,30,x".toList) =
      { result := RowResult.accepted
          { name := "Jane Doe".toList, age := .fin 30, address := none,
            additional_info := none },
        proto := Props.nil } ∧
    mapRow sampleFloats Props.nil
        (parseCsvLine "name.firstName,name.lastName,age,__proto__.polluted".toList)
        (parseCsvLine "Jane,Doe,30,yes".toList) =
      { result := RowResult.accepted
          { name := "Jane Doe".toList, age := .fin 30, address := none,
            additional_info := none },
        proto := Props.cons "polluted".toList (Entry.val (JsVal.str "yes".toList)) Props.nil } ∧
    mapRow sampleFloats Props.nil
        (parseCsvLine "name.firstName,name.lastName,age,address.city".toList)
        (parseCsvLine "Jane,Doe,30,x".toList) =
      { result := RowResult.accepted
          { name := "Jane Doe".toList, age := .fin 30,
            address := some (Props.cons "city".toList (Entry.val (JsVal.str "x".toList))
              Props.nil),
            additional_info := none },
        proto := Props.nil } ∧
    mapRow sampleFloats Props.nil
        (parseCsvLine "name.firstName,name.lastName,age,polluted".toList)
        (parseCsvLine "Jane,Doe,30,yes".toList) =
      { result := RowResult.accepted
          { name := "Jane Doe".toList, age := .fin 30, address := none,
            additional_info := some (Props.cons "polluted".toList
              (Entry.val (JsVal.str "yes".toList)) Props.nil) },
        proto := Props.nil } := by
  decide

/-! ## When `setNested` can throw

A TypeError needs the key `__proto__`: a path without it is walked to its end, whatever
`Object.prototype` holds. -/

theorem objGet_objSet_same :
    ∀ (o : Props) (key : Str) (value : Entry), objGet (objSet o key value) key = some value
  | .nil, key, value => by simp [objSet, objGet]
  | .bare, key, value => by simp [objSet, objGet]
  | .cons k v rest, key, value => by
    have ih := objGet_objSet_same rest key value
    by_cases h : k = key
    · simp [objSet, objGet, h]
    · simp [objSet, objGet, h, ih]

theorem nodeAt_cons (top : Props) (key : Str) (rest : List Str) (node : Props)
    (h : nodeAt top (key :: rest) = some node) :
    ∃ child, objGet top key = some (Entry.obj child) ∧ nodeAt child rest = some node := by
  unfold nodeAt at h
  cases hg : objGet top key with
  | none => rw [hg] at h; cases h
  | some x =>
    cases x with
    | val v => rw [hg] at h; cases h
    | obj child => rw [hg] at h; exact ⟨child, rfl, h⟩

theorem nodeAt_cons_of (top : Props) (key : Str) (rest : List Str) (child : Props)
    (h : objGet top key = some (Entry.obj child)) :
    nodeAt top (key :: rest) = nodeAt child rest := by
  rw [nodeAt, h]

/-- The object at the end of a path is the one `modifyAt` changes. -/
theorem nodeAt_modifyAt (f : Props → Props) (path : List Str) :
    ∀ (top node : Props), nodeAt top path = some node →
      nodeAt (modifyAt f top path) path = some (f node) := by
  induction path with
  | nil =>
    intro top node h
    have e : top = node := by simpa [nodeAt] using h
    rw [e]
    rfl
  | cons key rest ih =>
    intro top node h
    obtain ⟨child, hg, hc⟩ := nodeAt_cons top key rest node h
    have e : modifyAt f top (key :: rest) =
        objSet top key (Entry.obj (modifyAt f child rest)) := by
      rw [modifyAt, hg]
    rw [e, nodeAt_cons_of _ key rest _ (objGet_objSet_same _ _ _)]
    exact ih child node hc

theorem nodeAt_append (path : List Str) :
    ∀ (top node child : Props) (key : Str), nodeAt top path = some node →
      objGet node key = some (Entry.obj child) → nodeAt top (path ++ [key]) = some child := by
  induction path with
  | nil =>
    intro top node child key h hg
    have e : top = node := by simpa [nodeAt] using h
    rw [e]
    rw [List.nil_append, nodeAt_cons_of node key [] child hg]
    rfl
  | cons k rest ih =>
    intro top node child key h hg
    obtain ⟨c, hk, hc⟩ := nodeAt_cons top k rest node h
    rw [List.cons_append, nodeAt_cons_of top k _ c hk]
    exact ih c node child key hc hg

/-- After the assignment `cur[key] = {}` the path `cur ++ [key]` leads to the fresh object. -/
theorem nodeAt_fresh (top : Props) (cur : List Str) (key : Str) (node : Props)
    (h : nodeAt top cur = some node) :
    nodeAt (modifyAt (fun n => objSet n key (Entry.obj Props.nil)) top cur) (cur ++ [key]) =
      some Props.nil :=
  nodeAt_append cur _ _ Props.nil key
    (nodeAt_modifyAt (fun n => objSet n key (Entry.obj Props.nil)) cur top node h)
    (objGet_objSet_same node key _)

/-- At a key other than `__proto__` the loop goes on, and `cur` names an object again. -/
theorem protoDescend_valid (proto : Props) (cur : List Str) (key : Str) (node : Props)
    (h : nodeAt proto cur = some node) (hkey : key ≠ protoKey) :
    ∃ proto1 cur1 node1, protoDescend proto cur key = some (proto1, cur1) ∧
      nodeAt proto1 cur1 = some node1 := by
  have hfresh := nodeAt_fresh proto cur key node h
  unfold protoDescend
  simp only [h]
  by_cases hc : cur = []
  · subst hc
    have hn : proto = node := by simpa [nodeAt] using h
    subst hn
    simp only [if_true, if_neg hkey, List.nil_append] at hfresh ⊢
    cases hg : objGet proto key with
    | none => exact ⟨_, _, _, rfl, hfresh⟩
    | some x =>
      cases x with
      | val v => exact ⟨_, _, _, rfl, hfresh⟩
      | obj child => exact ⟨_, _, child, rfl, by rw [nodeAt_cons_of proto key [] child hg]; rfl⟩
  · simp only [if_neg hc]
    cases hg : objGet node key with
    | some x =>
      cases x with
      | val v => exact ⟨_, _, _, rfl, hfresh⟩
      | obj child => exact ⟨_, _, child, rfl, nodeAt_append cur proto node child key h hg⟩
    | none =>
      simp only []
      by_cases hb : isBare node = true
      · rw [if_pos hb]; exact ⟨_, _, _, rfl, hfresh⟩
      · rw [if_neg hb, if_neg hkey]
        cases hp : objGet proto key with
        | none => exact ⟨_, _, _, rfl, hfresh⟩
        | some x =>
          cases x with
          | val v => exact ⟨_, _, _, rfl, hfresh⟩
          | obj child =>
            exact ⟨_, _, child, rfl, by rw [nodeAt_cons_of proto key [] child hp]; rfl⟩

theorem setInProto_no_throw (path : List Str) :
    ∀ (proto : Props) (cur : List Str) (node : Props) (value : JsVal),
      nodeAt proto cur = some node → protoKey ∉ path →
        (setInProto proto cur path value).2 = false := by
  induction path with
  | nil => intro proto cur node value _ _; rfl
  | cons key rest ih =>
    intro proto cur node value h hfree
    cases rest with
    | nil =>
      unfold setInProto protoAssign
      simp only [h]
      split_ifs <;> rfl
    | cons next more =>
      have hkey : key ≠ protoKey := fun e => hfree (by rw [e]; simp)
      obtain ⟨proto1, cur1, node1, hd, hv⟩ := protoDescend_valid proto cur key node h hkey
      rw [setInProto, hd]
      exact ih proto1 cur1 node1 value hv (fun hm => hfree (List.mem_cons_of_mem _ hm))

/-- A call of `setNested` whose path has no segment `__proto__` does not throw. -/
theorem setNested_no_throw (proto : Props) (path : List Str) :
    ∀ (obj : Props) (value : JsVal), protoKey ∉ path →
      (setNested proto obj path value).threw = false := by
  induction path with
  | nil => intro obj value _; rfl
  | cons key rest ih =>
    intro obj value hfree
    cases rest with
    | nil => rfl
    | cons next more =>
      have hkey : key ≠ protoKey := fun e => hfree (by rw [e]; simp)
      have hrest : protoKey ∉ next :: more := fun hm => hfree (List.mem_cons_of_mem _ hm)
      unfold setNested
      cases hg : objGet obj key with
      | some x =>
        cases x with
        | val v => exact ih Props.nil value hrest
        | obj child => exact ih child value hrest
      | none =>
        simp only []
        by_cases hb : isBare obj = true
        · rw [if_pos hb]; exact ih Props.nil value hrest
        · rw [if_neg hb, if_neg hkey]
          cases hp : objGet proto key with
          | none => exact ih Props.nil value hrest
          | some x =>
            cases x with
            | val v => exact ih Props.nil value hrest
            | obj child =>
              exact setInProto_no_throw (next :: more) proto [key] child value
                (by rw [nodeAt_cons_of proto key [] child hp]; rfl) hrest

/-- A header without a segment `__proto__`. -/
theorem mapStep_no_throw (R : FloatRuntime) (st : MapState) (col : Str × Str)
    (ht : st.threw = false) (hfree : protoKey ∉ splitOnChar '.' (trim col.1)) :
    (mapStep R st col).threw = false := by
  unfold mapStep
  simp only [ht, Bool.false_eq_true, if_false]
  split_ifs
  · exact ht
  · rfl
  · rfl
  · rfl
  · exact setNested_no_throw _ _ _ _ (fun hm => hfree (List.mem_of_mem_drop hm))
  · exact setNested_no_throw _ _ _ _ hfree
  · rfl

/-- When no header has a segment `__proto__`, `mapRow` does not throw, whatever
`Object.prototype` holds. -/
theorem mapRow_no_throw (R : FloatRuntime) (proto : Props) (headers values : List Str)
    (hfree : ∀ h ∈ headers, protoKey ∉ splitOnChar '.' (trim h)) :
    (mapLoop R proto headers values).threw = false ∧
      (mapRow R proto headers values).result ≠ RowResult.threw := by
  have key : ∀ (cols : List (Str × Str)) (st : MapState), st.threw = false →
      (∀ col ∈ cols, protoKey ∉ splitOnChar '.' (trim col.1)) →
        (cols.foldl (mapStep R) st).threw = false := by
    intro cols
    induction cols with
    | nil => intro st h _; exact h
    | cons col cols ih =>
      intro st h hcols
      exact ih _ (mapStep_no_throw R st col h (hcols col (by simp)))
        (fun c hc => hcols c (by simp [hc]))
  have h1 : (mapLoop R proto headers values).threw = false := by
    apply key _ _ rfl
    intro col hcol
    exact hfree col.1 (by
      rw [← columns_map_fst headers values]
      exact List.mem_map_of_mem _ hcol)
  refine ⟨h1, fun e => ?_⟩
  rw [(mapRow_threw_iff R proto headers values).1 e] at h1
  cases h1

theorem rowResults_no_throw (R : FloatRuntime) (headers : List Str)
    (hfree : ∀ h ∈ headers, protoKey ∉ splitOnChar '.' (trim h)) :
    ∀ (rows : List Str) (proto : Props), RowResult.threw ∉ rowResults R headers proto rows := by
  intro rows
  induction rows with
  | nil => intro proto; simp [rowResults]
  | cons line rest ih =>
    intro proto
    rw [rowResults, List.mem_cons, not_or]
    exact ⟨fun e => (mapRow_no_throw R proto headers (parseCsvLine line) hfree).2 e.symm,
      ih _⟩

/-- An input whose header line has no header with a segment `__proto__`: `mapRow` throws on no
row, whatever `Object.prototype` holds at the start. -/
theorem rowOutcomes_no_throw (R : FloatRuntime) (proto : Props) (lines : List Str)
    (hfree : ∀ header ∈ (dataLines lines).head?, ∀ h ∈ (parseCsvLine header).map trim,
      protoKey ∉ splitOnChar '.' (trim h)) :
    RowResult.threw ∉ rowOutcomes R proto lines := by
  unfold rowOutcomes
  cases hd : dataLines lines with
  | nil => simp
  | cons header rows =>
    rw [hd] at hfree
    exact rowResults_no_throw R _ (hfree header (by simp)) rows proto

end CsvJson
